import Mathlib

/-!
Verification development for the `b4u2cc` protocol-translating reverse proxy.

The TypeScript sources are shallowly embedded in Lean:
* JavaScript primitives (`trim`, `parseFloat`, `Number`, truthiness) are
  modelled over `String` / `ℚ`; `NaN`/`Infinity` results are modelled as
  `none` (all uses in the sources only distinguish finite vs non-finite).
* `undefined`/`null`-able values are `Option`s.
* The two generations of the code base are kept in separate namespaces:
  `Proxy` for the flat `src/*.ts` layout (config.ts, upstream.ts,
  claude_writer.ts, handle_openai_stream.ts, …) and `AIClient` for the
  `ai_client/` layout (request_context.ts).
-/

/-- ASCII whitespace as used by JS `trim` / `parseFloat` on the inputs the
proxy deals with. -/
def isJsWs (c : Char) : Bool := c = ' ' || c = '\t' || c = '\n' || c = '\r'

/-- JS `String.prototype.trim`. -/
def jsTrim (s : String) : String :=
  ⟨((s.data.dropWhile isJsWs).reverse.dropWhile isJsWs).reverse⟩

/-- JS truthiness of a possibly-undefined string: `undefined`, `null` and
`""` are falsy. -/
def jsTruthy : Option String → Bool
  | none => false
  | some s => !(s = "")

/-- Numeric value of a digit list (most significant first). -/
def digitsToNat (l : List Char) : Nat :=
  l.foldl (fun a c => a * 10 + (c.toNat - 48)) 0

/-- An exact decimal number `man * 10 ^ exp`: the idealized value of a JS
numeric literal.  (Kept unnormalized so that all operations reduce in the
kernel; `DecNum.toQ` gives the rational value for specification
statements.) -/
structure DecNum where
  man : ℤ
  exp : ℤ
deriving Repr, DecidableEq

/-- The rational value of a `DecNum`. -/
def DecNum.toQ (d : DecNum) : ℚ := (d.man : ℚ) * (10 : ℚ) ^ d.exp

/-- `1.0`. -/
def DecNum.one : DecNum := ⟨1, 0⟩

/-- `0`. -/
def DecNum.zero : DecNum := ⟨0, 0⟩

/-- JS `num / 100` on an exact decimal. -/
def DecNum.div100 (d : DecNum) : DecNum := ⟨d.man, d.exp - 2⟩

/-- JS `num > 0` (as a `Bool`): the sign of the mantissa. -/
def DecNum.isPos (d : DecNum) : Bool := 0 < d.man

/-- JS `num <= 0` (as a `Bool`). -/
def DecNum.isNonPos (d : DecNum) : Bool := d.man ≤ 0

theorem DecNum.toQ_pos (d : DecNum) (h : 0 < d.man) : 0 < d.toQ := by
  unfold DecNum.toQ
  have h10 : (0 : ℚ) < (10 : ℚ) ^ d.exp := by positivity
  have hm : (0 : ℚ) < (d.man : ℚ) := by exact_mod_cast h
  exact mul_pos hm h10

/-- Core of the JS float grammar: sign, integer digits, optional fraction,
optional exponent.  Returns the exact decimal value and the unconsumed
remainder, or `none` when no digit could be read (JS `NaN`). -/
def readJsFloat (l : List Char) : Option (DecNum × List Char) :=
  let (sgn, l1) :=
    match l with
    | c :: rest =>
      if c = '-' then ((-1 : ℤ), rest) else if c = '+' then ((1 : ℤ), rest) else ((1 : ℤ), l)
    | [] => ((1 : ℤ), l)
  let ip := l1.takeWhile Char.isDigit
  let l2 := l1.dropWhile Char.isDigit
  let (fp, l3) :=
    match l2 with
    | c :: rest =>
      if c = '.' then (rest.takeWhile Char.isDigit, rest.dropWhile Char.isDigit)
      else (([] : List Char), l2)
    | [] => (([] : List Char), l2)
  if ip.isEmpty && fp.isEmpty then none
  else
    let man : ℤ := sgn * ((digitsToNat ip * 10 ^ fp.length + digitsToNat fp : ℕ) : ℤ)
    let (e, l4) : ℤ × List Char :=
      match l3 with
      | c :: rest =>
        if c = 'e' || c = 'E' then
          let (es, rest2) :=
            match rest with
            | d :: r2 =>
              if d = '-' then ((-1 : ℤ), r2) else if d = '+' then ((1 : ℤ), r2) else ((1 : ℤ), rest)
            | [] => ((1 : ℤ), rest)
          let ed := rest2.takeWhile Char.isDigit
          if ed.isEmpty then ((0 : ℤ), l3) else (es * (digitsToNat ed : ℤ), rest2.dropWhile Char.isDigit)
        else ((0 : ℤ), l3)
      | [] => ((0 : ℤ), l3)
    some (⟨man, e - fp.length⟩, l4)

/-- JS `parseFloat`: skip leading whitespace, parse the longest numeric
prefix, ignore trailing garbage; `NaN` (no numeric prefix) and the
`Infinity` forms are modelled as `none`. -/
def jsParseFloat (s : String) : Option DecNum :=
  (readJsFloat (s.data.dropWhile isJsWs)).map Prod.fst

/-- JS `Number(string)`: trims, maps `""` to `0`, otherwise requires the
whole string to be numeric (`NaN` modelled as `none`; hex forms are not
used by the sources and not modelled). -/
def jsNumber (s : String) : Option DecNum :=
  let t := jsTrim s
  if t = "" then some DecNum.zero
  else
    match readJsFloat t.data with
    | some (q, []) => some q
    | _ => none

/-- Last character test (JS `s.toLowerCase().endsWith("x")`). -/
def lowerEndsWithX (s : String) : Bool :=
  match s.data.getLast? with
  | some c => c = 'x' || c = 'X'
  | none => false

/-- First character test (JS `s.toLowerCase().startsWith("x")`). -/
def lowerStartsWithX (s : String) : Bool :=
  match s.data with
  | c :: _ => c = 'x' || c = 'X'
  | [] => false

/-- JS `s.slice(0, -1)`. -/
def sliceDropLast (s : String) : String := ⟨s.data.dropLast⟩

/-- JS `s.slice(1)`. -/
def sliceDropFirst (s : String) : String := ⟨s.data.drop 1⟩

/-- JS `s.slice(1, -1)`. -/
def sliceInner (s : String) : String := ⟨(s.data.drop 1).dropLast⟩

/-- The double-quote character. -/
def dq : Char := '"'

/-- The single-quote character (written via its code point to keep the
file free of stray quote tokens). -/
def sqChar : Char := Char.ofNat 39

/-- JS `s.startsWith(q) && s.endsWith(q)` for a one-character quote. -/
def wrappedIn (q : Char) (s : String) : Bool :=
  match s.data with
  | c :: _ => c = q && s.data.getLast? = some q
  | [] => false

namespace Proxy

/-- `src/config.ts` — `ChannelConfig`. -/
structure ChannelConfig where
  name : String
  baseUrl : String
  apiKey : Option String
deriving Repr, DecidableEq

/-- `src/config.ts` — `UpstreamConfig` (numbered multi-upstream entry). -/
structure UpstreamConfig where
  baseUrl : String
  apiKey : Option String
  requestModel : String
  nameModel : String
deriving Repr, DecidableEq

/-- `src/config.ts` — `ProxyConfig`.  Numeric env fields keep their JS
`Number(...)` result (`none` = `NaN`). -/
structure ProxyConfig where
  port : Option DecNum
  host : String
  upstreamConfigs : List UpstreamConfig
  channelConfigs : List ChannelConfig
  upstreamBaseUrl : Option String
  upstreamApiKey : Option String
  upstreamModelOverride : Option String
  clientApiKey : Option String
  requestTimeoutMs : Option DecNum
  aggregationIntervalMs : Option DecNum
  maxRequestsPerMinute : Option DecNum
  tokenMultiplier : DecNum
  autoPort : Bool
  passthroughApiKey : Bool
deriving Repr

/-- `src/config.ts` — `parseTokenMultiplier`, the `%` branch: for a value
ending in `%`, parse the number before it and return `num / 100` when it
is finite and positive; otherwise fall through (`none`). -/
def pctBranch (s2 : String) : Option DecNum :=
  if s2.data.getLast? = some '%' then
    match jsParseFloat (sliceDropLast s2) with
    | some n => if n.isPos then some n.div100 else none
    | none => none
  else none

/-- `src/config.ts` — `parseTokenMultiplier`, the `x`-form handling:
strip a trailing or leading `x`/`X` and re-trim. -/
def stripXForm (s2 : String) : String :=
  if lowerEndsWithX s2 then jsTrim (sliceDropLast s2)
  else if lowerStartsWithX s2 then jsTrim (sliceDropFirst s2)
  else s2

/-- `src/config.ts` — `parseTokenMultiplier`, final guard:
`!Number.isFinite(num) || num <= 0` yields `1.0`. -/
def clampMultiplier : Option DecNum → DecNum
  | some n => if n.isNonPos then DecNum.one else n
  | none => DecNum.one

/-- `src/config.ts` — `parseTokenMultiplier`.  Follows the source line by
line: empty/undefined guard, trim, unwrap of a quoted value, the `%`
branch, the `x`-suffix/prefix forms, and the final non-finite/`≤ 0`
fallback to `1.0`. -/
def parseTokenMultiplier (raw : Option String) : DecNum :=
  match raw with
  | none => DecNum.one
  | some raw0 =>
    if raw0 = "" then DecNum.one
    else
      let s1 := jsTrim raw0
      if s1 = "" then DecNum.one
      else
        let s2 := if wrappedIn dq s1 || wrappedIn sqChar s1 then jsTrim (sliceInner s1) else s1
        match pctBranch s2 with
        | some v => v
        | none => clampMultiplier (jsParseFloat (stripXForm s2))

/-- A process environment: a finite map from variable names to values
(`Deno.env.get`). -/
def Env := List (String × String)

/-- `Deno.env.get`. -/
def envGet (env : Env) (key : String) : Option String :=
  (List.find? (fun p => p.1 == key) env).map Prod.snd

/-- `src/config.ts` — `loadChannelConfigs` loop body, with explicit fuel
(the JS `while (true)` scans indices `1, 2, …` until a required field is
missing or empty). -/
def loadChannelConfigsAux (env : Env) : Nat → Nat → List ChannelConfig
  | 0, _ => []
  | fuel + 1, i =>
    let name := envGet env ("CHANNEL_" ++ toString i ++ "_NAME")
    let baseUrl := envGet env ("CHANNEL_" ++ toString i ++ "_BASE_URL")
    let apiKey := envGet env ("CHANNEL_" ++ toString i ++ "_API_KEY")
    if !(jsTruthy name) || !(jsTruthy baseUrl) then []
    else ⟨name.getD "", baseUrl.getD "", apiKey⟩ :: loadChannelConfigsAux env fuel (i + 1)

/-- `src/config.ts` — `loadChannelConfigs`.  Fuel `env.length + 1` is
enough: a present variable contributes one entry of the finite env. -/
def loadChannelConfigs (env : Env) : List ChannelConfig :=
  loadChannelConfigsAux env (env.length + 1) 1

/-- `src/config.ts` — `loadUpstreamConfigs` loop body (explicit fuel). -/
def loadUpstreamConfigsAux (env : Env) : Nat → Nat → List UpstreamConfig
  | 0, _ => []
  | fuel + 1, i =>
    let baseUrl := envGet env ("UPSTREAM_CONFIG_" ++ toString i ++ "_BASE_URL")
    let apiKey := envGet env ("UPSTREAM_CONFIG_" ++ toString i ++ "_API_KEY")
    let requestModel := envGet env ("UPSTREAM_CONFIG_" ++ toString i ++ "_REQUEST_MODEL")
    let nameModel := envGet env ("UPSTREAM_CONFIG_" ++ toString i ++ "_NAME_MODEL")
    if !(jsTruthy baseUrl) || !(jsTruthy requestModel) || !(jsTruthy nameModel) then []
    else
      ⟨baseUrl.getD "", apiKey, requestModel.getD "", nameModel.getD ""⟩ ::
        loadUpstreamConfigsAux env fuel (i + 1)

/-- `src/config.ts` — `loadUpstreamConfigs`. -/
def loadUpstreamConfigs (env : Env) : List UpstreamConfig :=
  loadUpstreamConfigsAux env (env.length + 1) 1

/-- `src/config.ts` — `loadConfig`.  `Except.error` models the single
`throw` (`UPSTREAM_BASE_URL must be provided …`). -/
def loadConfig (env : Env) : Except String ProxyConfig :=
  let autoPort := envGet env "AUTO_PORT" == some "true"
  let port := if autoPort then some DecNum.zero else jsNumber ((envGet env "PORT").getD "3456")
  let host := (envGet env "HOST").getD "0.0.0.0"
  let clientApiKey := envGet env "CLIENT_API_KEY"
  let requestTimeoutMs := jsNumber ((envGet env "TIMEOUT_MS").getD "120000")
  let aggregationIntervalMs := jsNumber ((envGet env "AGGREGATION_INTERVAL_MS").getD "35")
  let maxRequestsPerMinute := jsNumber ((envGet env "MAX_REQUESTS_PER_MINUTE").getD "10")
  let tokenMultiplier := parseTokenMultiplier (envGet env "TOKEN_MULTIPLIER")
  let passthroughApiKey := envGet env "PASSTHROUGH_API_KEY" == some "true"
  let channelConfigs := loadChannelConfigs env
  let upstreamConfigs := loadUpstreamConfigs env
  if upstreamConfigs.isEmpty then
    let upstreamBaseUrl :=
      (envGet env "UPSTREAM_BASE_URL").getD "http://127.0.0.1:8000/v1/chat/completions"
    if upstreamBaseUrl = "" then
      Except.error "UPSTREAM_BASE_URL must be provided when no UPSTREAM_CONFIG_* defined"
    else
      Except.ok
        { port, host, upstreamConfigs, channelConfigs
          upstreamBaseUrl := some upstreamBaseUrl
          upstreamApiKey := envGet env "UPSTREAM_API_KEY"
          upstreamModelOverride := envGet env "UPSTREAM_MODEL"
          clientApiKey, requestTimeoutMs, aggregationIntervalMs
          maxRequestsPerMinute, tokenMultiplier, autoPort, passthroughApiKey }
  else
    Except.ok
      { port, host, upstreamConfigs, channelConfigs
        upstreamBaseUrl := none, upstreamApiKey := none, upstreamModelOverride := none
        clientApiKey, requestTimeoutMs, aggregationIntervalMs
        maxRequestsPerMinute, tokenMultiplier, autoPort, passthroughApiKey }

/-- `src/upstream.ts` — `parseChannelModel`: split a client model string at
its first `+` (`indexOf("+")`); `none` when no `+` occurs. -/
def parseChannelModel (clientModel : String) : Option (String × String) :=
  go [] clientModel.data
where
  go (acc : List Char) : List Char → Option (String × String)
    | [] => none
    | c :: rest =>
      if c = '+' then some (⟨acc.reverse⟩, ⟨rest⟩) else go (c :: acc) rest

/-- `src/upstream.ts` — the part of `selectUpstreamConfig` after the
channel branch: the `nameModel` scan over the numbered configs, then the
legacy single upstream; `none` models the final `throw`.  (The legacy
branch is guarded by JS truthiness of `upstreamBaseUrl`, while the
`??` of `upstreamModelOverride` is nullish coalescing.) -/
def selectNonChannel (config : ProxyConfig) (clientModel : String) : Option UpstreamConfig :=
  match config.upstreamConfigs.find? (fun u => u.nameModel == clientModel) with
  | some u => some u
  | none =>
    match config.upstreamBaseUrl with
    | some baseUrl =>
      if baseUrl = "" then none
      else
        some
          { baseUrl
            apiKey := config.upstreamApiKey
            requestModel := config.upstreamModelOverride.getD clientModel
            nameModel := clientModel }
    | none => none

/-- `src/upstream.ts` — `selectUpstreamConfig`: channel (`ch+model`)
match first, then `selectNonChannel`. -/
def selectUpstreamConfig (config : ProxyConfig) (clientModel : String) : Option UpstreamConfig :=
  match parseChannelModel clientModel with
  | some (channelName, modelName) =>
    match config.channelConfigs.find? (fun c => c.name == channelName) with
    | some ch =>
      some { baseUrl := ch.baseUrl, apiKey := ch.apiKey
             requestModel := modelName, nameModel := clientModel }
    | none => selectNonChannel config clientModel
  | none => selectNonChannel config clientModel

/-- `src/upstream.ts` — the `Authorization` key choice inside
`callUpstream`: `clientApiKey || upstreamConfig.apiKey` (JS `||`, so an
empty client key falls back to the configured key). -/
def callUpstreamAuthKey (upstreamConfig : UpstreamConfig) (clientApiKey : Option String) :
    Option String :=
  if jsTruthy clientApiKey then clientApiKey else upstreamConfig.apiKey

end Proxy

namespace AIClient

/-- `src/ai_client/types.ts` — `Protocol`. -/
inductive Protocol
  | openai
  | anthropic
  | gemini
deriving Repr, DecidableEq

/-- `src/ai_client/…` — channel entry as consumed by
`RequestContext.parseChannelInfo` (name, baseUrl, optional apiKey and
per-channel protocol). -/
structure ChannelConfig where
  name : String
  baseUrl : String
  apiKey : Option String
  protocol : Option Protocol
deriving Repr, DecidableEq

/-- The slice of the ai_client generation's `ProxyConfig` that
`RequestContext.parseChannelInfo` reads (its `config.ts` is not part of
the sources; the fields are taken from the accesses in
`request_context.ts`). -/
structure ProxyConfig where
  upstreamBaseUrl : Option String
  upstreamApiKey : Option String
  upstreamModelOverride : Option String
  channelConfigs : List ChannelConfig
  defaultProtocol : Protocol
  passthroughApiKey : Bool
deriving Repr

/-- `src/ai_client/types.ts` — `UpstreamConfig`.  `baseUrl` is an
`Option` because the source reads `config.upstreamBaseUrl!` with an
unchecked non-null assertion; no runtime error occurs when it is
absent. -/
structure UpstreamConfig where
  baseUrl : Option String
  apiKey : Option String
  model : String
  protocol : Protocol
deriving Repr, DecidableEq

/-- `request_context.ts` lines 161-200 — the body of `parseChannelInfo`
before the passthrough override: `channel+model` lookup, the
default-channel case, and the global fallback. -/
def parseChannelInfoBase (modelName : String) (config : ProxyConfig) : UpstreamConfig :=
  match Proxy.parseChannelModel modelName with
  | some (channelName, actualModel) =>
    match config.channelConfigs.find? (fun c => c.name == channelName) with
    | some ch =>
      { baseUrl := some ch.baseUrl, apiKey := ch.apiKey
        model := actualModel, protocol := ch.protocol.getD config.defaultProtocol }
    | none =>
      { baseUrl := config.upstreamBaseUrl, apiKey := config.upstreamApiKey
        model := modelName, protocol := config.defaultProtocol }
  | none =>
    match config.channelConfigs with
    | ch :: _ =>
      { baseUrl := some ch.baseUrl, apiKey := ch.apiKey
        model := modelName, protocol := ch.protocol.getD config.defaultProtocol }
    | [] =>
      { baseUrl := config.upstreamBaseUrl, apiKey := config.upstreamApiKey
        model := config.upstreamModelOverride.getD modelName
        protocol := config.defaultProtocol }

/-- `request_context.ts` lines 156-213 — `RequestContext.parseChannelInfo`:
resolve the upstream, then apply the passthrough policy
(`if (config.passthroughApiKey && clientApiKey) apiKey = clientApiKey`). -/
def parseChannelInfo (modelName : String) (config : ProxyConfig)
    (clientApiKey : Option String) : UpstreamConfig :=
  let base := parseChannelInfoBase modelName config
  if config.passthroughApiKey && jsTruthy clientApiKey then
    { base with apiKey := clientApiKey }
  else base

/-- `src/forward.ts` (unnamed part; `forwardRequest`) — the upstream
request headers built from the resolved protocol and apiKey: OpenAI gets
`Authorization: Bearer …`, Anthropic gets `x-api-key` plus
`anthropic-version`; a missing/empty key adds no auth header. -/
def buildUpstreamHeaders (protocol : Protocol) (apiKey : Option String) :
    List (String × String) :=
  let base := [("Content-Type", "application/json")]
  if protocol = Protocol.openai then
    base ++ (match apiKey with
      | some k => if k = "" then [] else [("Authorization", "Bearer " ++ k)]
      | none => [])
  else
    base ++ (match apiKey with
      | some k => if k = "" then [] else [("x-api-key", k)]
      | none => []) ++ [("anthropic-version", "2023-06-01")]

end AIClient

/-- Helper for C7: the `%` branch only succeeds with a positive value. -/
theorem pctBranch_pos (s : String) (v : DecNum) (h : Proxy.pctBranch s = some v) :
    0 < v.man := by
  unfold Proxy.pctBranch at h
  split at h
  · split at h
    next n hn =>
      split at h
      next hpos =>
        cases h
        simpa [DecNum.isPos, DecNum.div100] using hpos
      next => cases h
    next => cases h
  · cases h

/-- Helper for C7: the final guard never yields a non-positive value. -/
theorem clampMultiplier_pos (q : Option DecNum) : 0 < (Proxy.clampMultiplier q).man := by
  cases q with
  | none => simp [Proxy.clampMultiplier, DecNum.one]
  | some n =>
    rw [Proxy.clampMultiplier]
    split
    · simp [DecNum.one]
    · next hle =>
      simp only [DecNum.isNonPos, decide_eq_true_eq] at hle
      omega

/-- Helper for C7: every result of `parseTokenMultiplier` has a positive
mantissa (the source falls back to `1.0` whenever the parsed value is
non-finite or `≤ 0`, and the `%` branch only returns for positive
percentages). -/
theorem parseTokenMultiplier_pos (r : Option String) :
    0 < (Proxy.parseTokenMultiplier r).man := by
  cases r with
  | none => simp [Proxy.parseTokenMultiplier, DecNum.one]
  | some raw0 =>
    rw [Proxy.parseTokenMultiplier]
    dsimp only
    split
    · simp [DecNum.one]
    · split
      · simp [DecNum.one]
      · split
        next v hv => exact pctBranch_pos _ _ hv
        next => exact clampMultiplier_pos _

/-- C7: `parseTokenMultiplier` returns `1.0` on `""`, `"abc"`, `"-3"`,
`"0"`, `"NaN"` and `null`/`undefined`; it accepts `"1.2"`, `"1.2x"`,
`"x1.2"`, `"120%"` and the quoted variant as `1.2`; and every result is
positive (a non-finite or `≤ 0` parse always falls back to `1.0`). -/
theorem c7_parseTokenMultiplier_spec :
    (Proxy.parseTokenMultiplier (some "")).toQ = 1 ∧
    (Proxy.parseTokenMultiplier (some "abc")).toQ = 1 ∧
    (Proxy.parseTokenMultiplier (some "-3")).toQ = 1 ∧
    (Proxy.parseTokenMultiplier (some "0")).toQ = 1 ∧
    (Proxy.parseTokenMultiplier (some "NaN")).toQ = 1 ∧
    (Proxy.parseTokenMultiplier none).toQ = 1 ∧
    (Proxy.parseTokenMultiplier (some "1.2")).toQ = 6 / 5 ∧
    (Proxy.parseTokenMultiplier (some "1.2x")).toQ = 6 / 5 ∧
    (Proxy.parseTokenMultiplier (some "x1.2")).toQ = 6 / 5 ∧
    (Proxy.parseTokenMultiplier (some "120%")).toQ = 6 / 5 ∧
    (Proxy.parseTokenMultiplier (some "\"1.2\"")).toQ = 6 / 5 ∧
    ∀ r, 0 < (Proxy.parseTokenMultiplier r).toQ := by
  refine ⟨?_, ?_, ?_, ?_, ?_, ?_, ?_, ?_, ?_, ?_, ?_,
    fun r => DecNum.toQ_pos _ (parseTokenMultiplier_pos r)⟩
  · rw [show Proxy.parseTokenMultiplier (some "") = DecNum.one from by decide]
    norm_num [DecNum.toQ, DecNum.one]
  · rw [show Proxy.parseTokenMultiplier (some "abc") = DecNum.one from by decide]
    norm_num [DecNum.toQ, DecNum.one]
  · rw [show Proxy.parseTokenMultiplier (some "-3") = DecNum.one from by decide]
    norm_num [DecNum.toQ, DecNum.one]
  · rw [show Proxy.parseTokenMultiplier (some "0") = DecNum.one from by decide]
    norm_num [DecNum.toQ, DecNum.one]
  · rw [show Proxy.parseTokenMultiplier (some "NaN") = DecNum.one from by decide]
    norm_num [DecNum.toQ, DecNum.one]
  · rw [show Proxy.parseTokenMultiplier none = DecNum.one from by decide]
    norm_num [DecNum.toQ, DecNum.one]
  · rw [show Proxy.parseTokenMultiplier (some "1.2") = ⟨12, -1⟩ from by decide]
    norm_num [DecNum.toQ]
  · rw [show Proxy.parseTokenMultiplier (some "1.2x") = ⟨12, -1⟩ from by decide]
    norm_num [DecNum.toQ]
  · rw [show Proxy.parseTokenMultiplier (some "x1.2") = ⟨12, -1⟩ from by decide]
    norm_num [DecNum.toQ]
  · rw [show Proxy.parseTokenMultiplier (some "120%") = ⟨120, -2⟩ from by decide]
    norm_num [DecNum.toQ]
  · rw [show Proxy.parseTokenMultiplier (some "\"1.2\"") = ⟨12, -1⟩ from by decide]
    norm_num [DecNum.toQ]

/-- C10: when the `UPSTREAM_BASE_URL` environment variable is unset and no
`UPSTREAM_CONFIG_*` block is defined, `loadConfig` does not reach its
`UPSTREAM_BASE_URL must be provided` error branch: it succeeds, with the
legacy upstream defaulting to `http://127.0.0.1:8000/v1/chat/completions`. -/
theorem c10_loadConfig_default_base_url (env : Proxy.Env)
    (h1 : Proxy.envGet env "UPSTREAM_BASE_URL" = none)
    (h2 : Proxy.envGet env "UPSTREAM_CONFIG_1_BASE_URL" = none) :
    ∃ cfg, Proxy.loadConfig env = Except.ok cfg ∧
      cfg.upstreamBaseUrl = some "http://127.0.0.1:8000/v1/chat/completions" ∧
      cfg.upstreamConfigs = [] := by
  have hkey : ("UPSTREAM_CONFIG_" ++ toString 1 ++ "_BASE_URL") = "UPSTREAM_CONFIG_1_BASE_URL" := rfl
  have hu : Proxy.loadUpstreamConfigs env = [] := by
    unfold Proxy.loadUpstreamConfigs Proxy.loadUpstreamConfigsAux
    rw [hkey, h2]
    rfl
  unfold Proxy.loadConfig
  rw [hu, h1]
  exact ⟨_, rfl, rfl, rfl⟩

/-- Witness for C10 at the empty environment. -/
theorem c10_loadConfig_default_base_url_witness :
    ∃ cfg, Proxy.loadConfig [] = Except.ok cfg ∧
      cfg.upstreamBaseUrl = some "http://127.0.0.1:8000/v1/chat/completions" ∧
      cfg.upstreamConfigs = [] :=
  c10_loadConfig_default_base_url [] rfl rfl

/-- A concrete configuration for the C4 counterexample: one numbered
upstream entry (`nameModel = "nm"`), no channels, and consequently no
legacy `upstreamBaseUrl` (exactly the shape `loadConfig` produces when an
`UPSTREAM_CONFIG_1_*` block is present). -/
def cfgC4 : Proxy.ProxyConfig :=
  { port := none, host := "0.0.0.0"
    upstreamConfigs := [⟨"http://u", none, "rm", "nm"⟩]
    channelConfigs := []
    upstreamBaseUrl := none, upstreamApiKey := none, upstreamModelOverride := none
    clientApiKey := none, requestTimeoutMs := none, aggregationIntervalMs := none
    maxRequestsPerMinute := none, tokenMultiplier := DecNum.one
    autoPort := false, passthroughApiKey := false }

/-- C4 counterexample: with a numbered multi-config present (so no legacy
upstream is configured) and client model `"foo"` matching no channel and
no `nameModel`, `selectUpstreamConfig` does not return the legacy single
upstream with model `"foo"` as the claim asserts — it fails (the source
throws `No upstream configuration found`). -/
theorem c4_counterexample :
    Proxy.selectUpstreamConfig cfgC4 "foo" = none ∧
      ∀ u : Proxy.UpstreamConfig, Proxy.selectUpstreamConfig cfgC4 "foo" ≠ some u := by
  refine ⟨by decide, ?_⟩
  intro u hu
  rw [show Proxy.selectUpstreamConfig cfgC4 "foo" = none from by decide] at hu
  cases hu

/-- C4 (amended): channel resolution order.  A `ch+X` model whose channel
name (the prefix before the first `+`) is configured resolves to that
channel with upstream model exactly `X`; otherwise a model equal to a
configured `nameModel` resolves to that numbered entry; otherwise, when a
legacy upstream baseUrl is configured (and non-empty), the legacy
upstream is used with model `upstreamModelOverride ?? clientModel`; with
no legacy upstream configured, resolution fails instead of returning. -/
theorem c4_resolution_order (cfg : Proxy.ProxyConfig) (m ch rest : String)
    (c : Proxy.ChannelConfig) (u : Proxy.UpstreamConfig) (b : String) :
    (Proxy.parseChannelModel m = some (ch, rest) →
      cfg.channelConfigs.find? (fun x => x.name == ch) = some c →
      Proxy.selectUpstreamConfig cfg m = some ⟨c.baseUrl, c.apiKey, rest, m⟩) ∧
    ((∀ chn mn, Proxy.parseChannelModel m = some (chn, mn) →
        cfg.channelConfigs.find? (fun x => x.name == chn) = none) →
      cfg.upstreamConfigs.find? (fun x => x.nameModel == m) = some u →
      Proxy.selectUpstreamConfig cfg m = some u) ∧
    ((∀ chn mn, Proxy.parseChannelModel m = some (chn, mn) →
        cfg.channelConfigs.find? (fun x => x.name == chn) = none) →
      cfg.upstreamConfigs.find? (fun x => x.nameModel == m) = none →
      cfg.upstreamBaseUrl = some b → b ≠ "" →
      Proxy.selectUpstreamConfig cfg m =
        some ⟨b, cfg.upstreamApiKey, cfg.upstreamModelOverride.getD m, m⟩) := by
  refine ⟨?_, ?_, ?_⟩
  · intro hsplit hfind
    unfold Proxy.selectUpstreamConfig
    rw [hsplit]
    dsimp only
    rw [hfind]
  · intro hch hfind
    unfold Proxy.selectUpstreamConfig
    cases hsplit : Proxy.parseChannelModel m with
    | none =>
      dsimp only
      unfold Proxy.selectNonChannel
      rw [hfind]
    | some p =>
      obtain ⟨chn, mn⟩ := p
      dsimp only
      rw [hch chn mn hsplit]
      unfold Proxy.selectNonChannel
      rw [hfind]
  · intro hch hfind hbase hne
    have hnc : Proxy.selectNonChannel cfg m =
        some ⟨b, cfg.upstreamApiKey, cfg.upstreamModelOverride.getD m, m⟩ := by
      unfold Proxy.selectNonChannel
      rw [hfind, hbase]
      simp [hne]
    unfold Proxy.selectUpstreamConfig
    cases hsplit : Proxy.parseChannelModel m with
    | none => exact hnc
    | some p =>
      obtain ⟨chn, mn⟩ := p
      dsimp only
      rw [hch chn mn hsplit]
      exact hnc

/-- Witness for C4 (amended): all three resolution arms at concrete inputs. -/
theorem c4_resolution_order_witness :
    Proxy.selectUpstreamConfig
        { cfgC4 with channelConfigs := [⟨"openrouter", "http://or", some "k1"⟩] }
        "openrouter+foo/bar" =
      some ⟨"http://or", some "k1", "foo/bar", "openrouter+foo/bar"⟩ ∧
    Proxy.selectUpstreamConfig cfgC4 "nm" = some ⟨"http://u", none, "rm", "nm"⟩ ∧
    Proxy.selectUpstreamConfig
        { cfgC4 with upstreamConfigs := [], upstreamBaseUrl := some "http://legacy" }
        "foo" = some ⟨"http://legacy", none, "foo", "foo"⟩ := by
  refine ⟨?_, ?_, ?_⟩
  · exact (c4_resolution_order _ "openrouter+foo/bar" "openrouter" "foo/bar"
      ⟨"openrouter", "http://or", some "k1"⟩ ⟨"", none, "", ""⟩ "").1 (by decide) (by decide)
  · exact (c4_resolution_order cfgC4 "nm" "" "" ⟨"", "", none⟩
      ⟨"http://u", none, "rm", "nm"⟩ "").2.1 (by intro chn mn h; cases h) (by decide)
  · exact (c4_resolution_order _ "foo" "" "" ⟨"", "", none⟩ ⟨"", none, "", ""⟩
      "http://legacy").2.2 (by intro chn mn h; cases h) (by decide) rfl (by decide)

/-- C9: a model string containing `+` whose channel-name prefix matches no
configured channel does not make resolution fail.
`RequestContext.parseChannelInfo` returns the legacy/default upstream with
the upstream model set to the *entire* original string (prefix included),
then applies the passthrough override; and `selectUpstreamConfig` likewise
falls through to its non-channel resolution (nameModel matching or legacy
upstream) on the full client model string. -/
theorem c9_unknown_channel_fallback (acfg : AIClient.ProxyConfig)
    (dcfg : Proxy.ProxyConfig) (m ch rest : String) (key : Option String)
    (hsplit : Proxy.parseChannelModel m = some (ch, rest)) :
    (acfg.channelConfigs.find? (fun c => c.name == ch) = none →
      AIClient.parseChannelInfo m acfg key =
        (if acfg.passthroughApiKey && jsTruthy key then
          { baseUrl := acfg.upstreamBaseUrl, apiKey := key
            model := m, protocol := acfg.defaultProtocol }
        else
          { baseUrl := acfg.upstreamBaseUrl, apiKey := acfg.upstreamApiKey
            model := m, protocol := acfg.defaultProtocol })) ∧
    (dcfg.channelConfigs.find? (fun c => c.name == ch) = none →
      Proxy.selectUpstreamConfig dcfg m = Proxy.selectNonChannel dcfg m) := by
  constructor
  · intro hfind
    have hbase : AIClient.parseChannelInfoBase m acfg =
        { baseUrl := acfg.upstreamBaseUrl, apiKey := acfg.upstreamApiKey
          model := m, protocol := acfg.defaultProtocol } := by
      unfold AIClient.parseChannelInfoBase
      rw [hsplit]
      dsimp only
      rw [hfind]
    unfold AIClient.parseChannelInfo
    rw [hbase]
  · intro hfind
    unfold Proxy.selectUpstreamConfig
    rw [hsplit]
    dsimp only
    rw [hfind]

/-- Witness for C9: unknown channel `nochan+gpt-4` with passthrough off. -/
theorem c9_unknown_channel_fallback_witness :
    AIClient.parseChannelInfo "nochan+gpt-4"
        { upstreamBaseUrl := some "http://legacy", upstreamApiKey := some "uk"
          upstreamModelOverride := none, channelConfigs := []
          defaultProtocol := AIClient.Protocol.openai, passthroughApiKey := false }
        (some "ck") =
      { baseUrl := some "http://legacy", apiKey := some "uk"
        model := "nochan+gpt-4", protocol := AIClient.Protocol.openai } ∧
    Proxy.selectUpstreamConfig cfgC4 "nochan+gpt-4" =
      Proxy.selectNonChannel cfgC4 "nochan+gpt-4" := by
  constructor
  · exact ((c9_unknown_channel_fallback
      { upstreamBaseUrl := some "http://legacy", upstreamApiKey := some "uk"
        upstreamModelOverride := none, channelConfigs := []
        defaultProtocol := AIClient.Protocol.openai, passthroughApiKey := false }
      cfgC4 "nochan+gpt-4" "nochan" "gpt-4" (some "ck") (by decide)).1 rfl).trans (by decide)
  · exact (c9_unknown_channel_fallback
      { upstreamBaseUrl := none, upstreamApiKey := none
        upstreamModelOverride := none, channelConfigs := []
        defaultProtocol := AIClient.Protocol.openai, passthroughApiKey := false }
      cfgC4 "nochan+gpt-4" "nochan" "gpt-4" none (by decide)).2 rfl

/-- C6: the client API key overrides the resolved upstream apiKey exactly
when `passthroughApiKey` is enabled and a (truthy) client key is present;
when the flag is off or no client key is given, `parseChannelInfo`
returns the resolved configuration unchanged, so the upstream request
carries the configured upstream key.  The `callUpstream` helper likewise
keeps the configured key when no client key is handed to it, and the
header builder sends exactly the resolved key. -/
theorem c6_passthrough_policy (acfg : AIClient.ProxyConfig) (m : String)
    (key : Option String) (u : Proxy.UpstreamConfig) (k : String) :
    (acfg.passthroughApiKey = true → jsTruthy key = true →
      AIClient.parseChannelInfo m acfg key =
        { AIClient.parseChannelInfoBase m acfg with apiKey := key }) ∧
    (acfg.passthroughApiKey = false ∨ jsTruthy key = false →
      AIClient.parseChannelInfo m acfg key = AIClient.parseChannelInfoBase m acfg) ∧
    Proxy.callUpstreamAuthKey u none = u.apiKey ∧
    (k ≠ "" →
      AIClient.buildUpstreamHeaders AIClient.Protocol.openai (some k) =
        [("Content-Type", "application/json"), ("Authorization", "Bearer " ++ k)]) := by
  refine ⟨?_, ?_, rfl, ?_⟩
  · intro hp hk
    unfold AIClient.parseChannelInfo
    rw [hp, hk]
    rfl
  · intro h
    unfold AIClient.parseChannelInfo
    have hcond : (acfg.passthroughApiKey && jsTruthy key) = false := by
      cases h with
      | inl h => simp [h]
      | inr h => simp [h]
    rw [hcond]
    rfl
  · intro hk
    unfold AIClient.buildUpstreamHeaders
    simp [hk]

/-- Witness for C6: both sides of the policy at concrete inputs. -/
theorem c6_passthrough_policy_witness :
    AIClient.parseChannelInfo "m"
        { upstreamBaseUrl := some "http://legacy", upstreamApiKey := some "uk"
          upstreamModelOverride := none, channelConfigs := []
          defaultProtocol := AIClient.Protocol.openai, passthroughApiKey := true }
        (some "ck") =
      { baseUrl := some "http://legacy", apiKey := some "ck"
        model := "m", protocol := AIClient.Protocol.openai } ∧
    AIClient.parseChannelInfo "m"
        { upstreamBaseUrl := some "http://legacy", upstreamApiKey := some "uk"
          upstreamModelOverride := none, channelConfigs := []
          defaultProtocol := AIClient.Protocol.openai, passthroughApiKey := false }
        (some "ck") =
      { baseUrl := some "http://legacy", apiKey := some "uk"
        model := "m", protocol := AIClient.Protocol.openai } ∧
    AIClient.buildUpstreamHeaders AIClient.Protocol.openai (some "uk") =
      [("Content-Type", "application/json"), ("Authorization", "Bearer uk")] := by
  refine ⟨?_, ?_, ?_⟩
  · exact ((c6_passthrough_policy
      { upstreamBaseUrl := some "http://legacy", upstreamApiKey := some "uk"
        upstreamModelOverride := none, channelConfigs := []
        defaultProtocol := AIClient.Protocol.openai, passthroughApiKey := true }
      "m" (some "ck") ⟨"", none, "", ""⟩ "x").1 rfl rfl).trans (by decide)
  · exact ((c6_passthrough_policy
      { upstreamBaseUrl := some "http://legacy", upstreamApiKey := some "uk"
        upstreamModelOverride := none, channelConfigs := []
        defaultProtocol := AIClient.Protocol.openai, passthroughApiKey := false }
      "m" (some "ck") ⟨"", none, "", ""⟩ "x").2.1 (Or.inl rfl)).trans (by decide)
  · exact (c6_passthrough_policy
      { upstreamBaseUrl := none, upstreamApiKey := none
        upstreamModelOverride := none, channelConfigs := []
        defaultProtocol := AIClient.Protocol.openai, passthroughApiKey := false }
      "m" none ⟨"", none, "", ""⟩ "uk").2.2.2 (by decide)

namespace Proxy

/-- `src/types.ts` — `ParsedInvokeCall`.  The `arguments` record is carried
as its `JSON.stringify` rendering (`argsJson`), which is all the SSE
writer consumes (`JSON.stringify(call.arguments)`). -/
structure ParsedInvokeCall where
  name : String
  argsJson : String
deriving Repr, DecidableEq

/-- `src/types.ts` — `ParserEvent` (the tagged events handed from the
parser to the SSE writer). -/
inductive ParserEvent
  | text (content : String)
  | thinking (content : String)
  | toolCall (call : ParsedInvokeCall)
  | toolCallFailed (content : String) (priorText : String)
  | endOfStream
deriving Repr, DecidableEq

/-- Content-block payload kind of a `content_block_start`. -/
inductive BlockKind
  | text
  | thinking
  | toolUse (name : String)
deriving Repr, DecidableEq

/-- `content_block_delta` payload kind. -/
inductive DeltaKind
  | textDelta (s : String)
  | thinkingDelta (s : String)
  | signatureDelta
  | inputJsonDelta (s : String)
deriving Repr, DecidableEq

/-- One Anthropic SSE frame as emitted by `ClaudeStream` (the random
`toolu_…` block id and the JSON envelope details are irrelevant to the
claims and omitted). -/
inductive Frame
  | messageStart
  | ping
  | blockStart (index : ℕ) (kind : BlockKind)
  | blockDelta (index : ℕ) (delta : DeltaKind)
  | blockStop (index : ℕ)
  | messageDelta (stopReason : String) (outputTokens : ℤ)
  | messageStop
deriving Repr, DecidableEq

/-- `src/claude_writer.ts` — the `StreamContext` state of `ClaudeStream`,
plus the pending buffer of its `TextAggregator` (aggregator.ts is not
among the sources; per the spec it accumulates text and flushes on a
timer interval or on a forced flush). -/
structure StreamState where
  nextBlockIndex : ℕ
  textBlockOpen : Bool
  thinkingBlockOpen : Bool
  finished : Bool
  totalOutputTokens : ℕ
  hasToolCalls : Bool
  pending : String
deriving Repr, DecidableEq

/-- Fresh `StreamContext`. -/
def StreamState.init : StreamState := ⟨0, false, false, false, 0, false, ""⟩

/-- Ceiling division of integers (`b > 0` at all call sites). -/
def ceilDivInt (a b : ℤ) : ℤ := -((-a).ediv b)

/-- `Math.ceil(t * m)` for a token count and an exact decimal
multiplier. -/
def ceilMulDec (t : ℕ) (m : DecNum) : ℤ :=
  match m.exp with
  | Int.ofNat n => (t : ℤ) * m.man * (10 : ℤ) ^ n
  | Int.negSucc n => ceilDivInt ((t : ℤ) * m.man) ((10 : ℤ) ^ (n + 1))

/-- `src/claude_writer.ts` — the `finish` usage computation:
`Math.max(1, Math.ceil(totalOutputTokens * tokenMultiplier))` (the
multiplier is already guarded finite and positive in the constructor). -/
def adjustedOutputTokens (total : ℕ) (mult : DecNum) : ℤ :=
  max 1 (ceilMulDec total mult)

/-- The ~5-character chunks used for `thinking_delta` / `input_json_delta`
streaming (`for (let i = 0; i < s.length; i += 5) s.slice(i, i + 5)`). -/
def chunk5 (l : List Char) : List String :=
  if h : l = [] then []
  else ⟨l.take 5⟩ :: chunk5 (l.drop 5)
termination_by l.length
decreasing_by
  cases l with
  | nil => exact absurd rfl h
  | cons a t => simp [List.length_drop]; omega

namespace ClaudeStream

variable (tokens : String → ℕ) (mult : DecNum)

/-- `claude_writer.ts` — `ensureTextBlock`. -/
def ensureTextBlock (s : StreamState) : StreamState × List Frame :=
  if s.textBlockOpen then (s, [])
  else
    ({ s with nextBlockIndex := s.nextBlockIndex + 1, textBlockOpen := true },
      [Frame.blockStart s.nextBlockIndex BlockKind.text])

/-- `claude_writer.ts` — `flushText` (the aggregator callback): open a
text block if needed, count tokens, emit one `text_delta`. -/
def flushText (s : StreamState) (text : String) : StreamState × List Frame :=
  if text = "" then (s, [])
  else
    let r1 := ensureTextBlock s
    ({ r1.1 with totalOutputTokens := r1.1.totalOutputTokens + tokens text },
      r1.2 ++ [Frame.blockDelta (r1.1.nextBlockIndex - 1) (DeltaKind.textDelta text)])

/-- `TextAggregator.flushAsync` — forced flush of the pending buffer. -/
def flushPending (s : StreamState) : StreamState × List Frame :=
  flushText tokens { s with pending := "" } s.pending

/-- `TextAggregator.add` — append to the pending buffer; `fire` tells
whether the aggregation timer fires here (all timer interleavings at
event boundaries are covered by quantifying over `fire`). -/
def aggAdd (fire : Bool) (s : StreamState) (content : String) : StreamState × List Frame :=
  let s1 := { s with pending := s.pending ++ content }
  if fire then flushPending tokens s1 else (s1, [])

/-- `claude_writer.ts` — `endTextBlock`. -/
def endTextBlock (s : StreamState) : StreamState × List Frame :=
  if s.textBlockOpen then
    ({ s with textBlockOpen := false }, [Frame.blockStop (s.nextBlockIndex - 1)])
  else (s, [])

/-- `claude_writer.ts` — `ensureThinkingBlock`. -/
def ensureThinkingBlock (s : StreamState) : StreamState × List Frame :=
  if s.thinkingBlockOpen then (s, [])
  else
    ({ s with nextBlockIndex := s.nextBlockIndex + 1, thinkingBlockOpen := true },
      [Frame.blockStart s.nextBlockIndex BlockKind.thinking])

/-- `claude_writer.ts` — `endThinkingBlock`: empty `signature_delta`, then
`content_block_stop`. -/
def endThinkingBlock (s : StreamState) : StreamState × List Frame :=
  if s.thinkingBlockOpen then
    ({ s with thinkingBlockOpen := false },
      [Frame.blockDelta (s.nextBlockIndex - 1) DeltaKind.signatureDelta,
       Frame.blockStop (s.nextBlockIndex - 1)])
  else (s, [])

/-- `claude_writer.ts` — `emitThinking`: count tokens, stream the content
as ~5-char `thinking_delta` chunks on the current thinking block. -/
def emitThinking (s : StreamState) (content : String) : StreamState × List Frame :=
  if content = "" then (s, [])
  else
    let r1 := ensureThinkingBlock s
    ({ r1.1 with totalOutputTokens := r1.1.totalOutputTokens + tokens content },
      r1.2 ++ (chunk5 content.data).map
        (fun c => Frame.blockDelta (r1.1.nextBlockIndex - 1) (DeltaKind.thinkingDelta c)))

/-- `claude_writer.ts` — `emitToolCall`: close any text block, allocate a
fresh index, open a `tool_use` block, stream the serialized arguments as
`input_json_delta` chunks, close the block, and record `hasToolCalls`. -/
def emitToolCall (s : StreamState) (call : ParsedInvokeCall) : StreamState × List Frame :=
  let r1 := endTextBlock s
  let index := r1.1.nextBlockIndex
  ({ r1.1 with
      nextBlockIndex := index + 1
      hasToolCalls := true
      totalOutputTokens := r1.1.totalOutputTokens + tokens call.argsJson },
    r1.2 ++ [Frame.blockStart index (BlockKind.toolUse call.name)] ++
      (chunk5 call.argsJson.data).map
        (fun c => Frame.blockDelta index (DeltaKind.inputJsonDelta c)) ++
      [Frame.blockStop index])

/-- `claude_writer.ts` — `finish`: guarded by `finished`; flush, close
open blocks, emit `message_delta` with `stop_reason` per `hasToolCalls`
and the adjusted usage, then `message_stop`. -/
def finish (s : StreamState) : StreamState × List Frame :=
  if s.finished then (s, [])
  else
    let r1 := flushPending tokens { s with finished := true }
    let r2 := endTextBlock r1.1
    let r3 := endThinkingBlock r2.1
    (r3.1,
      r1.2 ++ r2.2 ++ r3.2 ++
        [Frame.messageDelta (if r3.1.hasToolCalls then "tool_use" else "end_turn")
          (adjustedOutputTokens r3.1.totalOutputTokens mult),
         Frame.messageStop])

/-- `claude_writer.ts` — `handleEvents` loop body for one event (`fire`
is the aggregation-timer oracle for `text` events). -/
def handleEvent (fire : Bool) (ev : ParserEvent) (s : StreamState) : StreamState × List Frame :=
  match ev with
  | ParserEvent.text content =>
    let r1 := if s.thinkingBlockOpen then endThinkingBlock s else (s, [])
    let r2 := aggAdd tokens fire r1.1 content
    (r2.1, r1.2 ++ r2.2)
  | ParserEvent.thinking content =>
    let r1 := flushPending tokens s
    let r2 := endTextBlock r1.1
    let r3 := emitThinking tokens r2.1 content
    (r3.1, r1.2 ++ r2.2 ++ r3.2)
  | ParserEvent.toolCall call =>
    let r1 := flushPending tokens s
    let r2 := endTextBlock r1.1
    let r3 := endThinkingBlock r2.1
    let r4 := emitToolCall tokens r3.1 call
    (r4.1, r1.2 ++ r2.2 ++ r3.2 ++ r4.2)
  | ParserEvent.toolCallFailed _ _ => (s, [])
  | ParserEvent.endOfStream => finish tokens mult s

/-- `claude_writer.ts` — `handleEvents` over a timer-annotated event
list. -/
def handleEvents : List (ParserEvent × Bool) → StreamState → StreamState × List Frame
  | [], s => (s, [])
  | (ev, fire) :: rest, s =>
    let r1 := handleEvent tokens mult fire ev s
    let r2 := handleEvents rest r1.1
    (r2.1, r1.2 ++ r2.2)

/-- One full streamed response: `init` (`message_start` + `ping`) followed
by the frames of all handled events. -/
def run (evs : List (ParserEvent × Bool)) : List Frame :=
  Frame.messageStart :: Frame.ping :: (handleEvents tokens mult evs StreamState.init).2

end ClaudeStream

end Proxy

namespace Proxy

/-- Checker state for the block-index discipline: how many blocks have
been opened (indices `0 … opened-1`) and which of them have been
stopped. -/
structure CheckSt where
  opened : ℕ
  closed : ℕ → Bool

/-- One step of the block-index discipline of Anthropic SSE streams:
`content_block_start` must use the next fresh index, and
`content_block_delta` / `content_block_stop` must address a previously
opened, not-yet-closed index. -/
def checkFrame (cs : CheckSt) : Frame → Option CheckSt
  | Frame.blockStart i _ =>
    if i = cs.opened then some { cs with opened := cs.opened + 1 } else none
  | Frame.blockDelta i _ =>
    if i < cs.opened ∧ cs.closed i = false then some cs else none
  | Frame.blockStop i =>
    if i < cs.opened ∧ cs.closed i = false then
      some { cs with closed := fun j => if j = i then true else cs.closed j }
    else none
  | _ => some cs

/-- Run the discipline checker over a frame list. -/
def checkFrames : List Frame → CheckSt → Option CheckSt
  | [], cs => some cs
  | f :: rest, cs =>
    match checkFrame cs f with
    | some cs1 => checkFrames rest cs1
    | none => none

theorem checkFrames_cons (f : Frame) (rest : List Frame) (cs : CheckSt) :
    checkFrames (f :: rest) cs =
      match checkFrame cs f with
      | some cs1 => checkFrames rest cs1
      | none => none := rfl

theorem checkFrames_append (xs ys : List Frame) (cs : CheckSt) :
    checkFrames (xs ++ ys) cs =
      (checkFrames xs cs).bind (fun cs1 => checkFrames ys cs1) := by
  induction xs generalizing cs with
  | nil => rfl
  | cons f rest ih =>
    rw [List.cons_append, checkFrames_cons, checkFrames_cons]
    cases checkFrame cs f with
    | none => rfl
    | some cs1 =>
      dsimp only
      exact ih cs1

/-- The simulation invariant tying a `StreamState` to the checker state:
the writer has opened exactly `nextBlockIndex` blocks, every block before
the last is closed, the last block is open exactly when a text or
thinking block is open, text and thinking blocks are never open at once,
and an open thinking block implies an empty aggregator. -/
structure Inv (s : StreamState) (cs : CheckSt) : Prop where
  opened_eq : cs.opened = s.nextBlockIndex
  closed_lt : ∀ i, cs.closed i = true → i < s.nextBlockIndex
  open_last : s.textBlockOpen = true ∨ s.thinkingBlockOpen = true →
    0 < s.nextBlockIndex ∧ cs.closed (s.nextBlockIndex - 1) = false
  closed_prev : ∀ i, i + 1 < s.nextBlockIndex → cs.closed i = true
  closed_all : s.textBlockOpen = false → s.thinkingBlockOpen = false →
    ∀ i, i < s.nextBlockIndex → cs.closed i = true
  not_both : ¬(s.textBlockOpen = true ∧ s.thinkingBlockOpen = true)
  think_pending : s.thinkingBlockOpen = true → s.pending = ""

theorem Inv.init : Inv StreamState.init ⟨0, fun _ => false⟩ := by
  constructor <;> simp [StreamState.init]

end Proxy

namespace Proxy

theorem ensureTextBlock_textOpen (s : StreamState) :
    (ClaudeStream.ensureTextBlock s).1.textBlockOpen = true := by
  unfold ClaudeStream.ensureTextBlock
  split <;> simp_all

theorem ensureTextBlock_thinkOpen (s : StreamState) :
    (ClaudeStream.ensureTextBlock s).1.thinkingBlockOpen = s.thinkingBlockOpen := by
  unfold ClaudeStream.ensureTextBlock
  split <;> rfl

theorem ensureTextBlock_pending (s : StreamState) :
    (ClaudeStream.ensureTextBlock s).1.pending = s.pending := by
  unfold ClaudeStream.ensureTextBlock
  split <;> rfl

theorem ensureTextBlock_finished (s : StreamState) :
    (ClaudeStream.ensureTextBlock s).1.finished = s.finished := by
  unfold ClaudeStream.ensureTextBlock
  split <;> rfl

theorem ensureTextBlock_hasToolCalls (s : StreamState) :
    (ClaudeStream.ensureTextBlock s).1.hasToolCalls = s.hasToolCalls := by
  unfold ClaudeStream.ensureTextBlock
  split <;> rfl

theorem endTextBlock_state (s : StreamState) :
    (ClaudeStream.endTextBlock s).1 = { s with textBlockOpen := false } := by
  unfold ClaudeStream.endTextBlock
  split <;> [rfl; (cases s; simp_all)]

theorem endThinkingBlock_state (s : StreamState) :
    (ClaudeStream.endThinkingBlock s).1 = { s with thinkingBlockOpen := false } := by
  unfold ClaudeStream.endThinkingBlock
  split <;> [rfl; (cases s; simp_all)]

theorem ensureThinkingBlock_thinkOpen (s : StreamState) :
    (ClaudeStream.ensureThinkingBlock s).1.thinkingBlockOpen = true := by
  unfold ClaudeStream.ensureThinkingBlock
  split <;> simp_all

theorem flushText_textFields (tokens : String → ℕ) (s : StreamState) (t : String) :
    (ClaudeStream.flushText tokens s t).1.thinkingBlockOpen = s.thinkingBlockOpen ∧
    (ClaudeStream.flushText tokens s t).1.pending = s.pending ∧
    (ClaudeStream.flushText tokens s t).1.finished = s.finished ∧
    (ClaudeStream.flushText tokens s t).1.hasToolCalls = s.hasToolCalls := by
  unfold ClaudeStream.flushText
  split
  · exact ⟨rfl, rfl, rfl, rfl⟩
  · exact ⟨ensureTextBlock_thinkOpen s, ensureTextBlock_pending s,
      ensureTextBlock_finished s, ensureTextBlock_hasToolCalls s⟩

theorem flushPending_fields (tokens : String → ℕ) (s : StreamState) :
    (ClaudeStream.flushPending tokens s).1.thinkingBlockOpen = s.thinkingBlockOpen ∧
    (ClaudeStream.flushPending tokens s).1.pending = "" ∧
    (ClaudeStream.flushPending tokens s).1.finished = s.finished ∧
    (ClaudeStream.flushPending tokens s).1.hasToolCalls = s.hasToolCalls := by
  unfold ClaudeStream.flushPending
  obtain ⟨h1, h2, h3, h4⟩ :=
    flushText_textFields tokens { s with pending := "" } s.pending
  exact ⟨h1, h2, h3, h4⟩

end Proxy

namespace Proxy

theorem sim_ensureTextBlock (s : StreamState) (cs : CheckSt) (h : Inv s cs)
    (hth : s.thinkingBlockOpen = false) :
    ∃ cs1, checkFrames (ClaudeStream.ensureTextBlock s).2 cs = some cs1 ∧
      Inv (ClaudeStream.ensureTextBlock s).1 cs1 := by
  unfold ClaudeStream.ensureTextBlock
  cases hopen : s.textBlockOpen with
  | true =>
    rw [if_pos rfl]
    exact ⟨cs, rfl, h⟩
  | false =>
    rw [if_neg Bool.false_ne_true]
    dsimp only
    have hnotc : cs.closed s.nextBlockIndex = false := by
      cases hc : cs.closed s.nextBlockIndex with
      | false => rfl
      | true => exact absurd (h.closed_lt s.nextBlockIndex hc) (Nat.lt_irrefl _)
    refine ⟨⟨cs.opened + 1, cs.closed⟩, ?_, ?_⟩
    · rw [checkFrames_cons]
      simp only [checkFrame, h.opened_eq, if_pos rfl]
      rfl
    · refine ⟨?_, ?_, ?_, ?_, ?_, ?_, ?_⟩ <;> dsimp only
      · simp [h.opened_eq]
      · intro i hi
        exact Nat.lt_succ_of_lt (h.closed_lt i hi)
      · intro _
        exact ⟨by omega, by simpa using hnotc⟩
      · intro i hi
        exact h.closed_all hopen hth i (by omega)
      · intro hx
        simp at hx
      · intro hx
        simp [hth] at hx
      · intro hthink
        rw [hth] at hthink
        cases hthink

end Proxy

namespace Proxy

theorem checkFrames_deltas (cs : CheckSt) (i : ℕ) (xs : List String)
    (g : String → DeltaKind) (hi : i < cs.opened) (hc : cs.closed i = false) :
    checkFrames (xs.map fun c => Frame.blockDelta i (g c)) cs = some cs := by
  induction xs with
  | nil => rfl
  | cons x rest ih =>
    rw [List.map_cons, checkFrames_cons]
    simp only [checkFrame, if_pos (And.intro hi hc)]
    exact ih

theorem sim_flushText (tokens : String → ℕ) (s : StreamState) (cs : CheckSt)
    (h : Inv s cs) (hth : s.thinkingBlockOpen = false) (t : String) :
    ∃ cs1, checkFrames (ClaudeStream.flushText tokens s t).2 cs = some cs1 ∧
      Inv (ClaudeStream.flushText tokens s t).1 cs1 := by
  unfold ClaudeStream.flushText
  split
  · exact ⟨cs, rfl, h⟩
  · obtain ⟨cs1, hc1, hi1⟩ := sim_ensureTextBlock s cs h hth
    obtain ⟨hpos, hcl⟩ := hi1.open_last (Or.inl (ensureTextBlock_textOpen s))
    refine ⟨cs1, ?_, ?_⟩
    · rw [checkFrames_append, hc1]
      show checkFrames _ cs1 = some cs1
      rw [checkFrames_cons]
      simp only [checkFrame]
      rw [if_pos ⟨by rw [hi1.opened_eq]; omega, hcl⟩]
      rfl
    · exact ⟨hi1.opened_eq, hi1.closed_lt, hi1.open_last, hi1.closed_prev,
        hi1.closed_all, hi1.not_both, hi1.think_pending⟩

theorem sim_endTextBlock (s : StreamState) (cs : CheckSt) (h : Inv s cs) :
    ∃ cs1, checkFrames (ClaudeStream.endTextBlock s).2 cs = some cs1 ∧
      Inv (ClaudeStream.endTextBlock s).1 cs1 := by
  unfold ClaudeStream.endTextBlock
  cases hopen : s.textBlockOpen with
  | false =>
    rw [if_neg Bool.false_ne_true]
    exact ⟨cs, rfl, h⟩
  | true =>
    rw [if_pos rfl]
    dsimp only
    obtain ⟨hpos, hcl⟩ := h.open_last (Or.inl hopen)
    have hth : s.thinkingBlockOpen = false := by
      cases hthk : s.thinkingBlockOpen with
      | false => rfl
      | true => exact absurd ⟨hopen, hthk⟩ h.not_both
    refine ⟨⟨cs.opened, fun j => if j = s.nextBlockIndex - 1 then true else cs.closed j⟩, ?_, ?_⟩
    · rw [checkFrames_cons]
      simp only [checkFrame]
      rw [if_pos ⟨by rw [h.opened_eq]; omega, hcl⟩]
      rfl
    · refine ⟨?_, ?_, ?_, ?_, ?_, ?_, ?_⟩ <;> dsimp only
      · exact h.opened_eq
      · intro i hi
        by_cases hieq : i = s.nextBlockIndex - 1
        · omega
        · rw [if_neg hieq] at hi
          exact h.closed_lt i hi
      · intro hor
        rcases hor with hx | hx
        · cases hx
        · rw [hth] at hx
          cases hx
      · intro i hi
        by_cases hieq : i = s.nextBlockIndex - 1
        · rw [if_pos hieq]
        · rw [if_neg hieq]
          exact h.closed_prev i hi
      · intro _ _ i hi
        by_cases hieq : i = s.nextBlockIndex - 1
        · rw [if_pos hieq]
        · rw [if_neg hieq]
          exact h.closed_prev i (by omega)
      · intro hx
        cases hx.1
      · intro hx
        rw [hth] at hx
        cases hx

theorem sim_ensureThinkingBlock (s : StreamState) (cs : CheckSt) (h : Inv s cs)
    (htx : s.textBlockOpen = false) (hpend : s.pending = "") :
    ∃ cs1, checkFrames (ClaudeStream.ensureThinkingBlock s).2 cs = some cs1 ∧
      Inv (ClaudeStream.ensureThinkingBlock s).1 cs1 := by
  unfold ClaudeStream.ensureThinkingBlock
  cases hopen : s.thinkingBlockOpen with
  | true =>
    rw [if_pos rfl]
    exact ⟨cs, rfl, h⟩
  | false =>
    rw [if_neg Bool.false_ne_true]
    dsimp only
    have hnotc : cs.closed s.nextBlockIndex = false := by
      cases hc : cs.closed s.nextBlockIndex with
      | false => rfl
      | true => exact absurd (h.closed_lt s.nextBlockIndex hc) (Nat.lt_irrefl _)
    refine ⟨⟨cs.opened + 1, cs.closed⟩, ?_, ?_⟩
    · rw [checkFrames_cons]
      simp only [checkFrame, h.opened_eq, if_pos rfl]
      rfl
    · refine ⟨?_, ?_, ?_, ?_, ?_, ?_, ?_⟩ <;> dsimp only
      · simp [h.opened_eq]
      · intro i hi
        exact Nat.lt_succ_of_lt (h.closed_lt i hi)
      · intro _
        exact ⟨by omega, by simpa using hnotc⟩
      · intro i hi
        exact h.closed_all htx hopen i (by omega)
      · intro _ hy
        cases hy
      · intro hx
        rw [htx] at hx
        cases hx.1
      · intro _
        exact hpend

end Proxy

namespace Proxy

theorem sim_endThinkingBlock (s : StreamState) (cs : CheckSt) (h : Inv s cs) :
    ∃ cs1, checkFrames (ClaudeStream.endThinkingBlock s).2 cs = some cs1 ∧
      Inv (ClaudeStream.endThinkingBlock s).1 cs1 := by
  unfold ClaudeStream.endThinkingBlock
  cases hopen : s.thinkingBlockOpen with
  | false =>
    rw [if_neg Bool.false_ne_true]
    exact ⟨cs, rfl, h⟩
  | true =>
    rw [if_pos rfl]
    dsimp only
    obtain ⟨hpos, hcl⟩ := h.open_last (Or.inr hopen)
    have htx : s.textBlockOpen = false := by
      cases htx0 : s.textBlockOpen with
      | false => rfl
      | true => exact absurd ⟨htx0, hopen⟩ h.not_both
    refine ⟨⟨cs.opened, fun j => if j = s.nextBlockIndex - 1 then true else cs.closed j⟩, ?_, ?_⟩
    · rw [checkFrames_cons]
      simp only [checkFrame]
      rw [if_pos ⟨by rw [h.opened_eq]; omega, hcl⟩]
      dsimp only
      rw [checkFrames_cons]
      simp only [checkFrame]
      rw [if_pos ⟨by rw [h.opened_eq]; omega, hcl⟩]
      rfl
    · refine ⟨?_, ?_, ?_, ?_, ?_, ?_, ?_⟩ <;> dsimp only
      · exact h.opened_eq
      · intro i hi
        by_cases hieq : i = s.nextBlockIndex - 1
        · omega
        · rw [if_neg hieq] at hi
          exact h.closed_lt i hi
      · intro hor
        rcases hor with hx | hx
        · rw [htx] at hx
          cases hx
        · cases hx
      · intro i hi
        by_cases hieq : i = s.nextBlockIndex - 1
        · rw [if_pos hieq]
        · rw [if_neg hieq]
          exact h.closed_prev i hi
      · intro _ _ i hi
        by_cases hieq : i = s.nextBlockIndex - 1
        · rw [if_pos hieq]
        · rw [if_neg hieq]
          exact h.closed_prev i (by omega)
      · intro hx
        cases hx.2
      · intro hx
        cases hx

theorem sim_flushPending (tokens : String → ℕ) (s : StreamState) (cs : CheckSt)
    (h : Inv s cs) :
    ∃ cs1, checkFrames (ClaudeStream.flushPending tokens s).2 cs = some cs1 ∧
      Inv (ClaudeStream.flushPending tokens s).1 cs1 := by
  have h0 : Inv { s with pending := "" } cs :=
    ⟨h.opened_eq, h.closed_lt, h.open_last, h.closed_prev, h.closed_all,
      h.not_both, fun _ => rfl⟩
  unfold ClaudeStream.flushPending
  rcases Bool.eq_false_or_eq_true s.thinkingBlockOpen with hth | hth
  · rw [h.think_pending hth]
    unfold ClaudeStream.flushText
    rw [if_pos rfl]
    exact ⟨cs, rfl, h0⟩
  · exact sim_flushText tokens { s with pending := "" } cs h0 hth s.pending

theorem sim_aggAdd (tokens : String → ℕ) (fire : Bool) (s : StreamState)
    (cs : CheckSt) (h : Inv s cs) (hth : s.thinkingBlockOpen = false)
    (content : String) :
    ∃ cs1, checkFrames (ClaudeStream.aggAdd tokens fire s content).2 cs = some cs1 ∧
      Inv (ClaudeStream.aggAdd tokens fire s content).1 cs1 := by
  have h1 : Inv { s with pending := s.pending ++ content } cs :=
    ⟨h.opened_eq, h.closed_lt, h.open_last, h.closed_prev, h.closed_all,
      h.not_both, fun hx => absurd hx (by simp [hth])⟩
  unfold ClaudeStream.aggAdd
  cases fire with
  | false => exact ⟨cs, rfl, h1⟩
  | true =>
    rw [if_pos rfl]
    exact sim_flushPending tokens _ cs h1

theorem sim_emitThinking (tokens : String → ℕ) (s : StreamState) (cs : CheckSt)
    (h : Inv s cs) (htx : s.textBlockOpen = false) (hpend : s.pending = "")
    (content : String) :
    ∃ cs1, checkFrames (ClaudeStream.emitThinking tokens s content).2 cs = some cs1 ∧
      Inv (ClaudeStream.emitThinking tokens s content).1 cs1 := by
  unfold ClaudeStream.emitThinking
  split
  · exact ⟨cs, rfl, h⟩
  · obtain ⟨cs1, hc1, hi1⟩ := sim_ensureThinkingBlock s cs h htx hpend
    obtain ⟨hpos, hcl⟩ := hi1.open_last (Or.inr (ensureThinkingBlock_thinkOpen s))
    refine ⟨cs1, ?_, ?_⟩
    · rw [checkFrames_append, hc1]
      show checkFrames _ cs1 = some cs1
      exact checkFrames_deltas cs1 _ _ _ (by rw [hi1.opened_eq]; omega) hcl
    · exact ⟨hi1.opened_eq, hi1.closed_lt, hi1.open_last, hi1.closed_prev,
        hi1.closed_all, hi1.not_both, hi1.think_pending⟩

end Proxy

namespace Proxy

theorem sim_emitToolCall (tokens : String → ℕ) (s : StreamState) (cs : CheckSt)
    (h : Inv s cs) (hth : s.thinkingBlockOpen = false) (call : ParsedInvokeCall) :
    ∃ cs1, checkFrames (ClaudeStream.emitToolCall tokens s call).2 cs = some cs1 ∧
      Inv (ClaudeStream.emitToolCall tokens s call).1 cs1 := by
  obtain ⟨cs1, hc1, hi1⟩ := sim_endTextBlock s cs h
  have htx1 : (ClaudeStream.endTextBlock s).1.textBlockOpen = false := by
    rw [endTextBlock_state]
  have hth1 : (ClaudeStream.endTextBlock s).1.thinkingBlockOpen = false := by
    rw [endTextBlock_state]
    exact hth
  have hclosedn : cs1.closed (ClaudeStream.endTextBlock s).1.nextBlockIndex = false := by
    cases hc : cs1.closed (ClaudeStream.endTextBlock s).1.nextBlockIndex with
    | false => rfl
    | true => exact absurd (hi1.closed_lt _ hc) (Nat.lt_irrefl _)
  unfold ClaudeStream.emitToolCall
  dsimp only
  refine ⟨⟨cs1.opened + 1,
    fun j => if j = (ClaudeStream.endTextBlock s).1.nextBlockIndex then true
      else cs1.closed j⟩, ?_, ?_⟩
  · simp only [List.append_assoc]
    rw [checkFrames_append, hc1]
    show checkFrames _ cs1 = some _
    rw [List.singleton_append, checkFrames_cons]
    simp only [checkFrame]
    rw [if_pos hi1.opened_eq.symm]
    dsimp only
    rw [checkFrames_append]
    rw [checkFrames_deltas ⟨cs1.opened + 1, cs1.closed⟩ _ _ _
      (by dsimp only; rw [hi1.opened_eq]; omega) hclosedn]
    show checkFrames _ _ = some _
    rw [checkFrames_cons]
    simp only [checkFrame]
    rw [if_pos ⟨by rw [hi1.opened_eq]; omega, hclosedn⟩]
    rfl
  · refine ⟨?_, ?_, ?_, ?_, ?_, ?_, ?_⟩ <;> dsimp only
    · rw [hi1.opened_eq]
    · intro i hi
      by_cases hieq : i = (ClaudeStream.endTextBlock s).1.nextBlockIndex
      · omega
      · rw [if_neg hieq] at hi
        have := hi1.closed_lt i hi
        omega
    · intro hor
      rcases hor with hx | hx
      · rw [htx1] at hx
        cases hx
      · rw [hth1] at hx
        cases hx
    · intro i hi
      by_cases hieq : i = (ClaudeStream.endTextBlock s).1.nextBlockIndex
      · rw [if_pos hieq]
      · rw [if_neg hieq]
        exact hi1.closed_all htx1 hth1 i (by omega)
    · intro _ _ i hi
      by_cases hieq : i = (ClaudeStream.endTextBlock s).1.nextBlockIndex
      · rw [if_pos hieq]
      · rw [if_neg hieq]
        exact hi1.closed_all htx1 hth1 i (by omega)
    · intro hx
      rw [htx1] at hx
      cases hx.1
    · intro hx
      rw [hth1] at hx
      cases hx

theorem sim_finish (tokens : String → ℕ) (mult : DecNum) (s : StreamState)
    (cs : CheckSt) (h : Inv s cs) :
    ∃ cs1, checkFrames (ClaudeStream.finish tokens mult s).2 cs = some cs1 ∧
      Inv (ClaudeStream.finish tokens mult s).1 cs1 := by
  unfold ClaudeStream.finish
  split
  · exact ⟨cs, rfl, h⟩
  · have h0 : Inv { s with finished := true } cs :=
      ⟨h.opened_eq, h.closed_lt, h.open_last, h.closed_prev, h.closed_all,
        h.not_both, h.think_pending⟩
    obtain ⟨cs1, hc1, hi1⟩ := sim_flushPending tokens { s with finished := true } cs h0
    obtain ⟨cs2, hc2, hi2⟩ := sim_endTextBlock _ cs1 hi1
    obtain ⟨cs3, hc3, hi3⟩ := sim_endThinkingBlock _ cs2 hi2
    refine ⟨cs3, ?_, ?_⟩
    · simp only [List.append_assoc]
      rw [checkFrames_append, hc1]
      show checkFrames _ cs1 = some _
      rw [checkFrames_append, hc2]
      show checkFrames _ cs2 = some _
      rw [checkFrames_append, hc3]
      rfl
    · exact hi3

end Proxy

namespace Proxy

theorem sim_handleEvent (tokens : String → ℕ) (mult : DecNum) (fire : Bool)
    (ev : ParserEvent) (s : StreamState) (cs : CheckSt) (h : Inv s cs) :
    ∃ cs1, checkFrames (ClaudeStream.handleEvent tokens mult fire ev s).2 cs = some cs1 ∧
      Inv (ClaudeStream.handleEvent tokens mult fire ev s).1 cs1 := by
  cases ev with
  | text content =>
    unfold ClaudeStream.handleEvent
    dsimp only
    rcases Bool.eq_false_or_eq_true s.thinkingBlockOpen with hth | hth
    · rw [if_pos hth]
      obtain ⟨cs1, hc1, hi1⟩ := sim_endThinkingBlock s cs h
      have hth1 : (ClaudeStream.endThinkingBlock s).1.thinkingBlockOpen = false := by
        rw [endThinkingBlock_state]
      obtain ⟨cs2, hc2, hi2⟩ := sim_aggAdd tokens fire _ cs1 hi1 hth1 content
      refine ⟨cs2, ?_, hi2⟩
      rw [checkFrames_append, hc1]
      exact hc2
    · rw [if_neg (by simp [hth])]
      dsimp only
      obtain ⟨cs2, hc2, hi2⟩ := sim_aggAdd tokens fire s cs h hth content
      refine ⟨cs2, ?_, hi2⟩
      rw [List.nil_append]
      exact hc2
  | thinking content =>
    unfold ClaudeStream.handleEvent
    dsimp only
    obtain ⟨cs1, hc1, hi1⟩ := sim_flushPending tokens s cs h
    obtain ⟨cs2, hc2, hi2⟩ := sim_endTextBlock _ cs1 hi1
    have htx : (ClaudeStream.endTextBlock (ClaudeStream.flushPending tokens s).1).1.textBlockOpen = false := by
      rw [endTextBlock_state]
    have hpend : (ClaudeStream.endTextBlock (ClaudeStream.flushPending tokens s).1).1.pending = "" := by
      rw [endTextBlock_state]
      exact (flushPending_fields tokens s).2.1
    obtain ⟨cs3, hc3, hi3⟩ := sim_emitThinking tokens _ cs2 hi2 htx hpend content
    refine ⟨cs3, ?_, hi3⟩
    simp only [List.append_assoc]
    rw [checkFrames_append, hc1]
    show checkFrames _ cs1 = some _
    rw [checkFrames_append, hc2]
    exact hc3
  | toolCall call =>
    unfold ClaudeStream.handleEvent
    dsimp only
    obtain ⟨cs1, hc1, hi1⟩ := sim_flushPending tokens s cs h
    obtain ⟨cs2, hc2, hi2⟩ := sim_endTextBlock _ cs1 hi1
    obtain ⟨cs3, hc3, hi3⟩ := sim_endThinkingBlock _ cs2 hi2
    have hth3 : (ClaudeStream.endThinkingBlock
        (ClaudeStream.endTextBlock (ClaudeStream.flushPending tokens s).1).1).1.thinkingBlockOpen = false := by
      rw [endThinkingBlock_state]
    obtain ⟨cs4, hc4, hi4⟩ := sim_emitToolCall tokens _ cs3 hi3 hth3 call
    refine ⟨cs4, ?_, hi4⟩
    simp only [List.append_assoc]
    rw [checkFrames_append, hc1]
    show checkFrames _ cs1 = some _
    rw [checkFrames_append, hc2]
    show checkFrames _ cs2 = some _
    rw [checkFrames_append, hc3]
    exact hc4
  | toolCallFailed content priorText => exact ⟨cs, rfl, h⟩
  | endOfStream => exact sim_finish tokens mult s cs h

theorem sim_handleEvents (tokens : String → ℕ) (mult : DecNum)
    (evs : List (ParserEvent × Bool)) :
    ∀ (s : StreamState) (cs : CheckSt), Inv s cs →
      ∃ cs1, checkFrames (ClaudeStream.handleEvents tokens mult evs s).2 cs = some cs1 ∧
        Inv (ClaudeStream.handleEvents tokens mult evs s).1 cs1 := by
  induction evs with
  | nil => exact fun s cs h => ⟨cs, rfl, h⟩
  | cons p rest ih =>
    intro s cs h
    obtain ⟨ev, fire⟩ := p
    unfold ClaudeStream.handleEvents
    dsimp only
    obtain ⟨cs1, hc1, hi1⟩ := sim_handleEvent tokens mult fire ev s cs h
    obtain ⟨cs2, hc2, hi2⟩ := ih _ cs1 hi1
    refine ⟨cs2, ?_, hi2⟩
    rw [checkFrames_append, hc1]
    exact hc2

/-- C2: in every SSE frame sequence produced by one `ClaudeStream` run
(any parser events, any aggregation-timer behavior, any token counter and
multiplier), every `content_block_start` uses the next fresh index
starting from 0 (so indices are strictly increasing and never reused),
and every `content_block_delta` / `content_block_stop` addresses a
previously opened and not-yet-closed index. -/
theorem c2_block_index_discipline (tokens : String → ℕ) (mult : DecNum)
    (evs : List (Proxy.ParserEvent × Bool)) :
    (Proxy.checkFrames (Proxy.ClaudeStream.run tokens mult evs)
      ⟨0, fun _ => false⟩).isSome = true := by
  obtain ⟨cs1, hc1, _⟩ :=
    sim_handleEvents tokens mult evs StreamState.init ⟨0, fun _ => false⟩ Inv.init
  show (checkFrames ((ClaudeStream.handleEvents tokens mult evs StreamState.init).2)
    ⟨0, fun _ => false⟩).isSome = true
  rw [hc1]
  rfl

end Proxy

namespace Proxy

/-- The `stop_reason` values carried by `message_delta` frames, in
order. -/
def deltaReasons (fs : List Frame) : List String :=
  fs.filterMap fun f =>
    match f with
    | Frame.messageDelta r _ => some r
    | _ => none

/-- `message_stop` recognizer. -/
def Frame.isMessageStopF : Frame → Bool
  | Frame.messageStop => true
  | _ => false

/-- `content_block_start` with a `tool_use` payload. -/
def Frame.isToolUseStartF : Frame → Bool
  | Frame.blockStart _ (BlockKind.toolUse _) => true
  | _ => false

/-- Number of `tool_use` blocks opened in a frame list. -/
def toolStartCount (fs : List Frame) : ℕ := fs.countP Frame.isToolUseStartF

/-- Any `content_block_*` frame. -/
def Frame.isBlockFrame : Frame → Bool
  | Frame.blockStart _ _ => true
  | Frame.blockDelta _ _ => true
  | Frame.blockStop _ => true
  | _ => false

/-- A `content_block_*` frame that does not open a `tool_use` block. -/
def Frame.isPureBlock : Frame → Bool
  | Frame.blockStart _ (BlockKind.toolUse _) => false
  | Frame.blockStart _ _ => true
  | Frame.blockDelta _ _ => true
  | Frame.blockStop _ => true
  | _ => false

theorem isBlockFrame_of_pure {f : Frame} (h : f.isPureBlock = true) :
    f.isBlockFrame = true := by
  cases f <;> simp_all [Frame.isPureBlock, Frame.isBlockFrame]

theorem blockFrame_facts (fs : List Frame) (h : ∀ f ∈ fs, f.isBlockFrame = true) :
    deltaReasons fs = [] ∧ fs.any Frame.isMessageStopF = false := by
  induction fs with
  | nil => exact ⟨rfl, rfl⟩
  | cons f rest ih =>
    obtain ⟨h1, h2⟩ := ih fun g hg => h g (List.mem_cons_of_mem f hg)
    have hf := h f (List.mem_cons_self f rest)
    cases f <;> simp_all [deltaReasons, Frame.isMessageStopF, Frame.isBlockFrame]

theorem pureBlock_toolStart (fs : List Frame) (h : ∀ f ∈ fs, f.isPureBlock = true) :
    toolStartCount fs = 0 := by
  induction fs with
  | nil => rfl
  | cons f rest ih =>
    have h1 := ih fun g hg => h g (List.mem_cons_of_mem f hg)
    have hf := h f (List.mem_cons_self f rest)
    unfold toolStartCount at h1 ⊢
    rw [List.countP_cons]
    cases f with
    | blockStart i k =>
      cases k <;> simp_all [Frame.isPureBlock, Frame.isToolUseStartF]
    | _ => simp_all [Frame.isToolUseStartF]

end Proxy

namespace Proxy

theorem PB_ensureTextBlock (s : StreamState) :
    ∀ f ∈ (ClaudeStream.ensureTextBlock s).2, f.isPureBlock = true := by
  unfold ClaudeStream.ensureTextBlock
  split
  · intro f hf
    cases hf
  · intro f hf
    simp only [List.mem_singleton] at hf
    subst hf
    rfl

theorem PB_flushText (tokens : String → ℕ) (s : StreamState) (t : String) :
    ∀ f ∈ (ClaudeStream.flushText tokens s t).2, f.isPureBlock = true := by
  unfold ClaudeStream.flushText
  split
  · intro f hf
    cases hf
  · intro f hf
    rcases List.mem_append.1 hf with hf1 | hf1
    · exact PB_ensureTextBlock s f hf1
    · simp only [List.mem_singleton] at hf1
      subst hf1
      rfl

theorem PB_flushPending (tokens : String → ℕ) (s : StreamState) :
    ∀ f ∈ (ClaudeStream.flushPending tokens s).2, f.isPureBlock = true :=
  PB_flushText tokens { s with pending := "" } s.pending

theorem PB_aggAdd (tokens : String → ℕ) (fire : Bool) (s : StreamState) (c : String) :
    ∀ f ∈ (ClaudeStream.aggAdd tokens fire s c).2, f.isPureBlock = true := by
  unfold ClaudeStream.aggAdd
  cases fire with
  | false => intro f hf; cases hf
  | true =>
    rw [if_pos rfl]
    exact PB_flushPending tokens _

theorem PB_endTextBlock (s : StreamState) :
    ∀ f ∈ (ClaudeStream.endTextBlock s).2, f.isPureBlock = true := by
  unfold ClaudeStream.endTextBlock
  split
  · intro f hf
    simp only [List.mem_singleton] at hf
    subst hf
    rfl
  · intro f hf
    cases hf

theorem PB_ensureThinkingBlock (s : StreamState) :
    ∀ f ∈ (ClaudeStream.ensureThinkingBlock s).2, f.isPureBlock = true := by
  unfold ClaudeStream.ensureThinkingBlock
  split
  · intro f hf
    cases hf
  · intro f hf
    simp only [List.mem_singleton] at hf
    subst hf
    rfl

theorem PB_endThinkingBlock (s : StreamState) :
    ∀ f ∈ (ClaudeStream.endThinkingBlock s).2, f.isPureBlock = true := by
  unfold ClaudeStream.endThinkingBlock
  split
  · intro f hf
    rcases hf with _ | ⟨_, hf⟩
    · rfl
    · rcases hf with _ | ⟨_, hf⟩
      · rfl
      · cases hf
  · intro f hf
    cases hf

theorem PB_emitThinking (tokens : String → ℕ) (s : StreamState) (c : String) :
    ∀ f ∈ (ClaudeStream.emitThinking tokens s c).2, f.isPureBlock = true := by
  unfold ClaudeStream.emitThinking
  split
  · intro f hf
    cases hf
  · intro f hf
    rcases List.mem_append.1 hf with hf1 | hf1
    · exact PB_ensureThinkingBlock s f hf1
    · obtain ⟨x, _, hx⟩ := List.mem_map.1 hf1
      subst hx
      rfl

theorem BF_emitToolCall (tokens : String → ℕ) (s : StreamState) (call : ParsedInvokeCall) :
    ∀ f ∈ (ClaudeStream.emitToolCall tokens s call).2, f.isBlockFrame = true := by
  unfold ClaudeStream.emitToolCall
  intro f hf
  simp only [List.append_assoc, List.mem_append] at hf
  rcases hf with hf1 | hf1 | hf1 | hf1
  · exact isBlockFrame_of_pure (PB_endTextBlock s f hf1)
  · simp only [List.mem_singleton] at hf1
    subst hf1
    rfl
  · obtain ⟨x, _, hx⟩ := List.mem_map.1 hf1
    subst hx
    rfl
  · simp only [List.mem_singleton] at hf1
    subst hf1
    rfl

theorem toolStart_emitToolCall (tokens : String → ℕ) (s : StreamState)
    (call : ParsedInvokeCall) :
    toolStartCount (ClaudeStream.emitToolCall tokens s call).2 = 1 := by
  unfold ClaudeStream.emitToolCall
  dsimp only
  unfold toolStartCount
  rw [List.countP_append, List.countP_append, List.countP_append]
  have h1 : List.countP Frame.isToolUseStartF (ClaudeStream.endTextBlock s).2 = 0 :=
    pureBlock_toolStart _ (PB_endTextBlock s)
  have h2 : List.countP Frame.isToolUseStartF
      ((chunk5 call.argsJson.data).map
        (fun c => Frame.blockDelta (ClaudeStream.endTextBlock s).1.nextBlockIndex
          (DeltaKind.inputJsonDelta c))) = 0 := by
    apply pureBlock_toolStart
    intro f hf
    obtain ⟨x, _, hx⟩ := List.mem_map.1 hf
    subst hx
    rfl
  rw [h1, h2]
  rfl

end Proxy

namespace Proxy

theorem blockFrame_msgStopCount (fs : List Frame)
    (h : ∀ f ∈ fs, f.isBlockFrame = true) :
    fs.countP Frame.isMessageStopF = 0 := by
  rw [List.countP_eq_zero]
  intro f hf
  have := h f hf
  cases f <;> simp_all [Frame.isBlockFrame, Frame.isMessageStopF]

theorem pure_frame_facts (fs : List Frame) (h : ∀ f ∈ fs, f.isPureBlock = true) :
    deltaReasons fs = [] ∧ fs.countP Frame.isMessageStopF = 0 ∧ toolStartCount fs = 0 :=
  ⟨(blockFrame_facts fs fun f hf => isBlockFrame_of_pure (h f hf)).1,
    blockFrame_msgStopCount fs fun f hf => isBlockFrame_of_pure (h f hf),
    pureBlock_toolStart fs h⟩

theorem ensureThinkingBlock_finished (s : StreamState) :
    (ClaudeStream.ensureThinkingBlock s).1.finished = s.finished := by
  unfold ClaudeStream.ensureThinkingBlock
  split <;> rfl

theorem ensureThinkingBlock_hasToolCalls (s : StreamState) :
    (ClaudeStream.ensureThinkingBlock s).1.hasToolCalls = s.hasToolCalls := by
  unfold ClaudeStream.ensureThinkingBlock
  split <;> rfl

theorem aggAdd_fields (tokens : String → ℕ) (fire : Bool) (s : StreamState) (c : String) :
    (ClaudeStream.aggAdd tokens fire s c).1.finished = s.finished ∧
    (ClaudeStream.aggAdd tokens fire s c).1.hasToolCalls = s.hasToolCalls := by
  unfold ClaudeStream.aggAdd
  cases fire with
  | false => exact ⟨rfl, rfl⟩
  | true =>
    rw [if_pos rfl]
    obtain ⟨_, _, h3, h4⟩ := flushPending_fields tokens { s with pending := s.pending ++ c }
    exact ⟨h3, h4⟩

theorem emitThinking_fields (tokens : String → ℕ) (s : StreamState) (c : String) :
    (ClaudeStream.emitThinking tokens s c).1.finished = s.finished ∧
    (ClaudeStream.emitThinking tokens s c).1.hasToolCalls = s.hasToolCalls := by
  unfold ClaudeStream.emitThinking
  split
  · exact ⟨rfl, rfl⟩
  · exact ⟨ensureThinkingBlock_finished s, ensureThinkingBlock_hasToolCalls s⟩

theorem emitToolCall_fields (tokens : String → ℕ) (s : StreamState)
    (call : ParsedInvokeCall) :
    (ClaudeStream.emitToolCall tokens s call).1.finished = s.finished ∧
    (ClaudeStream.emitToolCall tokens s call).1.hasToolCalls = true := by
  unfold ClaudeStream.emitToolCall
  refine ⟨?_, rfl⟩
  show (ClaudeStream.endTextBlock s).1.finished = s.finished
  rw [endTextBlock_state]

theorem finish_fields (tokens : String → ℕ) (mult : DecNum) (s : StreamState) :
    (ClaudeStream.finish tokens mult s).1.finished = (s.finished || true) ∧
    (ClaudeStream.finish tokens mult s).1.hasToolCalls = s.hasToolCalls := by
  unfold ClaudeStream.finish
  split
  · next hf => simp [hf]
  · constructor
    · rw [Bool.or_true]
      rw [endThinkingBlock_state, endTextBlock_state]
      show (ClaudeStream.flushPending tokens { s with finished := true }).1.finished = true
      exact (flushPending_fields tokens { s with finished := true }).2.2.1
    · rw [endThinkingBlock_state, endTextBlock_state]
      show (ClaudeStream.flushPending tokens { s with finished := true }).1.hasToolCalls = _
      exact (flushPending_fields tokens { s with finished := true }).2.2.2

end Proxy

namespace Proxy

theorem he_text_facts (tokens : String → ℕ) (mult : DecNum) (fire : Bool)
    (s : StreamState) (content : String) :
    deltaReasons (ClaudeStream.handleEvent tokens mult fire (ParserEvent.text content) s).2 = [] ∧
    (ClaudeStream.handleEvent tokens mult fire (ParserEvent.text content) s).2.countP
      Frame.isMessageStopF = 0 ∧
    toolStartCount (ClaudeStream.handleEvent tokens mult fire (ParserEvent.text content) s).2 = 0 ∧
    (ClaudeStream.handleEvent tokens mult fire (ParserEvent.text content) s).1.hasToolCalls
      = s.hasToolCalls ∧
    (ClaudeStream.handleEvent tokens mult fire (ParserEvent.text content) s).1.finished
      = s.finished := by
  unfold ClaudeStream.handleEvent
  dsimp only
  have hPB : ∀ f ∈ (if s.thinkingBlockOpen then ClaudeStream.endThinkingBlock s else (s, [])).2 ++
      (ClaudeStream.aggAdd tokens fire
        (if s.thinkingBlockOpen then ClaudeStream.endThinkingBlock s else (s, [])).1 content).2,
      f.isPureBlock = true := by
    intro f hf
    rcases List.mem_append.1 hf with hf1 | hf1
    · split at hf1
      · exact PB_endThinkingBlock s f hf1
      · cases hf1
    · exact PB_aggAdd tokens fire _ content f hf1
  obtain ⟨hd, hm, ht⟩ := pure_frame_facts _ hPB
  refine ⟨hd, hm, ht, ?_, ?_⟩
  · rw [(aggAdd_fields tokens fire _ content).2]
    split
    · rw [endThinkingBlock_state]
    · rfl
  · rw [(aggAdd_fields tokens fire _ content).1]
    split
    · rw [endThinkingBlock_state]
    · rfl

theorem he_thinking_facts (tokens : String → ℕ) (mult : DecNum) (fire : Bool)
    (s : StreamState) (content : String) :
    deltaReasons (ClaudeStream.handleEvent tokens mult fire (ParserEvent.thinking content) s).2 = [] ∧
    (ClaudeStream.handleEvent tokens mult fire (ParserEvent.thinking content) s).2.countP
      Frame.isMessageStopF = 0 ∧
    toolStartCount (ClaudeStream.handleEvent tokens mult fire
      (ParserEvent.thinking content) s).2 = 0 ∧
    (ClaudeStream.handleEvent tokens mult fire (ParserEvent.thinking content) s).1.hasToolCalls
      = s.hasToolCalls ∧
    (ClaudeStream.handleEvent tokens mult fire (ParserEvent.thinking content) s).1.finished
      = s.finished := by
  unfold ClaudeStream.handleEvent
  dsimp only
  have hPB : ∀ f ∈ (ClaudeStream.flushPending tokens s).2 ++
      (ClaudeStream.endTextBlock (ClaudeStream.flushPending tokens s).1).2 ++
      (ClaudeStream.emitThinking tokens
        (ClaudeStream.endTextBlock (ClaudeStream.flushPending tokens s).1).1 content).2,
      f.isPureBlock = true := by
    intro f hf
    rcases List.mem_append.1 hf with hf1 | hf1
    · rcases List.mem_append.1 hf1 with hf2 | hf2
      · exact PB_flushPending tokens s f hf2
      · exact PB_endTextBlock _ f hf2
    · exact PB_emitThinking tokens _ content f hf1
  obtain ⟨hd, hm, ht⟩ := pure_frame_facts _ hPB
  refine ⟨hd, hm, ht, ?_, ?_⟩
  · rw [(emitThinking_fields tokens _ content).2, endTextBlock_state]
    exact (flushPending_fields tokens s).2.2.2
  · rw [(emitThinking_fields tokens _ content).1, endTextBlock_state]
    exact (flushPending_fields tokens s).2.2.1

theorem he_toolCall_facts (tokens : String → ℕ) (mult : DecNum) (fire : Bool)
    (s : StreamState) (call : ParsedInvokeCall) :
    deltaReasons (ClaudeStream.handleEvent tokens mult fire (ParserEvent.toolCall call) s).2 = [] ∧
    (ClaudeStream.handleEvent tokens mult fire (ParserEvent.toolCall call) s).2.countP
      Frame.isMessageStopF = 0 ∧
    toolStartCount (ClaudeStream.handleEvent tokens mult fire
      (ParserEvent.toolCall call) s).2 = 1 ∧
    (ClaudeStream.handleEvent tokens mult fire (ParserEvent.toolCall call) s).1.hasToolCalls
      = true ∧
    (ClaudeStream.handleEvent tokens mult fire (ParserEvent.toolCall call) s).1.finished
      = s.finished := by
  unfold ClaudeStream.handleEvent
  dsimp only
  have hBF : ∀ f ∈ (ClaudeStream.handleEvent tokens mult fire (ParserEvent.toolCall call) s).2,
      f.isBlockFrame = true := by
    unfold ClaudeStream.handleEvent
    dsimp only
    intro f hf
    rcases List.mem_append.1 hf with hf1 | hf1
    · rcases List.mem_append.1 hf1 with hf2 | hf2
      · rcases List.mem_append.1 hf2 with hf3 | hf3
        · exact isBlockFrame_of_pure (PB_flushPending tokens s f hf3)
        · exact isBlockFrame_of_pure (PB_endTextBlock _ f hf3)
      · exact isBlockFrame_of_pure (PB_endThinkingBlock _ f hf2)
    · exact BF_emitToolCall tokens _ call f hf1
  obtain ⟨hd, hm⟩ := blockFrame_facts _ hBF
  have hmc := blockFrame_msgStopCount _ hBF
  refine ⟨hd, hmc, ?_, ?_, ?_⟩
  · unfold toolStartCount
    rw [List.countP_append, List.countP_append, List.countP_append]
    rw [show List.countP Frame.isToolUseStartF (ClaudeStream.flushPending tokens s).2 = 0 from
      pureBlock_toolStart _ (PB_flushPending tokens s)]
    rw [show List.countP Frame.isToolUseStartF
        (ClaudeStream.endTextBlock (ClaudeStream.flushPending tokens s).1).2 = 0 from
      pureBlock_toolStart _ (PB_endTextBlock _)]
    rw [show List.countP Frame.isToolUseStartF
        (ClaudeStream.endThinkingBlock
          (ClaudeStream.endTextBlock (ClaudeStream.flushPending tokens s).1).1).2 = 0 from
      pureBlock_toolStart _ (PB_endThinkingBlock _)]
    have := toolStart_emitToolCall tokens
      (ClaudeStream.endThinkingBlock
        (ClaudeStream.endTextBlock (ClaudeStream.flushPending tokens s).1).1).1 call
    unfold toolStartCount at this
    rw [this]
  · exact (emitToolCall_fields tokens _ call).2
  · rw [(emitToolCall_fields tokens _ call).1, endThinkingBlock_state, endTextBlock_state]
    exact (flushPending_fields tokens s).2.2.1

end Proxy

namespace Proxy

theorem he_end_finished (tokens : String → ℕ) (mult : DecNum) (fire : Bool)
    (s : StreamState) (hf : s.finished = true) :
    ClaudeStream.handleEvent tokens mult fire ParserEvent.endOfStream s = (s, []) := by
  show ClaudeStream.finish tokens mult s = (s, [])
  unfold ClaudeStream.finish
  rw [if_pos hf]

theorem he_end_not_finished (tokens : String → ℕ) (mult : DecNum) (fire : Bool)
    (s : StreamState) (hf : s.finished = false) :
    ∃ pre t,
      (ClaudeStream.handleEvent tokens mult fire ParserEvent.endOfStream s).2 =
        pre ++ [Frame.messageDelta (if s.hasToolCalls then "tool_use" else "end_turn") t,
          Frame.messageStop] ∧
      (∀ f ∈ pre, f.isPureBlock = true) ∧
      (ClaudeStream.handleEvent tokens mult fire ParserEvent.endOfStream s).1.finished = true ∧
      (ClaudeStream.handleEvent tokens mult fire
        ParserEvent.endOfStream s).1.hasToolCalls = s.hasToolCalls := by
  show ∃ pre t, (ClaudeStream.finish tokens mult s).2 = _ ∧ _ ∧
    (ClaudeStream.finish tokens mult s).1.finished = true ∧
    (ClaudeStream.finish tokens mult s).1.hasToolCalls = s.hasToolCalls
  have hhtc : (ClaudeStream.endThinkingBlock
      (ClaudeStream.endTextBlock
        (ClaudeStream.flushPending tokens { s with finished := true }).1).1).1.hasToolCalls
      = s.hasToolCalls := by
    rw [endThinkingBlock_state, endTextBlock_state]
    exact (flushPending_fields tokens { s with finished := true }).2.2.2
  have hfin : (ClaudeStream.endThinkingBlock
      (ClaudeStream.endTextBlock
        (ClaudeStream.flushPending tokens { s with finished := true }).1).1).1.finished
      = true := by
    rw [endThinkingBlock_state, endTextBlock_state]
    exact (flushPending_fields tokens { s with finished := true }).2.2.1
  unfold ClaudeStream.finish
  rw [if_neg (by simp [hf])]
  dsimp only
  rw [hhtc, hfin]
  refine ⟨_, _, rfl, ?_, rfl, rfl⟩
  intro f hfm
  rcases List.mem_append.1 hfm with hf1 | hf1
  · rcases List.mem_append.1 hf1 with hf2 | hf2
    · exact PB_flushPending tokens _ f hf2
    · exact PB_endTextBlock _ f hf2
  · exact PB_endThinkingBlock _ f hf1

theorem handleEvents_cons (tokens : String → ℕ) (mult : DecNum) (ev : ParserEvent)
    (fire : Bool) (rest : List (ParserEvent × Bool)) (s : StreamState) :
    ClaudeStream.handleEvents tokens mult ((ev, fire) :: rest) s =
      ((ClaudeStream.handleEvents tokens mult rest
          (ClaudeStream.handleEvent tokens mult fire ev s).1).1,
        (ClaudeStream.handleEvent tokens mult fire ev s).2 ++
          (ClaudeStream.handleEvents tokens mult rest
            (ClaudeStream.handleEvent tokens mult fire ev s).1).2) := rfl

theorem handleEvents_append (tokens : String → ℕ) (mult : DecNum)
    (xs ys : List (ParserEvent × Bool)) :
    ∀ s, ClaudeStream.handleEvents tokens mult (xs ++ ys) s =
      ((ClaudeStream.handleEvents tokens mult ys
          (ClaudeStream.handleEvents tokens mult xs s).1).1,
        (ClaudeStream.handleEvents tokens mult xs s).2 ++
          (ClaudeStream.handleEvents tokens mult ys
            (ClaudeStream.handleEvents tokens mult xs s).1).2) := by
  induction xs with
  | nil => intro s; rfl
  | cons p rest ih =>
    intro s
    obtain ⟨ev, fire⟩ := p
    simp only [List.cons_append, handleEvents_cons, ih, List.append_assoc]

theorem handleEvents_nonEnd (tokens : String → ℕ) (mult : DecNum)
    (pre : List (ParserEvent × Bool))
    (hpre : ∀ p ∈ pre, p.1 ≠ ParserEvent.endOfStream) :
    ∀ s, deltaReasons (ClaudeStream.handleEvents tokens mult pre s).2 = [] ∧
      (ClaudeStream.handleEvents tokens mult pre s).2.countP Frame.isMessageStopF = 0 ∧
      (ClaudeStream.handleEvents tokens mult pre s).1.finished = s.finished ∧
      ((ClaudeStream.handleEvents tokens mult pre s).1.hasToolCalls = true ↔
        (s.hasToolCalls = true ∨
          0 < toolStartCount (ClaudeStream.handleEvents tokens mult pre s).2)) := by
  induction pre with
  | nil =>
    intro s
    refine ⟨rfl, rfl, rfl, ?_⟩
    show s.hasToolCalls = true ↔ (s.hasToolCalls = true ∨ 0 < toolStartCount [])
    rw [show toolStartCount [] = 0 from rfl]
    constructor
    · exact Or.inl
    · rintro (hx | hx)
      · exact hx
      · exact absurd hx (by omega)
  | cons p rest ih =>
    intro s
    obtain ⟨ev, fire⟩ := p
    have hev : ev ≠ ParserEvent.endOfStream := hpre (ev, fire) (List.mem_cons_self _ _)
    have hrest : ∀ q ∈ rest, q.1 ≠ ParserEvent.endOfStream :=
      fun q hq => hpre q (List.mem_cons_of_mem _ hq)
    rw [handleEvents_cons]
    dsimp only
    obtain ⟨ihd, ihm, ihf, ihh⟩ :=
      ih hrest (ClaudeStream.handleEvent tokens mult fire ev s).1
    have hco : ∀ a b : List Frame,
        toolStartCount (a ++ b) = toolStartCount a + toolStartCount b :=
      fun a b => List.countP_append _ _ _
    have hfacts : deltaReasons (ClaudeStream.handleEvent tokens mult fire ev s).2 = [] ∧
        (ClaudeStream.handleEvent tokens mult fire ev s).2.countP Frame.isMessageStopF = 0 ∧
        (ClaudeStream.handleEvent tokens mult fire ev s).1.finished = s.finished ∧
        ((ClaudeStream.handleEvent tokens mult fire ev s).1.hasToolCalls = true ↔
          (s.hasToolCalls = true ∨
            0 < toolStartCount (ClaudeStream.handleEvent tokens mult fire ev s).2)) := by
      cases ev with
      | text content =>
        obtain ⟨h1, h2, h3, h4, h5⟩ := he_text_facts tokens mult fire s content
        refine ⟨h1, h2, h5, ?_⟩
        rw [h3, h4]
        constructor
        · exact Or.inl
        · rintro (hx | hx)
          · exact hx
          · exact absurd hx (by omega)
      | thinking content =>
        obtain ⟨h1, h2, h3, h4, h5⟩ := he_thinking_facts tokens mult fire s content
        refine ⟨h1, h2, h5, ?_⟩
        rw [h3, h4]
        constructor
        · exact Or.inl
        · rintro (hx | hx)
          · exact hx
          · exact absurd hx (by omega)
      | toolCall call =>
        obtain ⟨h1, h2, h3, h4, h5⟩ := he_toolCall_facts tokens mult fire s call
        refine ⟨h1, h2, h5, ?_⟩
        rw [h3, h4]
        constructor
        · intro _
          exact Or.inr (by omega)
        · intro _
          rfl
      | toolCallFailed content priorText =>
        refine ⟨rfl, rfl, rfl, ?_⟩
        rw [show toolStartCount (ClaudeStream.handleEvent tokens mult fire
          (ParserEvent.toolCallFailed content priorText) s).2 = 0 from rfl]
        constructor
        · exact Or.inl
        · rintro (hx | hx)
          · exact hx
          · exact absurd hx (by omega)
      | endOfStream => exact absurd rfl hev
    obtain ⟨h1, h2, h3, h4⟩ := hfacts
    refine ⟨?_, ?_, ?_, ?_⟩
    · unfold deltaReasons at h1 ihd ⊢
      rw [List.filterMap_append, h1, ihd]
      rfl
    · rw [List.countP_append, h2, ihm]
    · rw [ihf, h3]
    · rw [ihh, hco]
      constructor
      · rintro (hy | hy)
        · rcases h4.1 hy with hz | hz
          · exact Or.inl hz
          · exact Or.inr (by omega)
        · exact Or.inr (by omega)
      · rintro (hy | hy)
        · exact Or.inl (h4.2 (Or.inl hy))
        · by_cases hz : 0 < toolStartCount (ClaudeStream.handleEvents tokens mult rest
            (ClaudeStream.handleEvent tokens mult fire ev s).1).2
          · exact Or.inr hz
          · exact Or.inl (h4.2 (Or.inr (by omega)))

end Proxy

/-- C3: for every completed `ClaudeStream` response (any prefix of
non-`end` parser events followed by the end of stream), the single
`message_delta` frame carries `stop_reason = "tool_use"` iff at least one
`tool_use` content block was emitted in the response, and `"end_turn"`
otherwise. -/
theorem c3_stop_reason_iff (tokens : String → ℕ) (mult : DecNum)
    (pre : List (Proxy.ParserEvent × Bool)) (b : Bool)
    (hpre : ∀ p ∈ pre, p.1 ≠ Proxy.ParserEvent.endOfStream) :
    Proxy.deltaReasons (Proxy.ClaudeStream.run tokens mult
        (pre ++ [(Proxy.ParserEvent.endOfStream, b)])) =
      [if 0 < Proxy.toolStartCount (Proxy.ClaudeStream.run tokens mult
          (pre ++ [(Proxy.ParserEvent.endOfStream, b)])) then "tool_use" else "end_turn"] := by
  open Proxy in
  obtain ⟨ihd, ihm, ihf, ihh⟩ :=
    Proxy.handleEvents_nonEnd tokens mult pre hpre Proxy.StreamState.init
  obtain ⟨pe, t, heq, hpure, hfin2, hhtc2⟩ :=
    Proxy.he_end_not_finished tokens mult b
      (Proxy.ClaudeStream.handleEvents tokens mult pre Proxy.StreamState.init).1 ihf
  obtain ⟨hpd, hpm, hpt⟩ := Proxy.pure_frame_facts pe hpure
  have hrw : Proxy.ClaudeStream.run tokens mult
      (pre ++ [(Proxy.ParserEvent.endOfStream, b)]) =
      Proxy.Frame.messageStart :: Proxy.Frame.ping ::
        ((Proxy.ClaudeStream.handleEvents tokens mult pre Proxy.StreamState.init).2 ++
          ((pe ++ [Proxy.Frame.messageDelta
              (if (Proxy.ClaudeStream.handleEvents tokens mult pre
                Proxy.StreamState.init).1.hasToolCalls then "tool_use" else "end_turn") t,
            Proxy.Frame.messageStop]) ++ [])) := by
    unfold Proxy.ClaudeStream.run
    rw [Proxy.handleEvents_append, Proxy.handleEvents_cons]
    dsimp only
    rw [heq]
    rfl
  rw [hrw]
  have hd : Proxy.deltaReasons (Proxy.Frame.messageStart :: Proxy.Frame.ping ::
      ((Proxy.ClaudeStream.handleEvents tokens mult pre Proxy.StreamState.init).2 ++
        ((pe ++ [Proxy.Frame.messageDelta
            (if (Proxy.ClaudeStream.handleEvents tokens mult pre
              Proxy.StreamState.init).1.hasToolCalls then "tool_use" else "end_turn") t,
          Proxy.Frame.messageStop]) ++ []))) =
      [if (Proxy.ClaudeStream.handleEvents tokens mult pre
        Proxy.StreamState.init).1.hasToolCalls then "tool_use" else "end_turn"] := by
    show Proxy.deltaReasons
      ((Proxy.ClaudeStream.handleEvents tokens mult pre Proxy.StreamState.init).2 ++ _) = _
    unfold Proxy.deltaReasons at ihd hpd ⊢
    rw [List.filterMap_append, ihd, List.append_nil, List.filterMap_append, hpd]
    rfl
  rw [hd]
  have hcount : Proxy.toolStartCount (Proxy.Frame.messageStart :: Proxy.Frame.ping ::
      ((Proxy.ClaudeStream.handleEvents tokens mult pre Proxy.StreamState.init).2 ++
        ((pe ++ [Proxy.Frame.messageDelta
            (if (Proxy.ClaudeStream.handleEvents tokens mult pre
              Proxy.StreamState.init).1.hasToolCalls then "tool_use" else "end_turn") t,
          Proxy.Frame.messageStop]) ++ []))) =
      Proxy.toolStartCount
        (Proxy.ClaudeStream.handleEvents tokens mult pre Proxy.StreamState.init).2 := by
    unfold Proxy.toolStartCount at hpt ⊢
    rw [List.countP_cons, List.countP_cons, List.countP_append, List.append_nil,
      List.countP_append, hpt]
    simp [Proxy.Frame.isToolUseStartF, List.countP_cons]
  rw [hcount]
  by_cases hn : 0 < Proxy.toolStartCount
      (Proxy.ClaudeStream.handleEvents tokens mult pre Proxy.StreamState.init).2
  · rw [if_pos (ihh.2 (Or.inr hn)), if_pos hn]
  · rw [if_neg hn, if_neg ?hne]
    case hne =>
      intro hT
      rcases ihh.1 hT with hz | hz
      · exact absurd hz (by decide)
      · exact absurd hz hn

namespace Proxy

theorem handleEvents_msg_bound (tokens : String → ℕ) (mult : DecNum)
    (evs : List (ParserEvent × Bool)) :
    ∀ s, (s.finished = true →
        deltaReasons (ClaudeStream.handleEvents tokens mult evs s).2 = [] ∧
        (ClaudeStream.handleEvents tokens mult evs s).2.countP Frame.isMessageStopF = 0) ∧
      (s.finished = false →
        (deltaReasons (ClaudeStream.handleEvents tokens mult evs s).2).length ≤ 1 ∧
        (ClaudeStream.handleEvents tokens mult evs s).2.countP Frame.isMessageStopF ≤ 1) := by
  induction evs with
  | nil =>
    intro s
    refine ⟨fun _ => ⟨rfl, rfl⟩, fun _ => ⟨?_, ?_⟩⟩
    · show (deltaReasons ([] : List Frame)).length ≤ 1
      simp [deltaReasons]
    · show ([] : List Frame).countP Frame.isMessageStopF ≤ 1
      simp
  | cons p rest ih =>
    intro s
    obtain ⟨ev, fire⟩ := p
    rw [handleEvents_cons]
    dsimp only
    have hco : ∀ a b : List Frame, deltaReasons (a ++ b) = deltaReasons a ++ deltaReasons b :=
      fun a b => List.filterMap_append a b _
    have hcp : ∀ a b : List Frame,
        (a ++ b).countP Frame.isMessageStopF = a.countP Frame.isMessageStopF +
          b.countP Frame.isMessageStopF :=
      fun a b => List.countP_append _ _ _
    cases ev with
    | endOfStream =>
      rcases Bool.eq_false_or_eq_true s.finished with hf | hf
      · -- already finished: a later End emits nothing
        have heq := he_end_finished tokens mult fire s hf
        rw [heq]
        dsimp only
        obtain ⟨ih1, ih2⟩ := ih s
        constructor
        · intro _
          obtain ⟨ihd, ihm⟩ := ih1 hf
          rw [List.nil_append]
          exact ⟨ihd, ihm⟩
        · intro hwrong
          rw [hwrong] at hf
          cases hf
      · -- first End: exactly one message_delta and one message_stop, then finished
        obtain ⟨pe, t, heq, hpure, hfin2, _⟩ := he_end_not_finished tokens mult fire s hf
        obtain ⟨hpd, hpm, _⟩ := pure_frame_facts pe hpure
        obtain ⟨ih1, _⟩ := ih (ClaudeStream.handleEvent tokens mult fire
          ParserEvent.endOfStream s).1
        obtain ⟨ihd, ihm⟩ := ih1 hfin2
        constructor
        · intro hwrong
          rw [hwrong] at hf
          cases hf
        · intro _
          rw [hco, hcp, heq, hco, hcp, hpd, hpm, ihd, ihm]
          constructor
          · simp [deltaReasons]
          · simp [Frame.isMessageStopF, List.countP_cons]
    | text content =>
      obtain ⟨h1, h2, h3, _, h5⟩ := he_text_facts tokens mult fire s content
      obtain ⟨ih1, ih2⟩ := ih (ClaudeStream.handleEvent tokens mult fire
        (ParserEvent.text content) s).1
      constructor
      · intro hf
        obtain ⟨ihd, ihm⟩ := ih1 (by rw [h5]; exact hf)
        rw [hco, hcp, h1, h2, ihd, ihm]
        exact ⟨rfl, rfl⟩
      · intro hf
        obtain ⟨ihd, ihm⟩ := ih2 (by rw [h5]; exact hf)
        rw [hco, hcp, h1, h2]
        constructor
        · simpa using ihd
        · simpa using ihm
    | thinking content =>
      obtain ⟨h1, h2, h3, _, h5⟩ := he_thinking_facts tokens mult fire s content
      obtain ⟨ih1, ih2⟩ := ih (ClaudeStream.handleEvent tokens mult fire
        (ParserEvent.thinking content) s).1
      constructor
      · intro hf
        obtain ⟨ihd, ihm⟩ := ih1 (by rw [h5]; exact hf)
        rw [hco, hcp, h1, h2, ihd, ihm]
        exact ⟨rfl, rfl⟩
      · intro hf
        obtain ⟨ihd, ihm⟩ := ih2 (by rw [h5]; exact hf)
        rw [hco, hcp, h1, h2]
        constructor
        · simpa using ihd
        · simpa using ihm
    | toolCall call =>
      obtain ⟨h1, h2, h3, _, h5⟩ := he_toolCall_facts tokens mult fire s call
      obtain ⟨ih1, ih2⟩ := ih (ClaudeStream.handleEvent tokens mult fire
        (ParserEvent.toolCall call) s).1
      constructor
      · intro hf
        obtain ⟨ihd, ihm⟩ := ih1 (by rw [h5]; exact hf)
        rw [hco, hcp, h1, h2, ihd, ihm]
        exact ⟨rfl, rfl⟩
      · intro hf
        obtain ⟨ihd, ihm⟩ := ih2 (by rw [h5]; exact hf)
        rw [hco, hcp, h1, h2]
        constructor
        · simpa using ihd
        · simpa using ihm
    | toolCallFailed content priorText =>
      rw [show ClaudeStream.handleEvent tokens mult fire
        (ParserEvent.toolCallFailed content priorText) s = (s, []) from rfl]
      dsimp only
      obtain ⟨ih1, ih2⟩ := ih s
      constructor
      · intro hf
        obtain ⟨ihd, ihm⟩ := ih1 hf
        rw [List.nil_append]
        exact ⟨ihd, ihm⟩
      · intro hf
        obtain ⟨ihd, ihm⟩ := ih2 hf
        rw [List.nil_append]
        exact ⟨ihd, ihm⟩

end Proxy

/-- C8: `ClaudeStream.finish` is idempotent.  Any full run contains at
most one `message_delta` and at most one `message_stop`; an `End` event
on an already-finished stream emits no frames at all; and the first `End`
event emits (after flush/close frames) exactly `message_delta` followed
by `message_stop`. -/
theorem c8_finish_idempotent (tokens : String → ℕ) (mult : DecNum) :
    (∀ evs : List (Proxy.ParserEvent × Bool),
      (Proxy.deltaReasons (Proxy.ClaudeStream.run tokens mult evs)).length ≤ 1 ∧
      (Proxy.ClaudeStream.run tokens mult evs).countP Proxy.Frame.isMessageStopF ≤ 1) ∧
    (∀ (fire : Bool) (s : Proxy.StreamState), s.finished = true →
      (Proxy.ClaudeStream.handleEvent tokens mult fire
        Proxy.ParserEvent.endOfStream s).2 = []) ∧
    (∀ (fire : Bool) (s : Proxy.StreamState), s.finished = false →
      ∃ preF t,
        (Proxy.ClaudeStream.handleEvent tokens mult fire
          Proxy.ParserEvent.endOfStream s).2 =
          preF ++ [Proxy.Frame.messageDelta
            (if s.hasToolCalls then "tool_use" else "end_turn") t,
            Proxy.Frame.messageStop]) := by
  refine ⟨?_, ?_, ?_⟩
  · intro evs
    obtain ⟨_, h2⟩ := Proxy.handleEvents_msg_bound tokens mult evs Proxy.StreamState.init
    obtain ⟨hd, hm⟩ := h2 rfl
    constructor
    · show (Proxy.deltaReasons ((Proxy.ClaudeStream.handleEvents tokens mult evs
        Proxy.StreamState.init).2)).length ≤ 1
      exact hd
    · show (Proxy.Frame.messageStart :: Proxy.Frame.ping ::
        (Proxy.ClaudeStream.handleEvents tokens mult evs Proxy.StreamState.init).2).countP
          Proxy.Frame.isMessageStopF ≤ 1
      rw [List.countP_cons, List.countP_cons]
      simpa [Proxy.Frame.isMessageStopF] using hm
  · intro fire s hf
    rw [Proxy.he_end_finished tokens mult fire s hf]
  · intro fire s hf
    obtain ⟨pe, t, heq, _, _, _⟩ := Proxy.he_end_not_finished tokens mult fire s hf
    exact ⟨pe, t, heq⟩

/-- Witness for C8: a finished stream emits nothing on a repeated `End`,
and a fresh stream's first `End` ends in `message_delta`/`message_stop`;
counts at a concrete run. -/
theorem c8_finish_idempotent_witness :
    (Proxy.ClaudeStream.handleEvent (fun s => s.length) DecNum.one true
      Proxy.ParserEvent.endOfStream
      ⟨1, false, false, true, 3, false, ""⟩).2 = [] ∧
    (∃ preF t,
      (Proxy.ClaudeStream.handleEvent (fun s => s.length) DecNum.one true
        Proxy.ParserEvent.endOfStream Proxy.StreamState.init).2 =
        preF ++ [Proxy.Frame.messageDelta "end_turn" t, Proxy.Frame.messageStop]) ∧
    (Proxy.deltaReasons (Proxy.ClaudeStream.run (fun s => s.length) DecNum.one
      [(Proxy.ParserEvent.endOfStream, false), (Proxy.ParserEvent.endOfStream, true)])).length ≤ 1 := by
  refine ⟨?_, ?_, ?_⟩
  · exact (c8_finish_idempotent (fun s => s.length) DecNum.one).2.1 true
      ⟨1, false, false, true, 3, false, ""⟩ rfl
  · obtain ⟨preF, t, h⟩ := (c8_finish_idempotent (fun s => s.length) DecNum.one).2.2 true
      Proxy.StreamState.init rfl
    exact ⟨preF, t, h⟩
  · exact ((c8_finish_idempotent (fun s => s.length) DecNum.one).1
      [(Proxy.ParserEvent.endOfStream, false), (Proxy.ParserEvent.endOfStream, true)]).1

/-- Witness for C3: a concrete text-then-tool-call stream (the reason is
`tool_use`) — the hypothesis that `End` is last is discharged at this
input. -/
theorem c3_stop_reason_iff_witness :
    Proxy.deltaReasons (Proxy.ClaudeStream.run (fun s => s.length) DecNum.one
        ([(Proxy.ParserEvent.text "hi", true),
          (Proxy.ParserEvent.toolCall ⟨"get_weather", "{}"⟩, false)] ++
          [(Proxy.ParserEvent.endOfStream, false)])) =
      [if 0 < Proxy.toolStartCount (Proxy.ClaudeStream.run (fun s => s.length) DecNum.one
          ([(Proxy.ParserEvent.text "hi", true),
            (Proxy.ParserEvent.toolCall ⟨"get_weather", "{}"⟩, false)] ++
            [(Proxy.ParserEvent.endOfStream, false)])) then "tool_use" else "end_turn"] :=
  c3_stop_reason_iff (fun s => s.length) DecNum.one
    [(Proxy.ParserEvent.text "hi", true),
      (Proxy.ParserEvent.toolCall ⟨"get_weather", "{}"⟩, false)] false
    (by intro p hp
        rcases hp with _ | ⟨_, hp⟩
        · simp
        · rcases hp with _ | ⟨_, hp⟩
          · simp
          · cases hp)

namespace Proxy

/-- `config.toolCallRetry` as read by `handle_openai_stream.ts`
(`enabled`, `maxRetries`, `keepAlive`; the matching config source is not
under the sources, the fields are those accessed by the handler). -/
structure RetrySettings where
  enabled : Bool
  maxRetries : Option ℕ
  keepAlive : Bool
deriving Repr, DecidableEq

/-- `config.toolCallRetry?.maxRetries || 1` (JS `||`: `0` and `undefined`
fall back to `1`). -/
def effMaxRetries (rs : RetrySettings) : ℕ :=
  match rs.maxRetries with
  | some n => if n = 0 then 1 else n
  | none => 1

/-- `e.type === "tool_call_failed"`. -/
def ParserEvent.isFailedEvent : ParserEvent → Bool
  | ParserEvent.toolCallFailed _ _ => true
  | _ => false

/-- `failedEvent.content`. -/
def ParserEvent.failedContent : ParserEvent → String
  | ParserEvent.toolCallFailed c _ => c
  | _ => ""

/-- `handle_openai_stream.ts` lines 119-162 — the retry loop over the
remaining attempt numbers (`[attempt … maxRetries]`).  Each attempt's
upstream round-trip (`ToolCallRetryHandler.retry`, whose source is not in
the repository) is abstracted by the oracle `attempts`: per the spec it
either produces a well-formed `ToolCall` or fails.  On success the
synthetic `tool_call` event is handed to the writer and the loop breaks;
after a failed non-final attempt a keep-alive ping is sent.  Returns the
writer state, the emitted frames, and the `retrySuccess` flag. -/
def retryLoop (tokens : String → ℕ) (mult : DecNum)
    (attempts : ℕ → Option ParsedInvokeCall) (keepAlive : Bool) :
    List ℕ → StreamState → StreamState × (List Frame × Bool)
  | [], s => (s, ([], false))
  | a :: restA, s =>
    match attempts a with
    | some call =>
      let r := ClaudeStream.handleEvent tokens mult false (ParserEvent.toolCall call) s
      (r.1, (r.2, true))
    | none =>
      match restA with
      | [] => (s, ([], false))
      | _ :: _ =>
        let pingF := if keepAlive then [Frame.ping] else []
        let r := retryLoop tokens mult attempts keepAlive restA s
        (r.1, (pingF ++ r.2.1, r.2.2))

/-- `handle_openai_stream.ts` lines 96-179 (identically
`handle_anthropic_stream.ts` lines 101-184) — what happens after
upstream EOF: if the parsed events contain a `tool_call_failed` event and
retries are enabled (with a delimiter, original messages and an upstream
url available), send a keep-alive ping and run the retry loop; on success
the synthetic tool call is written, on exhaustion the raw failed text is
degraded to a text event (whose aggregation timer fires, `fire = true`);
otherwise the events are handed to the writer unchanged. -/
def afterEof (tokens : String → ℕ) (mult : DecNum)
    (events : List (ParserEvent × Bool)) (toolCallRetry : Option RetrySettings)
    (hasDelimiter msgsNonempty urlNonempty : Bool)
    (attempts : ℕ → Option ParsedInvokeCall) (s : StreamState) :
    StreamState × List Frame :=
  match events.find? (fun p => p.1.isFailedEvent), toolCallRetry with
  | some fe, some rs =>
    if rs.enabled && hasDelimiter && msgsNonempty && urlNonempty then
      let pingF := if rs.keepAlive then [Frame.ping] else []
      let r := retryLoop tokens mult attempts rs.keepAlive
        (List.range' 1 (effMaxRetries rs)) s
      if r.2.2 then (r.1, pingF ++ r.2.1)
      else
        let rf := ClaudeStream.handleEvent tokens mult true
          (ParserEvent.text fe.1.failedContent) r.1
        (rf.1, pingF ++ r.2.1 ++ rf.2)
    else ClaudeStream.handleEvents tokens mult events s
  | _, _ => ClaudeStream.handleEvents tokens mult events s

end Proxy

namespace Proxy

theorem he_toolCall_start_name (tokens : String → ℕ) (mult : DecNum) (fire : Bool)
    (s : StreamState) (call : ParsedInvokeCall) :
    ∀ i nm, Frame.blockStart i (BlockKind.toolUse nm) ∈
      (ClaudeStream.handleEvent tokens mult fire (ParserEvent.toolCall call) s).2 →
      nm = call.name := by
  intro i nm hmem
  unfold ClaudeStream.handleEvent at hmem
  dsimp only at hmem
  rcases List.mem_append.1 hmem with h1 | h1
  · rcases List.mem_append.1 h1 with h2 | h2
    · rcases List.mem_append.1 h2 with h3 | h3
      · have := PB_flushPending tokens s _ h3
        simp [Frame.isPureBlock] at this
      · have := PB_endTextBlock _ _ h3
        simp [Frame.isPureBlock] at this
    · have := PB_endThinkingBlock _ _ h2
      simp [Frame.isPureBlock] at this
  · unfold ClaudeStream.emitToolCall at h1
    dsimp only at h1
    simp only [List.append_assoc, List.mem_append] at h1
    rcases h1 with h2 | h2 | h2 | h2
    · have := PB_endTextBlock _ _ h2
      simp [Frame.isPureBlock] at this
    · simp only [List.mem_singleton] at h2
      cases h2
      rfl
    · obtain ⟨x, _, hx⟩ := List.mem_map.1 h2
      cases hx
    · simp only [List.mem_singleton] at h2
      cases h2

theorem retryLoop_cons (tokens : String → ℕ) (mult : DecNum)
    (attempts : ℕ → Option ParsedInvokeCall) (ka : Bool) (a : ℕ) (restA : List ℕ)
    (s : StreamState) :
    retryLoop tokens mult attempts ka (a :: restA) s =
      match attempts a with
      | some call =>
        ((ClaudeStream.handleEvent tokens mult false (ParserEvent.toolCall call) s).1,
          ((ClaudeStream.handleEvent tokens mult false (ParserEvent.toolCall call) s).2, true))
      | none =>
        match restA with
        | [] => (s, ([], false))
        | _ :: _ =>
          ((retryLoop tokens mult attempts ka restA s).1,
            ((if ka then [Frame.ping] else []) ++
              (retryLoop tokens mult attempts ka restA s).2.1,
              (retryLoop tokens mult attempts ka restA s).2.2)) := rfl

theorem retryLoop_fail (tokens : String → ℕ) (mult : DecNum)
    (attempts : ℕ → Option ParsedInvokeCall) (ka : Bool) :
    ∀ (l : List ℕ) (s : StreamState), (∀ j ∈ l, attempts j = none) →
      (retryLoop tokens mult attempts ka l s).1 = s ∧
      (retryLoop tokens mult attempts ka l s).2.2 = false ∧
      ∀ f ∈ (retryLoop tokens mult attempts ka l s).2.1, f = Frame.ping := by
  intro l
  induction l with
  | nil =>
    intro s _
    exact ⟨rfl, rfl, fun f hf => absurd hf (List.not_mem_nil f)⟩
  | cons a restA ih =>
    intro s h
    have ha : attempts a = none := h a (List.mem_cons_self _ _)
    rw [retryLoop_cons, ha]
    dsimp only
    cases restA with
    | nil => exact ⟨rfl, rfl, fun f hf => absurd hf (List.not_mem_nil f)⟩
    | cons b rest2 =>
      dsimp only
      obtain ⟨h1, h2, h3⟩ := ih s (fun j hj => h j (List.mem_cons_of_mem _ hj))
      refine ⟨h1, h2, ?_⟩
      intro f hf
      rcases List.mem_append.1 hf with hf1 | hf1
      · rcases Bool.eq_false_or_eq_true ka with hka | hka
        · rw [if_pos hka] at hf1
          simpa using hf1
        · rw [if_neg (by simp [hka])] at hf1
          exact absurd hf1 (List.not_mem_nil f)
      · exact h3 f hf1

theorem retryLoop_success (tokens : String → ℕ) (mult : DecNum)
    (attempts : ℕ → Option ParsedInvokeCall) (ka : Bool) :
    ∀ (l1 : List ℕ) (k : ℕ) (l2 : List ℕ) (s : StreamState) (call : ParsedInvokeCall),
      (∀ j ∈ l1, attempts j = none) → attempts k = some call →
      (retryLoop tokens mult attempts ka (l1 ++ k :: l2) s).2.2 = true ∧
      toolStartCount (retryLoop tokens mult attempts ka (l1 ++ k :: l2) s).2.1 = 1 ∧
      ∀ i nm, Frame.blockStart i (BlockKind.toolUse nm) ∈
        (retryLoop tokens mult attempts ka (l1 ++ k :: l2) s).2.1 → nm = call.name := by
  intro l1
  induction l1 with
  | nil =>
    intro k l2 s call _ hk
    rw [List.nil_append]
    rw [retryLoop_cons, hk]
    dsimp only
    exact ⟨rfl, (he_toolCall_facts tokens mult false s call).2.2.1,
      he_toolCall_start_name tokens mult false s call⟩
  | cons a l1x ih =>
    intro k l2 s call h hk
    have ha : attempts a = none := h a (List.mem_cons_self _ _)
    rw [List.cons_append]
    rw [retryLoop_cons, ha]
    dsimp only
    obtain ⟨h1, h2, h3⟩ := ih k l2 s call (fun j hj => h j (List.mem_cons_of_mem _ hj)) hk
    cases hl : l1x ++ k :: l2 with
    | nil => exact absurd hl (by simp)
    | cons b rest2 =>
      rw [hl] at h1 h2 h3
      dsimp only
      refine ⟨h1, ?_, ?_⟩
      · unfold toolStartCount at h2 ⊢
        rw [List.countP_append, h2]
        rcases Bool.eq_false_or_eq_true ka with hka | hka
        · rw [if_pos hka]
          rfl
        · rw [if_neg (by simp [hka])]
          rfl
      · intro i nm hmem
        rcases List.mem_append.1 hmem with hm1 | hm1
        · rcases Bool.eq_false_or_eq_true ka with hka | hka
          · rw [if_pos hka] at hm1
            simp at hm1
          · rw [if_neg (by simp [hka])] at hm1
            exact absurd hm1 (List.not_mem_nil _)
        · exact h3 i nm hm1

theorem toolStartCount_append (a b : List Frame) :
    toolStartCount (a ++ b) = toolStartCount a + toolStartCount b :=
  List.countP_append _ _ _

theorem toolStartCount_pingF (b : Bool) :
    toolStartCount (if b then [Frame.ping] else []) = 0 := by
  cases b <;> rfl

theorem toolStartCount_of_pings (l : List Frame) (h : ∀ f ∈ l, f = Frame.ping) :
    toolStartCount l = 0 := by
  refine List.countP_eq_zero.2 ?_
  intro f hf
  rw [h f hf]
  decide

theorem blockStart_not_mem_pingF (b : Bool) (i : ℕ) (k : BlockKind) :
    Frame.blockStart i k ∉ (if b then [Frame.ping] else []) := by
  cases b <;> simp

theorem aggAdd_fire_delta (tokens : String → ℕ) (s : StreamState) (content : String)
    (h : s.pending ++ content ≠ "") :
    ∃ i, Frame.blockDelta i (DeltaKind.textDelta (s.pending ++ content)) ∈
      (ClaudeStream.aggAdd tokens true s content).2 := by
  unfold ClaudeStream.aggAdd
  rw [if_pos rfl]
  unfold ClaudeStream.flushPending ClaudeStream.flushText
  dsimp only
  rw [if_neg h]
  exact ⟨_, List.mem_append.2 (Or.inr (List.mem_singleton.2 rfl))⟩

theorem he_text_fire_delta (tokens : String → ℕ) (mult : DecNum)
    (s : StreamState) (content : String) (h : s.pending ++ content ≠ "") :
    ∃ i, Frame.blockDelta i (DeltaKind.textDelta (s.pending ++ content)) ∈
      (ClaudeStream.handleEvent tokens mult true (ParserEvent.text content) s).2 := by
  unfold ClaudeStream.handleEvent
  dsimp only
  have hp : (if s.thinkingBlockOpen then ClaudeStream.endThinkingBlock s else (s, [])).1.pending
      = s.pending := by
    split
    · rw [endThinkingBlock_state]
    · rfl
  obtain ⟨i, hi⟩ := aggAdd_fire_delta tokens
    (if s.thinkingBlockOpen then ClaudeStream.endThinkingBlock s else (s, [])).1 content
    (by rw [hp]; exact h)
  rw [hp] at hi
  exact ⟨i, List.mem_append.2 (Or.inr hi)⟩

end Proxy

namespace Proxy

/-- C5: after stream EOF with a `tool_call_failed` event and retries
enabled (delimiter, original messages and upstream url present): if the
first successful attempt is `k` (all earlier attempts fail), exactly one
`tool_use` content block is emitted and every emitted `tool_use` block
start carries the originally failed call name; if every attempt fails,
no `tool_use` block is emitted and the raw failed text is degraded to a
`text_delta` on a text block. -/
theorem c5_retry_behavior (tokens : String → ℕ) (mult : DecNum)
    (events : List (ParserEvent × Bool)) (rs : RetrySettings)
    (attempts : ℕ → Option ParsedInvokeCall) (s : StreamState)
    (fe : ParserEvent × Bool)
    (hfind : events.find? (fun p => p.1.isFailedEvent) = some fe)
    (hen : rs.enabled = true) :
    (∀ l1 k l2 call, List.range' 1 (effMaxRetries rs) = l1 ++ k :: l2 →
      (∀ j ∈ l1, attempts j = none) → attempts k = some call →
      toolStartCount (afterEof tokens mult events (some rs) true true true attempts s).2 = 1 ∧
      ∀ i nm, Frame.blockStart i (BlockKind.toolUse nm) ∈
        (afterEof tokens mult events (some rs) true true true attempts s).2 →
        nm = call.name) ∧
    ((∀ j ∈ List.range' 1 (effMaxRetries rs), attempts j = none) →
      s.pending ++ fe.1.failedContent ≠ "" →
      toolStartCount (afterEof tokens mult events (some rs) true true true attempts s).2 = 0 ∧
      ∃ i, Frame.blockDelta i (DeltaKind.textDelta (s.pending ++ fe.1.failedContent)) ∈
        (afterEof tokens mult events (some rs) true true true attempts s).2) := by
  have hrw : afterEof tokens mult events (some rs) true true true attempts s =
      (if (retryLoop tokens mult attempts rs.keepAlive
            (List.range' 1 (effMaxRetries rs)) s).2.2 then
        ((retryLoop tokens mult attempts rs.keepAlive
            (List.range' 1 (effMaxRetries rs)) s).1,
          (if rs.keepAlive then [Frame.ping] else []) ++
            (retryLoop tokens mult attempts rs.keepAlive
              (List.range' 1 (effMaxRetries rs)) s).2.1)
      else
        ((ClaudeStream.handleEvent tokens mult true
            (ParserEvent.text fe.1.failedContent)
            (retryLoop tokens mult attempts rs.keepAlive
              (List.range' 1 (effMaxRetries rs)) s).1).1,
          (if rs.keepAlive then [Frame.ping] else []) ++
            (retryLoop tokens mult attempts rs.keepAlive
              (List.range' 1 (effMaxRetries rs)) s).2.1 ++
            (ClaudeStream.handleEvent tokens mult true
              (ParserEvent.text fe.1.failedContent)
              (retryLoop tokens mult attempts rs.keepAlive
                (List.range' 1 (effMaxRetries rs)) s).1).2)) := by
    unfold afterEof
    rw [hfind]
    dsimp only
    rw [hen]
    rw [if_pos (show (true && true && true && true) = true from rfl)]
  constructor
  · intro l1 k l2 call hl hfail hk
    obtain ⟨h1, h2, h3⟩ :=
      retryLoop_success tokens mult attempts rs.keepAlive l1 k l2 s call hfail hk
    rw [hrw, hl, if_pos h1]
    dsimp only
    refine ⟨?_, ?_⟩
    · rw [toolStartCount_append, toolStartCount_pingF, h2]
    · intro i nm hmem
      rcases List.mem_append.1 hmem with hm1 | hm1
      · exact absurd hm1 (blockStart_not_mem_pingF rs.keepAlive i (BlockKind.toolUse nm))
      · exact h3 i nm hm1
  · intro hfail hne
    obtain ⟨h1, h2, h3⟩ :=
      retryLoop_fail tokens mult attempts rs.keepAlive
        (List.range' 1 (effMaxRetries rs)) s hfail
    rw [hrw, h2, if_neg Bool.false_ne_true]
    dsimp only
    rw [h1]
    refine ⟨?_, ?_⟩
    · rw [toolStartCount_append, toolStartCount_append, toolStartCount_pingF,
        toolStartCount_of_pings _ h3,
        (he_text_facts tokens mult true s fe.1.failedContent).2.2.1]
    · obtain ⟨i, hi⟩ := he_text_fire_delta tokens mult s fe.1.failedContent hne
      exact ⟨i, List.mem_append.2 (Or.inr hi)⟩

theorem c5_retry_behavior_witness :
    toolStartCount (afterEof (fun _ => 1) DecNum.one
      [(ParserEvent.toolCallFailed "raw" "", false)] (some ⟨true, some 1, false⟩)
      true true true (fun _ => some ⟨"get_weather", "42"⟩) StreamState.init).2 = 1 ∧
    toolStartCount (afterEof (fun _ => 1) DecNum.one
      [(ParserEvent.toolCallFailed "raw" "", false)] (some ⟨true, some 1, false⟩)
      true true true (fun _ => none) StreamState.init).2 = 0 := by
  constructor
  · exact ((c5_retry_behavior (fun _ => 1) DecNum.one
      [(ParserEvent.toolCallFailed "raw" "", false)] ⟨true, some 1, false⟩
      (fun _ => some ⟨"get_weather", "42"⟩) StreamState.init
      (ParserEvent.toolCallFailed "raw" "", false) rfl rfl).1
      [] 1 [] ⟨"get_weather", "42"⟩ rfl (fun j hj => absurd hj (List.not_mem_nil j)) rfl).1
  · exact ((c5_retry_behavior (fun _ => 1) DecNum.one
      [(ParserEvent.toolCallFailed "raw" "", false)] ⟨true, some 1, false⟩
      (fun _ => none) StreamState.init
      (ParserEvent.toolCallFailed "raw" "", false) rfl rfl).2
      (fun j _ => rfl) (by decide)).1

end Proxy

namespace Toolify

/-- Modelled from the spec: the `ToolifyParser` event variant
(`parser.ts` is not in the repository's files) — `Text`, `Thinking`,
`ToolCall{name, arguments}` (arguments as raw name/value pairs, values
unquoted when they are plain JSON strings) and
`ToolCallFailed{content, priorText}`. -/
inductive PEvent
  | ptext (s : String)
  | pthinking (s : String)
  | ptool (tname : String) (args : List (String × String))
  | ptoolFailed (raw : String) (prior : String)
deriving Repr, DecidableEq

/-- `<thinking>` as characters. -/
def thinkOpenL : List Char := "<thinking>".data

/-- `</thinking>` as characters. -/
def thinkCloseL : List Char := "</thinking>".data

/-- `INVOKE_OPEN` (`<invoke name="`). -/
def invokeOpenL : List Char := "<invoke name=\"".data

/-- `INVOKE_CLOSE` (`</invoke>`). -/
def invokeCloseL : List Char := "</invoke>".data

/-- `PARAM_OPEN` (`<parameter name="`). -/
def paramOpenL : List Char := "<parameter name=\"".data

/-- `PARAM_CLOSE` (`</parameter>`). -/
def paramCloseL : List Char := "</parameter>".data

/-- Boolean prefix test on character lists. -/
def isPre : List Char → List Char → Bool
  | [], _ => true
  | _ :: _, [] => false
  | a :: as, b :: bs => a = b && isPre as bs

/-- Modelled from the spec: the FSM's states (§4.5 core set, plus the
failure sink reached on a structure that can no longer parse). -/
inductive PMode
  | normal | thinkingM | toolWaitInvoke | toolName | toolBody
  | toolParamName | toolParamValue | toolDone | toolFail
deriving Repr, DecidableEq

/-- Modelled from the spec: parser state — mode, the rolling match
window `buf`, the coalescing text buffer `tpend`, the thinking buffer,
all text emitted so far, the raw tail consumed since the trigger, the
`priorText` snapshot, the `INVOKE_OPEN` match position `k`, the tool
name / parameter accumulators, and the events emitted so far. -/
structure PState where
  mode : PMode
  buf : List Char
  tpend : List Char
  thinkBuf : List Char
  allText : List Char
  raw : List Char
  prior : List Char
  k : ℕ
  tname : List Char
  quoteSeen : Bool
  pname : List Char
  pval : List Char
  params : List (String × String)
  events : List PEvent
deriving Repr, DecidableEq

/-- Append refuted characters to the coalescing text buffer. -/
def pushText (st : PState) (l : List Char) : PState :=
  if l = [] then st
  else { st with tpend := st.tpend ++ l, allText := st.allText ++ l }

/-- Flush the coalescing text buffer into one `Text` event. -/
def flushT (st : PState) : PState :=
  if st.tpend = [] then st
  else { st with events := st.events ++ [PEvent.ptext ⟨st.tpend⟩], tpend := [] }

/-- Push a non-text event, flushing buffered text first (events are
delivered in completion order; `Text` may be coalesced). -/
def pushEv (st : PState) (e : PEvent) : PState :=
  let st1 := flushT st
  { st1 with events := st1.events ++ [e] }

/-- Outcome of rescanning the `NORMAL`-mode window. -/
inductive NRes
  | hold (buf : List Char)
  | toThinking
  | toTool
deriving Repr, DecidableEq

/-- Is the window a live prefix of the configured trigger? -/
def trigPre (trig : Option (List Char)) (l : List Char) : Bool :=
  match trig with
  | some t => isPre l t
  | none => false

/-- Modelled from the spec: rescan the `NORMAL` window after one more
character — a full `TC_START` match enters tool territory (the buffered
trigger text is discarded), a full `<thinking>` match enters `THINKING`,
a live prefix of either is held back, and a refuted head character is
released as text before rescanning the rest of the window. -/
def resolveNormal (trig : Option (List Char)) : List Char → List Char × NRes
  | [] => ([], NRes.hold [])
  | c :: rest =>
    if trig = some (c :: rest) then ([], NRes.toTool)
    else if c :: rest = thinkOpenL then ([], NRes.toThinking)
    else if (trigPre trig (c :: rest) || isPre (c :: rest) thinkOpenL) = true then
      ([], NRes.hold (c :: rest))
    else
      let r := resolveNormal trig rest
      (c :: r.1, r.2)

/-- Modelled from the spec: rescan a window kept while looking for one
closing marker; refuted characters become content. Returns the released
content, whether the marker completed, and the remaining window. -/
def resolveClose (marker : List Char) : List Char → List Char × Bool × List Char
  | [] => ([], false, [])
  | c :: rest =>
    if c :: rest = marker then ([], true, [])
    else if isPre (c :: rest) marker then ([], false, c :: rest)
    else
      let r := resolveClose marker rest
      (c :: r.1, r.2.1, r.2.2)

/-- Outcome of rescanning the `TOOL_BODY` window. -/
inductive BRes
  | hold (buf : List Char)
  | toParam
  | toClose
deriving Repr, DecidableEq

/-- Modelled from the spec: `TOOL_BODY` scans for `<parameter name="`
repeatedly and for `</invoke>`; refuted characters are structural noise
between parameters and are dropped (they are still in `raw`). -/
def resolveBody : List Char → BRes
  | [] => BRes.hold []
  | c :: rest =>
    if c :: rest = paramOpenL then BRes.toParam
    else if c :: rest = invokeCloseL then BRes.toClose
    else if (isPre (c :: rest) paramOpenL || isPre (c :: rest) invokeCloseL) = true then
      BRes.hold (c :: rest)
    else resolveBody rest

/-- Parameter values are attempted as JSON first: a plain quoted string
becomes its inner text, anything else stays verbatim. -/
def unquoteVal (s : String) : String :=
  if wrappedIn dq s then sliceInner s else s

/-- Modelled from the spec: `feedChar` — one character through the FSM. -/
def feedChar (trig : Option (List Char)) (st : PState) (c : Char) : PState :=
  match st.mode with
  | PMode.normal =>
    let r := resolveNormal trig (st.buf ++ [c])
    let st1 := pushText st r.1
    match r.2 with
    | NRes.hold b => { st1 with buf := b }
    | NRes.toThinking => { st1 with mode := PMode.thinkingM, buf := [], thinkBuf := [] }
    | NRes.toTool =>
      { st1 with
        mode := PMode.toolWaitInvoke
        buf := []
        raw := (match trig with | some t => t | none => [])
        prior := st1.allText
        k := 0 }
  | PMode.thinkingM =>
    let r := resolveClose thinkCloseL (st.buf ++ [c])
    let st1 := { st with thinkBuf := st.thinkBuf ++ r.1 }
    if r.2.1 then
      { pushEv st1 (PEvent.pthinking ⟨st1.thinkBuf⟩) with
        mode := PMode.normal, buf := [], thinkBuf := [] }
    else { st1 with buf := r.2.2 }
  | PMode.toolWaitInvoke =>
    let st1 := { st with raw := st.raw ++ [c] }
    if st.k = 0 && isJsWs c then st1
    else if invokeOpenL.get? st.k = some c then
      if st.k + 1 = invokeOpenL.length then
        { st1 with mode := PMode.toolName, k := 0, tname := [], quoteSeen := false }
      else { st1 with k := st.k + 1 }
    else { st1 with mode := PMode.toolFail }
  | PMode.toolName =>
    let st1 := { st with raw := st.raw ++ [c] }
    if st.quoteSeen then
      if c = '>' then { st1 with mode := PMode.toolBody, buf := [], params := [] }
      else { st1 with mode := PMode.toolFail }
    else if c = dq then { st1 with quoteSeen := true }
    else { st1 with tname := st.tname ++ [c] }
  | PMode.toolBody =>
    let st1 := { st with raw := st.raw ++ [c] }
    match resolveBody (st.buf ++ [c]) with
    | BRes.hold b => { st1 with buf := b }
    | BRes.toParam =>
      { st1 with mode := PMode.toolParamName, buf := [], pname := [], quoteSeen := false }
    | BRes.toClose =>
      { pushEv st1 (PEvent.ptool ⟨st1.tname⟩ st1.params) with
        mode := PMode.toolDone, buf := [] }
  | PMode.toolParamName =>
    let st1 := { st with raw := st.raw ++ [c] }
    if st.quoteSeen then
      if c = '>' then { st1 with mode := PMode.toolParamValue, pval := [], buf := [] }
      else { st1 with mode := PMode.toolFail }
    else if c = dq then { st1 with quoteSeen := true }
    else { st1 with pname := st.pname ++ [c] }
  | PMode.toolParamValue =>
    let st1 := { st with raw := st.raw ++ [c] }
    let r := resolveClose paramCloseL (st.buf ++ [c])
    let st2 := { st1 with pval := st1.pval ++ r.1 }
    if r.2.1 then
      { st2 with
        mode := PMode.toolBody
        buf := []
        params := st2.params ++ [(⟨st2.pname⟩, unquoteVal ⟨st2.pval⟩)] }
    else { st2 with buf := r.2.2 }
  | PMode.toolDone => st
  | PMode.toolFail => { st with raw := st.raw ++ [c] }

/-- Modelled from the spec: `finish()` — EOF. A pending `NORMAL` window
is refuted and released as text; an unterminated thinking block flushes
its content; an unfinished tool region (missing `</invoke>` or any
earlier structural failure) produces `ToolCallFailed{raw, priorText}`;
after `TOOL_DONE` nothing more is emitted. Buffered text is flushed. -/
def finishP (st : PState) : PState :=
  match st.mode with
  | PMode.normal => flushT { pushText st st.buf with buf := [] }
  | PMode.thinkingM =>
    { pushEv st (PEvent.pthinking ⟨st.thinkBuf ++ st.buf⟩) with
      mode := PMode.normal, buf := [], thinkBuf := [] }
  | PMode.toolDone => flushT st
  | _ =>
    { pushEv st (PEvent.ptoolFailed ⟨st.raw⟩ ⟨st.prior⟩) with
      mode := PMode.normal }

/-- The fresh parser. -/
def initP : PState :=
  ⟨PMode.normal, [], [], [], [], [], [], 0, [], false, [], [], [], []⟩

/-- Feed a character list left to right. -/
def feedList (trig : Option (List Char)) (st : PState) : List Char → PState
  | [] => st
  | c :: cs => feedList trig (feedChar trig st c) cs

/-- Feed a whole upstream transcript and `finish()`; the events in
order (`consumeEvents`). -/
def runToolify (trig : Option String) (input : String) : List PEvent :=
  (finishP (feedList (trig.map String.data) initP input.data)).events

/-- Concatenation of the content of all emitted `Text` events. -/
def textConcat : List PEvent → String
  | [] => ""
  | PEvent.ptext s :: rest => s ++ textConcat rest
  | _ :: rest => textConcat rest

end Toolify

namespace Toolify

/-- The parser model reproduces the repository's first unit test
(`ToolifyParser emits text and tool_call events`): the text event
content carries the pre-trigger text, and the tool call parses the
name and both parameters with their JSON string values. -/
theorem toolify_unit_test_tool :
    runToolify (some "<<CALL_aa11>>")
      "Thoughts...<<CALL_aa11>>\n<invoke name=\"get_weather\">\n<parameter name=\"city\">\"New York\"</parameter>\n<parameter name=\"unit\">\"c\"</parameter>\n</invoke>\n"
      = [PEvent.ptext "Thoughts...",
         PEvent.ptool "get_weather" [("city", "New York"), ("unit", "c")]] := by
  set_option maxRecDepth 8000 in decide

/-- The parser model reproduces the repository's second unit test
(`ToolifyParser parses thinking blocks when no triggerSignal`). -/
theorem toolify_unit_test_thinking :
    runToolify none "Intro text<thinking> internal chain-of-thought </thinking>Outro"
      = [PEvent.ptext "Intro text",
         PEvent.pthinking " internal chain-of-thought ",
         PEvent.ptext "Outro"] := by
  set_option maxRecDepth 8000 in decide

/-- First occurrence of `pat` in a character list: the text before it
and the text after it. -/
def findSub (pat : List Char) : List Char → Option (List Char × List Char)
  | [] => if pat = [] then some ([], []) else none
  | c :: rest =>
    if isPre pat (c :: rest) then some ([], (c :: rest).drop pat.length)
    else
      match findSub pat rest with
      | some (b, a) => some (c :: b, a)
      | none => none

/-- The C1 claim's words as a function: the input text with exactly
three kinds of spans removed — each `<thinking>…</thinking>` span, each
occurrence of the trigger `TC_START`, and everything from a matched
`<invoke>` (one following a trigger occurrence, after whitespace)
through its closing `</invoke>`; spans that never close are not spans
and their text stays. -/
def claimStrip (trig : Option (List Char)) : ℕ → List Char → List Char
  | 0, l => l
  | fuel + 1, l =>
    match l with
    | [] => []
    | c :: rest =>
      if isPre thinkOpenL (c :: rest) = true then
        match findSub thinkCloseL ((c :: rest).drop thinkOpenL.length) with
        | some (_, after) => claimStrip trig fuel after
        | none => c :: rest
      else if (match trig with
          | some t => isPre t (c :: rest)
          | none => false) = true then
        let after := (c :: rest).drop (match trig with | some t => t.length | none => 0)
        let afterWs := after.dropWhile isJsWs
        if isPre invokeOpenL afterWs = true then
          match findSub invokeCloseL afterWs with
          | some (_, a2) => claimStrip trig fuel a2
          | none => claimStrip trig fuel after
        else claimStrip trig fuel after
      else c :: claimStrip trig fuel rest

/-- `claimStrip` on strings, with enough fuel. -/
def claimStripStr (trig : Option String) (s : String) : String :=
  ⟨claimStrip (trig.map String.data) (s.data.length + 1) s.data⟩

end Toolify

namespace Toolify

theorem thinkOpenL_eq : thinkOpenL = ['<','t','h','i','n','k','i','n','g','>'] := rfl

theorem thinkCloseL_eq : thinkCloseL = ['<','/','t','h','i','n','k','i','n','g','>'] := rfl

theorem invokeOpenL_eq :
    invokeOpenL = ['<','i','n','v','o','k','e',' ','n','a','m','e','=',dq] := rfl

theorem invokeCloseL_eq : invokeCloseL = ['<','/','i','n','v','o','k','e','>'] := rfl

theorem paramOpenL_eq :
    paramOpenL = ['<','p','a','r','a','m','e','t','e','r',' ','n','a','m','e','=',dq] := rfl

theorem paramCloseL_eq :
    paramCloseL = ['<','/','p','a','r','a','m','e','t','e','r','>'] := rfl

theorem ne_of_len {a b : List Char} (h : a.length ≠ b.length) : a ≠ b :=
  fun e => h (by rw [e])

theorem isPre_append_left (x p q : List Char) : isPre (x ++ p) (x ++ q) = isPre p q := by
  induction x with
  | nil => rfl
  | cons a xs ih => simp [isPre, ih]

theorem isPre_self_append (p r : List Char) : isPre p (p ++ r) = true := by
  induction p with
  | nil => rfl
  | cons a xs ih => simp [isPre, ih]

theorem isPre_single_false (c : Char) (b : Char) (bs : List Char) (h : c ≠ b) :
    isPre [c] (b :: bs) = false := by
  simp [isPre, h]

/-- Flushing the coalescing buffer as a pure event-list operation. -/
def flushE (E : List PEvent) (P : List Char) : List PEvent :=
  if P = [] then E else E ++ [PEvent.ptext ⟨P⟩]

theorem flushT_eq (st : PState) :
    flushT st = { st with events := flushE st.events st.tpend, tpend := [] } := by
  unfold flushT flushE
  split
  · next h => cases st; simp_all
  · rfl

theorem str_mk_data (s : String) : (⟨s.data⟩ : String) = s := by cases s; rfl

theorem str_append_data (a b : List Char) :
    ((⟨a⟩ : String) ++ (⟨b⟩ : String)) = (⟨a ++ b⟩ : String) := rfl

theorem str_append_empty (s : String) : s ++ "" = s := by
  cases s with
  | mk d => show (⟨d ++ []⟩ : String) = ⟨d⟩; rw [List.append_nil]

theorem str_empty_append (s : String) : "" ++ s = s := by
  cases s with
  | mk d => rfl

theorem textConcat_cons_text (s : String) (rest : List PEvent) :
    textConcat (PEvent.ptext s :: rest) = s ++ textConcat rest := rfl

theorem textConcat_cons_thinking (s : String) (rest : List PEvent) :
    textConcat (PEvent.pthinking s :: rest) = textConcat rest := rfl

theorem textConcat_cons_tool (n : String) (a : List (String × String)) (rest : List PEvent) :
    textConcat (PEvent.ptool n a :: rest) = textConcat rest := rfl

theorem textConcat_cons_failed (r p : String) (rest : List PEvent) :
    textConcat (PEvent.ptoolFailed r p :: rest) = textConcat rest := rfl

theorem textConcat_append (a b : List PEvent) :
    textConcat (a ++ b) = textConcat a ++ textConcat b := by
  induction a with
  | nil => rw [List.nil_append, textConcat, str_empty_append]
  | cons e rest ih =>
    cases e with
    | ptext s =>
      rw [List.cons_append, textConcat_cons_text, textConcat_cons_text, ih,
        String.append_assoc]
    | pthinking s => rw [List.cons_append, textConcat_cons_thinking, textConcat_cons_thinking, ih]
    | ptool n a2 => rw [List.cons_append, textConcat_cons_tool, textConcat_cons_tool, ih]
    | ptoolFailed r p => rw [List.cons_append, textConcat_cons_failed, textConcat_cons_failed, ih]

theorem textConcat_flushE (E : List PEvent) (P : List Char) :
    textConcat (flushE E P) = textConcat E ++ (⟨P⟩ : String) := by
  unfold flushE
  split
  · next h => rw [h]; exact (str_append_empty _).symm
  · rw [textConcat_append, textConcat, textConcat, str_append_empty]

theorem feedList_append (trig : Option (List Char)) (st : PState) (a b : List Char) :
    feedList trig st (a ++ b) = feedList trig (feedList trig st a) b := by
  induction a generalizing st with
  | nil => rfl
  | cons c cs ih => rw [List.cons_append]; exact ih (feedChar trig st c)

theorem resolveNormal_cons (trig : Option (List Char)) (c : Char) (rest : List Char) :
    resolveNormal trig (c :: rest) =
      if trig = some (c :: rest) then ([], NRes.toTool)
      else if c :: rest = thinkOpenL then ([], NRes.toThinking)
      else if (trigPre trig (c :: rest) || isPre (c :: rest) thinkOpenL) = true then
        ([], NRes.hold (c :: rest))
      else (c :: (resolveNormal trig rest).1, (resolveNormal trig rest).2) := rfl

theorem resolveClose_cons (marker : List Char) (c : Char) (rest : List Char) :
    resolveClose marker (c :: rest) =
      if c :: rest = marker then ([], true, [])
      else if isPre (c :: rest) marker then ([], false, c :: rest)
      else ((c :: (resolveClose marker rest).1),
        (resolveClose marker rest).2.1, (resolveClose marker rest).2.2) := rfl

theorem resolveBody_cons (c : Char) (rest : List Char) :
    resolveBody (c :: rest) =
      if c :: rest = paramOpenL then BRes.toParam
      else if c :: rest = invokeCloseL then BRes.toClose
      else if (isPre (c :: rest) paramOpenL || isPre (c :: rest) invokeCloseL) = true then
        BRes.hold (c :: rest)
      else resolveBody rest := rfl

/-- `NORMAL`-mode states reachable at segment boundaries: all text `A`,
buffered text `P`, events `E`, rolling window `b`. -/
def bstate (A P : List Char) (E : List PEvent) (b : List Char) : PState :=
  ⟨PMode.normal, b, P, [], A, [], [], 0, [], false, [], [], [], E⟩

/-- `THINKING`-mode states: thinking content `Tk`, window `b`. -/
def thstate (A P : List Char) (E : List PEvent) (Tk b : List Char) : PState :=
  ⟨PMode.thinkingM, b, P, Tk, A, [], [], 0, [], false, [], [], [], E⟩

/-- Tool-territory states (one constructor for every `TOOL_*` mode). -/
def tstate (m : PMode) (b P A R : List Char) (k : ℕ) (N : List Char) (q : Bool)
    (pn pv : List Char) (PS : List (String × String)) (E : List PEvent) : PState :=
  ⟨m, b, P, [], A, R, A, k, N, q, pn, pv, PS, E⟩

theorem initP_eq : initP = bstate [] [] [] [] := rfl

/-- Well-formed transcript segments for the amended C1 claim: plain
visible text and complete thinking spans. -/
inductive Seg
  | plain (s : String)
  | think (s : String)

/-- Render one segment back to upstream text. -/
def renderSeg : Seg → String
  | Seg.plain s => s
  | Seg.think s => "<thinking>" ++ s ++ "</thinking>"

/-- Render a segment list. -/
def renderSegs : List Seg → String
  | [] => ""
  | sg :: rest => renderSeg sg ++ renderSegs rest

/-- The text the claim predicts: the concatenated plain runs. -/
def plainConcat : List Seg → String
  | [] => ""
  | Seg.plain s :: rest => s ++ plainConcat rest
  | Seg.think _ :: rest => plainConcat rest

/-- Does `l` end with `m`? -/
def endsWith (m l : List Char) : Bool := isPre m.reverse l.reverse

/-- No prefix of `l` ends with `m`: the marker `m` occurs nowhere in
`l` (checked over every prefix length). -/
def noEndInB (m l : List Char) : Bool :=
  (List.range (l.length + 1)).all (fun n => !(endsWith m (l.take n)))

/-- No nonempty suffix of `l` is a prefix of `m`: feeding `l` leaves no
partially matched marker window behind. -/
def cleanTailB (m l : List Char) : Bool :=
  (List.range l.length).all (fun n => !(isPre (l.drop n) m))

/-- A segment is well formed for trigger `tr` when its text contains no
occurrence of the trigger or of the relevant thinking marker and does
not end in a partial prefix of one (so the scanner window is empty at
the segment boundary); `<` itself is allowed. -/
def segOk (tr : List Char) : Seg → Prop
  | Seg.plain s => noEndInB tr s.data = true ∧ noEndInB thinkOpenL s.data = true ∧
      cleanTailB tr s.data = true ∧ cleanTailB thinkOpenL s.data = true
  | Seg.think s => noEndInB thinkCloseL s.data = true ∧ cleanTailB thinkCloseL s.data = true

/-- Render the `<parameter …>` list of an invoke block. -/
def renderParams : List (String × String) → String
  | [] => ""
  | (n, v) :: rest =>
    "<parameter name=\"" ++ n ++ "\">" ++ v ++ "</parameter>" ++ renderParams rest

/-- A well-formed invoke remainder: optional whitespace, then
`<invoke name="` name `">`, the rendered parameters, and `</invoke>`. -/
def wfInvoke (ws nm : String) (ps : List (String × String)) : List Char :=
  ws.data ++ invokeOpenL ++ nm.data ++ [dq, '>'] ++ (renderParams ps).data ++ invokeCloseL

end Toolify

namespace Toolify

theorem pushText_nil (st : PState) : pushText st [] = st := by
  unfold pushText
  rw [if_pos rfl]

theorem feedList_cons (T : Option (List Char)) (st : PState) (c : Char) (cs : List Char) :
    feedList T st (c :: cs) = feedList T (feedChar T st c) cs := rfl

theorem resolveNormal_hold_of (T : Option (List Char)) (c : Char) (rest : List Char)
    (h1 : T ≠ some (c :: rest)) (h2 : c :: rest ≠ thinkOpenL)
    (h3 : (trigPre T (c :: rest) || isPre (c :: rest) thinkOpenL) = true) :
    resolveNormal T (c :: rest) = ([], NRes.hold (c :: rest)) := by
  rw [resolveNormal_cons, if_neg h1, if_neg h2, if_pos h3]

theorem resolveNormal_shift_of (T : Option (List Char)) (c : Char) (rest : List Char)
    (h1 : T ≠ some (c :: rest)) (h2 : c :: rest ≠ thinkOpenL)
    (h3 : (trigPre T (c :: rest) || isPre (c :: rest) thinkOpenL) = false) :
    resolveNormal T (c :: rest) =
      (c :: (resolveNormal T rest).1, (resolveNormal T rest).2) := by
  rw [resolveNormal_cons, if_neg h1, if_neg h2, if_neg (by rw [h3]; exact Bool.false_ne_true)]

theorem feedChar_normal_hold_nil (T : Option (List Char)) (A P : List Char)
    (E : List PEvent) (b : List Char) (c : Char) (b2 : List Char)
    (h : resolveNormal T (b ++ [c]) = ([], NRes.hold b2)) :
    feedChar T (bstate A P E b) c = bstate A P E b2 := by
  unfold feedChar bstate
  dsimp only
  rw [h]
  dsimp only
  rw [pushText_nil]

theorem feedChar_normal_emit (T : Option (List Char)) (A P : List Char)
    (E : List PEvent) (b : List Char) (c : Char) (em b2 : List Char)
    (h : resolveNormal T (b ++ [c]) = (em, NRes.hold b2)) (hem : em ≠ []) :
    feedChar T (bstate A P E b) c = bstate (A ++ em) (P ++ em) E b2 := by
  unfold feedChar bstate
  dsimp only
  rw [h]
  dsimp only
  unfold pushText
  rw [if_neg hem]

theorem feedChar_normal_toThinking (T : Option (List Char)) (A P : List Char)
    (E : List PEvent) (b : List Char) (c : Char)
    (h : resolveNormal T (b ++ [c]) = ([], NRes.toThinking)) :
    feedChar T (bstate A P E b) c = thstate A P E [] [] := by
  unfold feedChar bstate
  dsimp only
  rw [h]
  dsimp only
  rw [pushText_nil]
  rfl

theorem feedChar_normal_toTool (t : List Char) (A P : List Char)
    (E : List PEvent) (b : List Char) (c : Char)
    (h : resolveNormal (some t) (b ++ [c]) = ([], NRes.toTool)) :
    feedChar (some t) (bstate A P E b) c =
      tstate PMode.toolWaitInvoke [] P A t 0 [] false [] [] [] E := by
  unfold feedChar bstate
  dsimp only
  rw [h]
  dsimp only
  rw [pushText_nil]
  rfl

theorem feedChar_think_hold (T : Option (List Char)) (A P : List Char)
    (E : List PEvent) (Tk b : List Char) (c : Char) (cont b2 : List Char)
    (h : resolveClose thinkCloseL (b ++ [c]) = (cont, false, b2)) :
    feedChar T (thstate A P E Tk b) c = thstate A P E (Tk ++ cont) b2 := by
  unfold feedChar thstate
  dsimp only
  rw [h]
  dsimp only
  rw [if_neg Bool.false_ne_true]

theorem feedChar_think_close (T : Option (List Char)) (A P : List Char)
    (E : List PEvent) (Tk b : List Char) (c : Char) (cont b2 : List Char)
    (h : resolveClose thinkCloseL (b ++ [c]) = (cont, true, b2)) :
    feedChar T (thstate A P E Tk b) c =
      bstate A [] (flushE E P ++ [PEvent.pthinking ⟨Tk ++ cont⟩]) [] := by
  unfold feedChar thstate
  dsimp only
  rw [h]
  dsimp only
  rw [if_pos rfl]
  unfold pushEv
  rw [flushT_eq]
  dsimp only
  rfl

end Toolify

namespace Toolify

theorem resolveNormal_hold_of2 (T : Option (List Char)) (l : List Char) (hne : l ≠ [])
    (h1 : T ≠ some l) (h2 : l ≠ thinkOpenL)
    (h3 : (trigPre T l || isPre l thinkOpenL) = true) :
    resolveNormal T l = ([], NRes.hold l) := by
  cases l with
  | nil => exact absurd rfl hne
  | cons c rest => exact resolveNormal_hold_of T c rest h1 h2 h3

theorem resolveNormal_toThinking_of (T : Option (List Char)) (c : Char) (rest : List Char)
    (h1 : T ≠ some (c :: rest)) (h2 : c :: rest = thinkOpenL) :
    resolveNormal T (c :: rest) = ([], NRes.toThinking) := by
  rw [resolveNormal_cons, if_neg h1, if_pos h2]

theorem resolveNormal_toTool_of (t : List Char) (c : Char) (rest : List Char)
    (h : c :: rest = t) :
    resolveNormal (some t) (c :: rest) = ([], NRes.toTool) := by
  rw [resolveNormal_cons, if_pos (by rw [h])]

theorem resolveClose_thinkMiss (c : Char) (h : c ≠ '<') :
    resolveClose thinkCloseL [c] = ([c], false, []) := by
  rw [resolveClose_cons]
  rw [if_neg (by simp [thinkCloseL_eq])]
  rw [if_neg (by
    rw [thinkCloseL_eq, isPre_single_false c '<' _ h]
    exact Bool.false_ne_true)]
  rfl

theorem feedChar_think_hold_nil (T : Option (List Char)) (A P : List Char)
    (E : List PEvent) (Tk b : List Char) (c : Char) (b2 : List Char)
    (h : resolveClose thinkCloseL (b ++ [c]) = ([], false, b2)) :
    feedChar T (thstate A P E Tk b) c = thstate A P E Tk b2 := by
  rw [feedChar_think_hold T A P E Tk b c [] b2 h, List.append_nil]

theorem feedChar_think_close_nil (T : Option (List Char)) (A P : List Char)
    (E : List PEvent) (Tk b : List Char) (c : Char)
    (h : resolveClose thinkCloseL (b ++ [c]) = ([], true, [])) :
    feedChar T (thstate A P E Tk b) c =
      bstate A [] (flushE E P ++ [PEvent.pthinking ⟨Tk⟩]) [] := by
  rw [feedChar_think_close T A P E Tk b c [] [] h, List.append_nil]

theorem isPre_iff (a b : List Char) : isPre a b = true ↔ ∃ r, a ++ r = b := by
  induction a generalizing b with
  | nil => simp [isPre]
  | cons x xs ih =>
    cases b with
    | nil => simp [isPre]
    | cons y ys =>
      rw [show isPre (x :: xs) (y :: ys) = (decide (x = y) && isPre xs ys) from rfl]
      simp only [Bool.and_eq_true, decide_eq_true_eq, ih]
      constructor
      · rintro ⟨rfl, r, rfl⟩
        exact ⟨r, rfl⟩
      · rintro ⟨r, hr⟩
        rw [List.cons_append] at hr
        injection hr with h1 h2
        exact ⟨h1, r, h2⟩

theorem endsWith_iff (m l : List Char) : endsWith m l = true ↔ ∃ r, r ++ m = l := by
  unfold endsWith
  rw [isPre_iff]
  constructor
  · rintro ⟨r, hr⟩
    refine ⟨r.reverse, ?_⟩
    have := congrArg List.reverse hr
    simpa using this
  · rintro ⟨r, hr⟩
    refine ⟨r.reverse, ?_⟩
    have := congrArg List.reverse hr
    simpa using this

theorem noEndI (m l : List Char) (h : noEndInB m l = true) :
    ∀ p q : List Char, p ++ q = l → ∀ r, r ++ m = p → False := by
  intro p q hpq r hr
  have hmem : p.length ∈ List.range (l.length + 1) := by
    rw [List.mem_range]
    have := congrArg List.length hpq
    simp [List.length_append] at this
    omega
  have hall := (List.all_eq_true.mp h) p.length hmem
  have htake : l.take p.length = p := by
    rw [← hpq]
    exact List.take_left p q
  rw [htake] at hall
  have hend : endsWith m p = true := (endsWith_iff m p).mpr ⟨r, hr⟩
  rw [hend] at hall
  exact absurd hall (by decide)

theorem cleanT (m l : List Char) (h : cleanTailB m l = true) :
    ∀ r s : List Char, r ++ s = l → s ≠ [] → isPre s m = false := by
  intro r s hrs hne
  have hlen := congrArg List.length hrs
  simp [List.length_append] at hlen
  have hmem : r.length ∈ List.range l.length := by
    rw [List.mem_range]
    cases s with
    | nil => exact absurd rfl hne
    | cons a as => simp at hlen; omega
  have hall := (List.all_eq_true.mp h) r.length hmem
  have hdrop : l.drop r.length = s := by
    rw [← hrs]
    exact List.drop_left r s
  rw [hdrop] at hall
  cases hps : isPre s m with
  | false => rfl
  | true =>
    rw [hps] at hall
    exact absurd hall (by decide)

theorem resolveNormal_gen (tdata : List Char) (w : List Char)
    (hm : ∀ r s : List Char, r ++ s = w → s ≠ tdata)
    (ho : ∀ r s : List Char, r ++ s = w → s ≠ thinkOpenL) :
    ∃ em b2 : List Char, resolveNormal (some tdata) w = (em, NRes.hold b2) ∧
      em ++ b2 = w ∧
      (b2 = [] ∨ (trigPre (some tdata) b2 || isPre b2 thinkOpenL) = true) := by
  induction w with
  | nil => exact ⟨[], [], rfl, rfl, Or.inl rfl⟩
  | cons c rest ih =>
    rw [resolveNormal_cons]
    rw [if_neg (by
      intro he
      exact hm [] (c :: rest) rfl (Option.some.inj he).symm)]
    rw [if_neg (ho [] (c :: rest) rfl)]
    by_cases hlive : (trigPre (some tdata) (c :: rest) || isPre (c :: rest) thinkOpenL) = true
    · rw [if_pos hlive]
      exact ⟨[], c :: rest, rfl, rfl, Or.inr hlive⟩
    · rw [if_neg hlive]
      obtain ⟨em, b2, he, hsum, hlv⟩ := ih
        (fun r s hr => hm (c :: r) s (by rw [← hr]; rfl))
        (fun r s hr => ho (c :: r) s (by rw [← hr]; rfl))
      rw [he]
      exact ⟨c :: em, b2, rfl, by rw [List.cons_append, hsum], hlv⟩

theorem feedChar_normal_any (tdata : List Char) (A P : List Char) (E : List PEvent)
    (b : List Char) (c : Char) (em b2 : List Char)
    (h : resolveNormal (some tdata) (b ++ [c]) = (em, NRes.hold b2)) :
    feedChar (some tdata) (bstate A P E b) c = bstate (A ++ em) (P ++ em) E b2 := by
  by_cases hem : em = []
  · subst hem
    rw [feedChar_normal_hold_nil _ A P E b c b2 h, List.append_nil, List.append_nil]
  · exact feedChar_normal_emit _ A P E b c em b2 h hem

theorem feed_plain_aux (tdata l : List Char)
    (hm : ∀ p q : List Char, p ++ q = l → ∀ r, r ++ tdata = p → False)
    (ho : ∀ p q : List Char, p ++ q = l → ∀ r, r ++ thinkOpenL = p → False) :
    ∀ rest pre em b : List Char, pre ++ rest = l → em ++ b = pre →
      (b = [] ∨ (trigPre (some tdata) b || isPre b thinkOpenL) = true) →
      ∀ A P : List Char, ∀ E : List PEvent,
        ∃ em2 b2 : List Char, em2 ++ b2 = l ∧
          (b2 = [] ∨ (trigPre (some tdata) b2 || isPre b2 thinkOpenL) = true) ∧
          feedList (some tdata) (bstate (A ++ em) (P ++ em) E b) rest =
            bstate (A ++ em2) (P ++ em2) E b2 := by
  intro rest
  induction rest with
  | nil =>
    intro pre em b hpre hem hbl A P E
    refine ⟨em, b, ?_, hbl, rfl⟩
    rw [hem, ← hpre, List.append_nil]
  | cons c rest2 ih =>
    intro pre em b hpre hem _ A P E
    have hm2 : ∀ r s : List Char, r ++ s = b ++ [c] → s ≠ tdata := by
      intro r s hrs hs
      rw [hs] at hrs
      refine hm (em ++ (r ++ tdata)) rest2 ?_ (em ++ r) (by rw [List.append_assoc])
      rw [hrs, ← List.append_assoc, hem]
      rw [List.append_assoc, ← hpre]
      rfl
    have ho2 : ∀ r s : List Char, r ++ s = b ++ [c] → s ≠ thinkOpenL := by
      intro r s hrs hs
      rw [hs] at hrs
      refine ho (em ++ (r ++ thinkOpenL)) rest2 ?_ (em ++ r) (by rw [List.append_assoc])
      rw [hrs, ← List.append_assoc, hem]
      rw [List.append_assoc, ← hpre]
      rfl
    obtain ⟨emw, bw, hres, hsum, hlv⟩ := resolveNormal_gen tdata (b ++ [c]) hm2 ho2
    rw [feedList_cons, feedChar_normal_any tdata (A ++ em) (P ++ em) E b c emw bw hres]
    rw [List.append_assoc A em emw, List.append_assoc P em emw]
    refine ih (pre ++ [c]) (em ++ emw) bw ?_ ?_ hlv A P E
    · rw [List.append_assoc, ← hpre]
      rfl
    · rw [List.append_assoc, hsum, ← List.append_assoc, hem]

theorem feed_plain_gen (tdata l : List Char)
    (hm : noEndInB tdata l = true) (ho : noEndInB thinkOpenL l = true)
    (hcm : cleanTailB tdata l = true) (hco : cleanTailB thinkOpenL l = true) :
    ∀ A P : List Char, ∀ E : List PEvent,
      feedList (some tdata) (bstate A P E []) l = bstate (A ++ l) (P ++ l) E [] := by
  intro A P E
  obtain ⟨em2, b2, hsum, hlv, hfeed⟩ := feed_plain_aux tdata l (noEndI _ _ hm) (noEndI _ _ ho)
    l [] [] [] rfl rfl (Or.inl rfl) A P E
  rw [List.append_nil, List.append_nil] at hfeed
  have hb2 : b2 = [] := by
    rcases hlv with h | h
    · exact h
    · by_contra hne
      simp only [Bool.or_eq_true] at h
      rcases h with h1 | h1
      · rw [show trigPre (some tdata) b2 = isPre b2 tdata from rfl] at h1
        rw [cleanT tdata l hcm em2 b2 hsum hne] at h1
        exact Bool.false_ne_true h1
      · rw [cleanT thinkOpenL l hco em2 b2 hsum hne] at h1
        exact Bool.false_ne_true h1
  subst hb2
  rw [List.append_nil] at hsum
  subst hsum
  exact hfeed

theorem feed_thinkOpen (t : List Char) (A P : List Char) (E : List PEvent) :
    feedList (some ('<' :: '<' :: t)) (bstate A P E []) thinkOpenL = thstate A P E [] [] := by
  rw [thinkOpenL_eq]
  rw [feedList_cons,
    feedChar_normal_hold_nil _ A P E [] '<' ['<']
      (resolveNormal_hold_of2 _ ['<'] (by simp) (by simp) (by decide)
        (by rw [show isPre ['<'] thinkOpenL = true from by decide]; exact Bool.or_true _))]
  rw [feedList_cons,
    feedChar_normal_hold_nil _ A P E ['<'] 't' ['<','t']
      (resolveNormal_hold_of2 _ ['<','t'] (by simp) (by simp) (by decide)
        (by rw [show isPre ['<','t'] thinkOpenL = true from by decide]; exact Bool.or_true _))]
  rw [feedList_cons,
    feedChar_normal_hold_nil _ A P E ['<','t'] 'h' ['<','t','h']
      (resolveNormal_hold_of2 _ ['<','t','h'] (by simp) (by simp) (by decide)
        (by rw [show isPre ['<','t','h'] thinkOpenL = true from by decide]; exact Bool.or_true _))]
  rw [feedList_cons,
    feedChar_normal_hold_nil _ A P E ['<','t','h'] 'i' ['<','t','h','i']
      (resolveNormal_hold_of2 _ ['<','t','h','i'] (by simp) (by simp) (by decide)
        (by rw [show isPre ['<','t','h','i'] thinkOpenL = true from by decide]; exact Bool.or_true _))]
  rw [feedList_cons,
    feedChar_normal_hold_nil _ A P E ['<','t','h','i'] 'n' ['<','t','h','i','n']
      (resolveNormal_hold_of2 _ ['<','t','h','i','n'] (by simp) (by simp) (by decide)
        (by rw [show isPre ['<','t','h','i','n'] thinkOpenL = true from by decide]; exact Bool.or_true _))]
  rw [feedList_cons,
    feedChar_normal_hold_nil _ A P E ['<','t','h','i','n'] 'k' ['<','t','h','i','n','k']
      (resolveNormal_hold_of2 _ ['<','t','h','i','n','k'] (by simp) (by simp) (by decide)
        (by rw [show isPre ['<','t','h','i','n','k'] thinkOpenL = true from by decide]; exact Bool.or_true _))]
  rw [feedList_cons,
    feedChar_normal_hold_nil _ A P E ['<','t','h','i','n','k'] 'i' ['<','t','h','i','n','k','i']
      (resolveNormal_hold_of2 _ ['<','t','h','i','n','k','i'] (by simp) (by simp) (by decide)
        (by rw [show isPre ['<','t','h','i','n','k','i'] thinkOpenL = true from by decide]; exact Bool.or_true _))]
  rw [feedList_cons,
    feedChar_normal_hold_nil _ A P E ['<','t','h','i','n','k','i'] 'n' ['<','t','h','i','n','k','i','n']
      (resolveNormal_hold_of2 _ ['<','t','h','i','n','k','i','n'] (by simp) (by simp) (by decide)
        (by rw [show isPre ['<','t','h','i','n','k','i','n'] thinkOpenL = true from by decide]; exact Bool.or_true _))]
  rw [feedList_cons,
    feedChar_normal_hold_nil _ A P E ['<','t','h','i','n','k','i','n'] 'g' ['<','t','h','i','n','k','i','n','g']
      (resolveNormal_hold_of2 _ ['<','t','h','i','n','k','i','n','g'] (by simp) (by simp) (by decide)
        (by rw [show isPre ['<','t','h','i','n','k','i','n','g'] thinkOpenL = true from by decide]; exact Bool.or_true _))]
  rw [feedList_cons,
    feedChar_normal_toThinking _ A P E ['<','t','h','i','n','k','i','n','g'] '>'
      (resolveNormal_toThinking_of _ '<' ['t','h','i','n','k','i','n','g','>'] (by simp) (by decide))]
  rfl

theorem resolveClose_gen (m w : List Char)
    (hm : ∀ r s : List Char, r ++ s = w → s ≠ m) :
    ∃ cont b2 : List Char, resolveClose m w = (cont, false, b2) ∧ cont ++ b2 = w ∧
      (b2 = [] ∨ isPre b2 m = true) := by
  induction w with
  | nil => exact ⟨[], [], rfl, rfl, Or.inl rfl⟩
  | cons c rest ih =>
    rw [resolveClose_cons]
    rw [if_neg (hm [] (c :: rest) rfl)]
    by_cases hlive : isPre (c :: rest) m = true
    · rw [if_pos hlive]
      exact ⟨[], c :: rest, rfl, rfl, Or.inr hlive⟩
    · rw [if_neg hlive]
      obtain ⟨cont, b2, he, hsum, hlv⟩ := ih
        (fun r s hr => hm (c :: r) s (by rw [← hr]; rfl))
      rw [he]
      exact ⟨c :: cont, b2, rfl, by rw [List.cons_append, hsum], hlv⟩

theorem feed_think_aux (l : List Char)
    (hm : ∀ p q : List Char, p ++ q = l → ∀ r, r ++ thinkCloseL = p → False) :
    ∀ (T : Option (List Char)) rest pre em b, pre ++ rest = l → em ++ b = pre →
      (b = [] ∨ isPre b thinkCloseL = true) →
      ∀ A P : List Char, ∀ E : List PEvent, ∀ Tk : List Char,
        ∃ em2 b2 : List Char, em2 ++ b2 = l ∧ (b2 = [] ∨ isPre b2 thinkCloseL = true) ∧
          feedList T (thstate A P E (Tk ++ em) b) rest =
            thstate A P E (Tk ++ em2) b2 := by
  intro T rest
  induction rest with
  | nil =>
    intro pre em b hpre hem hbl A P E Tk
    refine ⟨em, b, ?_, hbl, rfl⟩
    rw [hem, ← hpre, List.append_nil]
  | cons c rest2 ih =>
    intro pre em b hpre hem _ A P E Tk
    have hm2 : ∀ r s : List Char, r ++ s = b ++ [c] → s ≠ thinkCloseL := by
      intro r s hrs hs
      rw [hs] at hrs
      refine hm (em ++ (r ++ thinkCloseL)) rest2 ?_ (em ++ r) (by rw [List.append_assoc])
      rw [hrs, ← List.append_assoc, hem]
      rw [List.append_assoc, ← hpre]
      rfl
    obtain ⟨cont, bw, hres, hsum, hlv⟩ := resolveClose_gen thinkCloseL (b ++ [c]) hm2
    rw [feedList_cons, feedChar_think_hold T A P E (Tk ++ em) b c cont bw hres]
    rw [List.append_assoc Tk em cont]
    refine ih (pre ++ [c]) (em ++ cont) bw ?_ ?_ hlv A P E Tk
    · rw [List.append_assoc, ← hpre]
      rfl
    · rw [List.append_assoc, hsum, ← List.append_assoc, hem]

theorem feed_think_gen (T : Option (List Char)) (l : List Char)
    (hm : noEndInB thinkCloseL l = true) (hc : cleanTailB thinkCloseL l = true) :
    ∀ A P : List Char, ∀ E : List PEvent, ∀ Tk : List Char,
      feedList T (thstate A P E Tk []) l = thstate A P E (Tk ++ l) [] := by
  intro A P E Tk
  obtain ⟨em2, b2, hsum, hlv, hfeed⟩ := feed_think_aux l (noEndI _ _ hm) T
    l [] [] [] rfl rfl (Or.inl rfl) A P E Tk
  rw [List.append_nil] at hfeed
  have hb2 : b2 = [] := by
    rcases hlv with h | h
    · exact h
    · by_contra hne
      rw [cleanT thinkCloseL l hc em2 b2 hsum hne] at h
      exact Bool.false_ne_true h
  subst hb2
  rw [List.append_nil] at hsum
  subst hsum
  exact hfeed

theorem feed_thinkClose (T : Option (List Char)) (A P : List Char)
    (E : List PEvent) (Tk : List Char) :
    feedList T (thstate A P E Tk []) thinkCloseL =
      bstate A [] (flushE E P ++ [PEvent.pthinking ⟨Tk⟩]) [] := by
  rw [thinkCloseL_eq]
  rw [feedList_cons, feedChar_think_hold_nil _ A P E Tk [] '<' ['<'] (by decide)]
  rw [feedList_cons, feedChar_think_hold_nil _ A P E Tk ['<'] '/' ['<','/'] (by decide)]
  rw [feedList_cons, feedChar_think_hold_nil _ A P E Tk ['<','/'] 't' ['<','/','t'] (by decide)]
  rw [feedList_cons, feedChar_think_hold_nil _ A P E Tk ['<','/','t'] 'h' ['<','/','t','h'] (by decide)]
  rw [feedList_cons, feedChar_think_hold_nil _ A P E Tk ['<','/','t','h'] 'i' ['<','/','t','h','i'] (by decide)]
  rw [feedList_cons, feedChar_think_hold_nil _ A P E Tk ['<','/','t','h','i'] 'n' ['<','/','t','h','i','n'] (by decide)]
  rw [feedList_cons, feedChar_think_hold_nil _ A P E Tk ['<','/','t','h','i','n'] 'k' ['<','/','t','h','i','n','k'] (by decide)]
  rw [feedList_cons, feedChar_think_hold_nil _ A P E Tk ['<','/','t','h','i','n','k'] 'i' ['<','/','t','h','i','n','k','i'] (by decide)]
  rw [feedList_cons, feedChar_think_hold_nil _ A P E Tk ['<','/','t','h','i','n','k','i'] 'n' ['<','/','t','h','i','n','k','i','n'] (by decide)]
  rw [feedList_cons, feedChar_think_hold_nil _ A P E Tk ['<','/','t','h','i','n','k','i','n'] 'g' ['<','/','t','h','i','n','k','i','n','g'] (by decide)]
  rw [feedList_cons, feedChar_think_close_nil _ A P E Tk ['<','/','t','h','i','n','k','i','n','g'] '>' (by decide)]
  rfl

end Toolify

namespace Toolify

theorem resolveNormal_toTool_of2 (t l : List Char) (hne : l ≠ []) (h : l = t) :
    resolveNormal (some t) l = ([], NRes.toTool) := by
  cases l with
  | nil => exact absurd rfl hne
  | cons c rest => exact resolveNormal_toTool_of t c rest h

theorem feed_trig_mid (mid : List Char) :
    ∀ rest pre : List Char, mid = pre ++ rest →
    ∀ A P : List Char, ∀ E : List PEvent,
      feedList (some (['<','<','C','A','L','L','_'] ++ mid ++ ['>','>']))
        (bstate A P E (['<','<','C','A','L','L','_'] ++ pre)) rest =
      bstate A P E (['<','<','C','A','L','L','_'] ++ mid) := by
  intro rest
  induction rest with
  | nil =>
    intro pre h A P E
    rw [h, List.append_nil]
    rfl
  | cons c cs ih =>
    intro pre h A P E
    have hstep : feedChar (some (['<','<','C','A','L','L','_'] ++ mid ++ ['>','>']))
        (bstate A P E (['<','<','C','A','L','L','_'] ++ pre)) c =
        bstate A P E ((['<','<','C','A','L','L','_'] ++ pre) ++ [c]) := by
      refine feedChar_normal_hold_nil _ A P E _ c _
        (resolveNormal_hold_of2 _ _ (by simp) ?_ ?_ ?_)
      · intro heq
        have hlen := congrArg List.length (Option.some.inj heq)
        simp [h, List.length_append] at hlen
      · simp [thinkOpenL_eq]
      · have hp : trigPre (some (['<','<','C','A','L','L','_'] ++ mid ++ ['>','>']))
            ((['<','<','C','A','L','L','_'] ++ pre) ++ [c]) = true := by
          show isPre ((['<','<','C','A','L','L','_'] ++ pre) ++ [c])
            (['<','<','C','A','L','L','_'] ++ mid ++ ['>','>']) = true
          rw [h, List.append_assoc (['<','<','C','A','L','L','_'] : List Char) pre [c],
            List.append_assoc (['<','<','C','A','L','L','_'] : List Char) (pre ++ c :: cs) ['>','>'],
            List.append_assoc pre (c :: cs) ['>','>'],
            isPre_append_left]
          show isPre (pre ++ [c]) (pre ++ (c :: (cs ++ ['>','>']))) = true
          rw [isPre_append_left]
          simp [isPre]
        rw [hp, Bool.true_or]
    rw [feedList_cons, hstep, List.append_assoc]
    refine ih (pre ++ [c]) ?_ A P E
    rw [h, List.append_assoc]
    rfl

theorem feed_trigger (mid : List Char) (A P : List Char) (E : List PEvent) :
    feedList (some (['<','<','C','A','L','L','_'] ++ mid ++ ['>','>']))
      (bstate A P E []) (['<','<','C','A','L','L','_'] ++ mid ++ ['>','>']) =
    tstate PMode.toolWaitInvoke [] P A (['<','<','C','A','L','L','_'] ++ mid ++ ['>','>'])
      0 [] false [] [] [] E := by
  have hpre : feedList (some (['<','<','C','A','L','L','_'] ++ mid ++ ['>','>']))
      (bstate A P E []) ['<','<','C','A','L','L','_'] =
      bstate A P E ['<','<','C','A','L','L','_'] := by
    rw [feedList_cons,
      feedChar_normal_hold_nil _ A P E [] '<' ['<']
        (resolveNormal_hold_of2 _ ['<'] (by simp) (by simp) (by decide)
          (by
            have hp : trigPre (some (['<','<','C','A','L','L','_'] ++ mid ++ ['>','>'])) ['<'] = true := by
              show isPre ['<'] (['<','<','C','A','L','L','_'] ++ mid ++ ['>','>']) = true
              simp [isPre]
            rw [hp, Bool.true_or]))]
    rw [feedList_cons,
      feedChar_normal_hold_nil _ A P E ['<'] '<' ['<','<']
        (resolveNormal_hold_of2 _ ['<','<'] (by simp) (by simp) (by decide)
          (by
            have hp : trigPre (some (['<','<','C','A','L','L','_'] ++ mid ++ ['>','>'])) ['<','<'] = true := by
              show isPre ['<','<'] (['<','<','C','A','L','L','_'] ++ mid ++ ['>','>']) = true
              simp [isPre]
            rw [hp, Bool.true_or]))]
    rw [feedList_cons,
      feedChar_normal_hold_nil _ A P E ['<','<'] 'C' ['<','<','C']
        (resolveNormal_hold_of2 _ ['<','<','C'] (by simp) (by simp) (by decide)
          (by
            have hp : trigPre (some (['<','<','C','A','L','L','_'] ++ mid ++ ['>','>'])) ['<','<','C'] = true := by
              show isPre ['<','<','C'] (['<','<','C','A','L','L','_'] ++ mid ++ ['>','>']) = true
              simp [isPre]
            rw [hp, Bool.true_or]))]
    rw [feedList_cons,
      feedChar_normal_hold_nil _ A P E ['<','<','C'] 'A' ['<','<','C','A']
        (resolveNormal_hold_of2 _ ['<','<','C','A'] (by simp) (by simp) (by decide)
          (by
            have hp : trigPre (some (['<','<','C','A','L','L','_'] ++ mid ++ ['>','>'])) ['<','<','C','A'] = true := by
              show isPre ['<','<','C','A'] (['<','<','C','A','L','L','_'] ++ mid ++ ['>','>']) = true
              simp [isPre]
            rw [hp, Bool.true_or]))]
    rw [feedList_cons,
      feedChar_normal_hold_nil _ A P E ['<','<','C','A'] 'L' ['<','<','C','A','L']
        (resolveNormal_hold_of2 _ ['<','<','C','A','L'] (by simp) (by simp) (by decide)
          (by
            have hp : trigPre (some (['<','<','C','A','L','L','_'] ++ mid ++ ['>','>'])) ['<','<','C','A','L'] = true := by
              show isPre ['<','<','C','A','L'] (['<','<','C','A','L','L','_'] ++ mid ++ ['>','>']) = true
              simp [isPre]
            rw [hp, Bool.true_or]))]
    rw [feedList_cons,
      feedChar_normal_hold_nil _ A P E ['<','<','C','A','L'] 'L' ['<','<','C','A','L','L']
        (resolveNormal_hold_of2 _ ['<','<','C','A','L','L'] (by simp) (by simp) (by decide)
          (by
            have hp : trigPre (some (['<','<','C','A','L','L','_'] ++ mid ++ ['>','>'])) ['<','<','C','A','L','L'] = true := by
              show isPre ['<','<','C','A','L','L'] (['<','<','C','A','L','L','_'] ++ mid ++ ['>','>']) = true
              simp [isPre]
            rw [hp, Bool.true_or]))]
    rw [feedList_cons,
      feedChar_normal_hold_nil _ A P E ['<','<','C','A','L','L'] '_' ['<','<','C','A','L','L','_']
        (resolveNormal_hold_of2 _ ['<','<','C','A','L','L','_'] (by simp) (by simp) (by decide)
          (by
            have hp : trigPre (some (['<','<','C','A','L','L','_'] ++ mid ++ ['>','>'])) ['<','<','C','A','L','L','_'] = true := by
              show isPre ['<','<','C','A','L','L','_'] (['<','<','C','A','L','L','_'] ++ mid ++ ['>','>']) = true
              simp [isPre]
            rw [hp, Bool.true_or]))]
    rfl
  have hmid : feedList (some (['<','<','C','A','L','L','_'] ++ mid ++ ['>','>']))
      (bstate A P E ['<','<','C','A','L','L','_']) mid =
      bstate A P E (['<','<','C','A','L','L','_'] ++ mid) := by
    have h2 := feed_trig_mid mid mid [] (List.nil_append mid).symm A P E
    rw [List.append_nil] at h2
    exact h2
  have hgt1 : feedChar (some (['<','<','C','A','L','L','_'] ++ mid ++ ['>','>']))
      (bstate A P E (['<','<','C','A','L','L','_'] ++ mid)) '>' =
      bstate A P E ((['<','<','C','A','L','L','_'] ++ mid) ++ ['>']) := by
    refine feedChar_normal_hold_nil _ A P E _ '>' _
      (resolveNormal_hold_of2 _ _ (by simp) ?_ ?_ ?_)
    · intro heq
      have hlen := congrArg List.length (Option.some.inj heq)
      simp [List.length_append] at hlen
    · simp [thinkOpenL_eq]
    · have hp : trigPre (some (['<','<','C','A','L','L','_'] ++ mid ++ ['>','>']))
          ((['<','<','C','A','L','L','_'] ++ mid) ++ ['>']) = true := by
        show isPre ((['<','<','C','A','L','L','_'] ++ mid) ++ ['>'])
          (['<','<','C','A','L','L','_'] ++ mid ++ ['>','>']) = true
        rw [isPre_append_left]
        simp [isPre]
      rw [hp, Bool.true_or]
  have hgt2 : feedChar (some (['<','<','C','A','L','L','_'] ++ mid ++ ['>','>']))
      (bstate A P E ((['<','<','C','A','L','L','_'] ++ mid) ++ ['>'])) '>' =
      tstate PMode.toolWaitInvoke [] P A (['<','<','C','A','L','L','_'] ++ mid ++ ['>','>'])
        0 [] false [] [] [] E := by
    refine feedChar_normal_toTool _ A P E _ '>'
      (resolveNormal_toTool_of2 _ _ (by simp) ?_)
    rw [List.append_assoc]
    rfl
  rw [feedList_append, feedList_append, hpre, hmid]
  rw [feedList_cons, hgt1, feedList_cons, hgt2]
  rfl

end Toolify

namespace Toolify

theorem resolveClose_paramMiss (c : Char) (h : c ≠ '<') :
    resolveClose paramCloseL [c] = ([c], false, []) := by
  rw [resolveClose_cons]
  rw [if_neg (by simp [paramCloseL_eq])]
  rw [if_neg (by
    rw [paramCloseL_eq, isPre_single_false c '<' _ h]
    exact Bool.false_ne_true)]
  rfl

theorem feedChar_pvchar (T : Option (List Char)) (P A R N pn pv : List Char)
    (PS : List (String × String)) (E : List PEvent) (c : Char) (hc : c ≠ '<') :
    feedChar T (tstate PMode.toolParamValue [] P A R 0 N true pn pv PS E) c =
      tstate PMode.toolParamValue [] P A (R ++ [c]) 0 N true pn (pv ++ [c]) PS E := by
  unfold feedChar tstate
  dsimp only
  rw [show resolveClose paramCloseL ([] ++ [c]) = ([c], false, []) from
    resolveClose_paramMiss c hc]
  dsimp only
  rw [if_neg Bool.false_ne_true]

theorem feedChar_pvhold (T : Option (List Char)) (P A R N pn pv : List Char)
    (PS : List (String × String)) (E : List PEvent) (b : List Char) (c : Char)
    (b2 : List Char) (h : resolveClose paramCloseL (b ++ [c]) = ([], false, b2)) :
    feedChar T (tstate PMode.toolParamValue b P A R 0 N true pn pv PS E) c =
      tstate PMode.toolParamValue b2 P A (R ++ [c]) 0 N true pn pv PS E := by
  unfold feedChar tstate
  dsimp only
  rw [h]
  dsimp only
  rw [if_neg Bool.false_ne_true, List.append_nil]

theorem feedChar_pvcloseEnd (T : Option (List Char)) (P A R N pn pv : List Char)
    (PS : List (String × String)) (E : List PEvent) (b : List Char) (c : Char)
    (h : resolveClose paramCloseL (b ++ [c]) = ([], true, [])) :
    feedChar T (tstate PMode.toolParamValue b P A R 0 N true pn pv PS E) c =
      tstate PMode.toolBody [] P A (R ++ [c]) 0 N true pn pv
        (PS ++ [(⟨pn⟩, unquoteVal ⟨pv⟩)]) E := by
  unfold feedChar tstate
  dsimp only
  rw [h]
  dsimp only
  rw [if_pos rfl]
  simp only [List.append_nil]

theorem feedChar_body_close (T : Option (List Char)) (P A R N pn pv : List Char)
    (PS : List (String × String)) (E : List PEvent) :
    feedChar T (tstate PMode.toolBody ['<','/','i','n','v','o','k','e'] P A R 0 N true pn pv PS E) '>'
      = ⟨PMode.toolDone, [], [], [], A, R ++ ['>'], A, 0, N, true, pn, pv, PS,
          flushE E P ++ [PEvent.ptool ⟨N⟩ PS]⟩ := by
  unfold feedChar tstate
  dsimp only
  rw [show resolveBody (['<','/','i','n','v','o','k','e'] ++ ['>']) = BRes.toClose from by decide]
  unfold pushEv
  rw [flushT_eq]

theorem feed_ws (T : Option (List Char)) (w : List Char)
    (hw : ∀ c ∈ w, isJsWs c = true) :
    ∀ P A R pn pv : List Char, ∀ PS : List (String × String), ∀ E : List PEvent,
      feedList T (tstate PMode.toolWaitInvoke [] P A R 0 [] false pn pv PS E) w =
        tstate PMode.toolWaitInvoke [] P A (R ++ w) 0 [] false pn pv PS E := by
  induction w with
  | nil =>
    intro P A R pn pv PS E
    rw [List.append_nil]
    rfl
  | cons c cs ih =>
    intro P A R pn pv PS E
    have hstep : feedChar T (tstate PMode.toolWaitInvoke [] P A R 0 [] false pn pv PS E) c
        = tstate PMode.toolWaitInvoke [] P A (R ++ [c]) 0 [] false pn pv PS E := by
      unfold feedChar tstate
      dsimp only
      rw [if_pos (by rw [hw c (List.mem_cons_self _ _)]; rfl)]
    rw [feedList_cons, hstep, ih (fun x hx => hw x (List.mem_cons_of_mem _ hx)),
      List.append_assoc]
    rfl

theorem feed_invokeOpen (T : Option (List Char)) (P A R pn pv : List Char)
    (PS : List (String × String)) (E : List PEvent) :
    ∃ R2, feedList T (tstate PMode.toolWaitInvoke [] P A R 0 [] false pn pv PS E)
        invokeOpenL =
      tstate PMode.toolName [] P A R2 0 [] false pn pv PS E := by
  apply Exists.intro
  rw [invokeOpenL_eq]
  rw [feedList_cons, show feedChar T (tstate PMode.toolWaitInvoke [] P A R 0 [] false pn pv PS E) '<' = tstate PMode.toolWaitInvoke [] P A (R ++ ['<']) 1 [] false pn pv PS E from rfl]
  rw [feedList_cons, show feedChar T (tstate PMode.toolWaitInvoke [] P A (R ++ ['<']) 1 [] false pn pv PS E) 'i' = tstate PMode.toolWaitInvoke [] P A ((R ++ ['<']) ++ ['i']) 2 [] false pn pv PS E from rfl]
  rw [feedList_cons, show feedChar T (tstate PMode.toolWaitInvoke [] P A ((R ++ ['<']) ++ ['i']) 2 [] false pn pv PS E) 'n' = tstate PMode.toolWaitInvoke [] P A (((R ++ ['<']) ++ ['i']) ++ ['n']) 3 [] false pn pv PS E from rfl]
  rw [feedList_cons, show feedChar T (tstate PMode.toolWaitInvoke [] P A (((R ++ ['<']) ++ ['i']) ++ ['n']) 3 [] false pn pv PS E) 'v' = tstate PMode.toolWaitInvoke [] P A ((((R ++ ['<']) ++ ['i']) ++ ['n']) ++ ['v']) 4 [] false pn pv PS E from rfl]
  rw [feedList_cons, show feedChar T (tstate PMode.toolWaitInvoke [] P A ((((R ++ ['<']) ++ ['i']) ++ ['n']) ++ ['v']) 4 [] false pn pv PS E) 'o' = tstate PMode.toolWaitInvoke [] P A (((((R ++ ['<']) ++ ['i']) ++ ['n']) ++ ['v']) ++ ['o']) 5 [] false pn pv PS E from rfl]
  rw [feedList_cons, show feedChar T (tstate PMode.toolWaitInvoke [] P A (((((R ++ ['<']) ++ ['i']) ++ ['n']) ++ ['v']) ++ ['o']) 5 [] false pn pv PS E) 'k' = tstate PMode.toolWaitInvoke [] P A ((((((R ++ ['<']) ++ ['i']) ++ ['n']) ++ ['v']) ++ ['o']) ++ ['k']) 6 [] false pn pv PS E from rfl]
  rw [feedList_cons, show feedChar T (tstate PMode.toolWaitInvoke [] P A ((((((R ++ ['<']) ++ ['i']) ++ ['n']) ++ ['v']) ++ ['o']) ++ ['k']) 6 [] false pn pv PS E) 'e' = tstate PMode.toolWaitInvoke [] P A (((((((R ++ ['<']) ++ ['i']) ++ ['n']) ++ ['v']) ++ ['o']) ++ ['k']) ++ ['e']) 7 [] false pn pv PS E from rfl]
  rw [feedList_cons, show feedChar T (tstate PMode.toolWaitInvoke [] P A (((((((R ++ ['<']) ++ ['i']) ++ ['n']) ++ ['v']) ++ ['o']) ++ ['k']) ++ ['e']) 7 [] false pn pv PS E) ' ' = tstate PMode.toolWaitInvoke [] P A ((((((((R ++ ['<']) ++ ['i']) ++ ['n']) ++ ['v']) ++ ['o']) ++ ['k']) ++ ['e']) ++ [' ']) 8 [] false pn pv PS E from rfl]
  rw [feedList_cons, show feedChar T (tstate PMode.toolWaitInvoke [] P A ((((((((R ++ ['<']) ++ ['i']) ++ ['n']) ++ ['v']) ++ ['o']) ++ ['k']) ++ ['e']) ++ [' ']) 8 [] false pn pv PS E) 'n' = tstate PMode.toolWaitInvoke [] P A (((((((((R ++ ['<']) ++ ['i']) ++ ['n']) ++ ['v']) ++ ['o']) ++ ['k']) ++ ['e']) ++ [' ']) ++ ['n']) 9 [] false pn pv PS E from rfl]
  rw [feedList_cons, show feedChar T (tstate PMode.toolWaitInvoke [] P A (((((((((R ++ ['<']) ++ ['i']) ++ ['n']) ++ ['v']) ++ ['o']) ++ ['k']) ++ ['e']) ++ [' ']) ++ ['n']) 9 [] false pn pv PS E) 'a' = tstate PMode.toolWaitInvoke [] P A ((((((((((R ++ ['<']) ++ ['i']) ++ ['n']) ++ ['v']) ++ ['o']) ++ ['k']) ++ ['e']) ++ [' ']) ++ ['n']) ++ ['a']) 10 [] false pn pv PS E from rfl]
  rw [feedList_cons, show feedChar T (tstate PMode.toolWaitInvoke [] P A ((((((((((R ++ ['<']) ++ ['i']) ++ ['n']) ++ ['v']) ++ ['o']) ++ ['k']) ++ ['e']) ++ [' ']) ++ ['n']) ++ ['a']) 10 [] false pn pv PS E) 'm' = tstate PMode.toolWaitInvoke [] P A (((((((((((R ++ ['<']) ++ ['i']) ++ ['n']) ++ ['v']) ++ ['o']) ++ ['k']) ++ ['e']) ++ [' ']) ++ ['n']) ++ ['a']) ++ ['m']) 11 [] false pn pv PS E from rfl]
  rw [feedList_cons, show feedChar T (tstate PMode.toolWaitInvoke [] P A (((((((((((R ++ ['<']) ++ ['i']) ++ ['n']) ++ ['v']) ++ ['o']) ++ ['k']) ++ ['e']) ++ [' ']) ++ ['n']) ++ ['a']) ++ ['m']) 11 [] false pn pv PS E) 'e' = tstate PMode.toolWaitInvoke [] P A ((((((((((((R ++ ['<']) ++ ['i']) ++ ['n']) ++ ['v']) ++ ['o']) ++ ['k']) ++ ['e']) ++ [' ']) ++ ['n']) ++ ['a']) ++ ['m']) ++ ['e']) 12 [] false pn pv PS E from rfl]
  rw [feedList_cons, show feedChar T (tstate PMode.toolWaitInvoke [] P A ((((((((((((R ++ ['<']) ++ ['i']) ++ ['n']) ++ ['v']) ++ ['o']) ++ ['k']) ++ ['e']) ++ [' ']) ++ ['n']) ++ ['a']) ++ ['m']) ++ ['e']) 12 [] false pn pv PS E) '=' = tstate PMode.toolWaitInvoke [] P A (((((((((((((R ++ ['<']) ++ ['i']) ++ ['n']) ++ ['v']) ++ ['o']) ++ ['k']) ++ ['e']) ++ [' ']) ++ ['n']) ++ ['a']) ++ ['m']) ++ ['e']) ++ ['=']) 13 [] false pn pv PS E from rfl]
  rw [feedList_cons, show feedChar T (tstate PMode.toolWaitInvoke [] P A (((((((((((((R ++ ['<']) ++ ['i']) ++ ['n']) ++ ['v']) ++ ['o']) ++ ['k']) ++ ['e']) ++ [' ']) ++ ['n']) ++ ['a']) ++ ['m']) ++ ['e']) ++ ['=']) 13 [] false pn pv PS E) dq = tstate PMode.toolName [] P A ((((((((((((((R ++ ['<']) ++ ['i']) ++ ['n']) ++ ['v']) ++ ['o']) ++ ['k']) ++ ['e']) ++ [' ']) ++ ['n']) ++ ['a']) ++ ['m']) ++ ['e']) ++ ['=']) ++ [dq]) 0 [] false pn pv PS E from rfl]
  rfl

theorem feed_tname (T : Option (List Char)) (l : List Char) (hl : ∀ c ∈ l, c ≠ dq) :
    ∀ P A R N pn pv : List Char, ∀ PS : List (String × String), ∀ E : List PEvent,
      ∃ R2, feedList T (tstate PMode.toolName [] P A R 0 N false pn pv PS E) l =
        tstate PMode.toolName [] P A R2 0 (N ++ l) false pn pv PS E := by
  induction l with
  | nil =>
    intro P A R N pn pv PS E
    exact ⟨R, by rw [List.append_nil]; rfl⟩
  | cons c cs ih =>
    intro P A R N pn pv PS E
    have hstep : feedChar T (tstate PMode.toolName [] P A R 0 N false pn pv PS E) c =
        tstate PMode.toolName [] P A (R ++ [c]) 0 (N ++ [c]) false pn pv PS E := by
      unfold feedChar tstate
      dsimp only
      rw [if_neg Bool.false_ne_true, if_neg (hl c (List.mem_cons_self _ _))]
    obtain ⟨R2, h2⟩ := ih (fun x hx => hl x (List.mem_cons_of_mem _ hx))
      P A (R ++ [c]) (N ++ [c]) pn pv PS E
    refine ⟨R2, ?_⟩
    rw [feedList_cons, hstep, h2, List.append_assoc]
    rfl

theorem feed_nameEnd (T : Option (List Char)) (P A R N pn pv : List Char)
    (PS : List (String × String)) (E : List PEvent) :
    ∃ R2, feedList T (tstate PMode.toolName [] P A R 0 N false pn pv PS E) [dq, '>'] =
      tstate PMode.toolBody [] P A R2 0 N true pn pv [] E := by
  apply Exists.intro
  rw [feedList_cons, show feedChar T (tstate PMode.toolName [] P A R 0 N false pn pv PS E) dq = tstate PMode.toolName [] P A (R ++ [dq]) 0 N true pn pv PS E from rfl]
  rw [feedList_cons, show feedChar T (tstate PMode.toolName [] P A (R ++ [dq]) 0 N true pn pv PS E) '>' = tstate PMode.toolBody [] P A ((R ++ [dq]) ++ ['>']) 0 N true pn pv [] E from rfl]
  rfl

theorem feed_paramOpen (T : Option (List Char)) (P A R N pn pv : List Char)
    (PS : List (String × String)) (E : List PEvent) :
    ∃ R2, feedList T (tstate PMode.toolBody [] P A R 0 N true pn pv PS E) paramOpenL =
      tstate PMode.toolParamName [] P A R2 0 N false [] pv PS E := by
  apply Exists.intro
  rw [paramOpenL_eq]
  rw [feedList_cons, show feedChar T (tstate PMode.toolBody [] P A R 0 N true pn pv PS E) '<' = tstate PMode.toolBody ['<'] P A (R ++ ['<']) 0 N true pn pv PS E from rfl]
  rw [feedList_cons, show feedChar T (tstate PMode.toolBody ['<'] P A (R ++ ['<']) 0 N true pn pv PS E) 'p' = tstate PMode.toolBody ['<','p'] P A ((R ++ ['<']) ++ ['p']) 0 N true pn pv PS E from rfl]
  rw [feedList_cons, show feedChar T (tstate PMode.toolBody ['<','p'] P A ((R ++ ['<']) ++ ['p']) 0 N true pn pv PS E) 'a' = tstate PMode.toolBody ['<','p','a'] P A (((R ++ ['<']) ++ ['p']) ++ ['a']) 0 N true pn pv PS E from rfl]
  rw [feedList_cons, show feedChar T (tstate PMode.toolBody ['<','p','a'] P A (((R ++ ['<']) ++ ['p']) ++ ['a']) 0 N true pn pv PS E) 'r' = tstate PMode.toolBody ['<','p','a','r'] P A ((((R ++ ['<']) ++ ['p']) ++ ['a']) ++ ['r']) 0 N true pn pv PS E from rfl]
  rw [feedList_cons, show feedChar T (tstate PMode.toolBody ['<','p','a','r'] P A ((((R ++ ['<']) ++ ['p']) ++ ['a']) ++ ['r']) 0 N true pn pv PS E) 'a' = tstate PMode.toolBody ['<','p','a','r','a'] P A (((((R ++ ['<']) ++ ['p']) ++ ['a']) ++ ['r']) ++ ['a']) 0 N true pn pv PS E from rfl]
  rw [feedList_cons, show feedChar T (tstate PMode.toolBody ['<','p','a','r','a'] P A (((((R ++ ['<']) ++ ['p']) ++ ['a']) ++ ['r']) ++ ['a']) 0 N true pn pv PS E) 'm' = tstate PMode.toolBody ['<','p','a','r','a','m'] P A ((((((R ++ ['<']) ++ ['p']) ++ ['a']) ++ ['r']) ++ ['a']) ++ ['m']) 0 N true pn pv PS E from rfl]
  rw [feedList_cons, show feedChar T (tstate PMode.toolBody ['<','p','a','r','a','m'] P A ((((((R ++ ['<']) ++ ['p']) ++ ['a']) ++ ['r']) ++ ['a']) ++ ['m']) 0 N true pn pv PS E) 'e' = tstate PMode.toolBody ['<','p','a','r','a','m','e'] P A (((((((R ++ ['<']) ++ ['p']) ++ ['a']) ++ ['r']) ++ ['a']) ++ ['m']) ++ ['e']) 0 N true pn pv PS E from rfl]
  rw [feedList_cons, show feedChar T (tstate PMode.toolBody ['<','p','a','r','a','m','e'] P A (((((((R ++ ['<']) ++ ['p']) ++ ['a']) ++ ['r']) ++ ['a']) ++ ['m']) ++ ['e']) 0 N true pn pv PS E) 't' = tstate PMode.toolBody ['<','p','a','r','a','m','e','t'] P A ((((((((R ++ ['<']) ++ ['p']) ++ ['a']) ++ ['r']) ++ ['a']) ++ ['m']) ++ ['e']) ++ ['t']) 0 N true pn pv PS E from rfl]
  rw [feedList_cons, show feedChar T (tstate PMode.toolBody ['<','p','a','r','a','m','e','t'] P A ((((((((R ++ ['<']) ++ ['p']) ++ ['a']) ++ ['r']) ++ ['a']) ++ ['m']) ++ ['e']) ++ ['t']) 0 N true pn pv PS E) 'e' = tstate PMode.toolBody ['<','p','a','r','a','m','e','t','e'] P A (((((((((R ++ ['<']) ++ ['p']) ++ ['a']) ++ ['r']) ++ ['a']) ++ ['m']) ++ ['e']) ++ ['t']) ++ ['e']) 0 N true pn pv PS E from rfl]
  rw [feedList_cons, show feedChar T (tstate PMode.toolBody ['<','p','a','r','a','m','e','t','e'] P A (((((((((R ++ ['<']) ++ ['p']) ++ ['a']) ++ ['r']) ++ ['a']) ++ ['m']) ++ ['e']) ++ ['t']) ++ ['e']) 0 N true pn pv PS E) 'r' = tstate PMode.toolBody ['<','p','a','r','a','m','e','t','e','r'] P A ((((((((((R ++ ['<']) ++ ['p']) ++ ['a']) ++ ['r']) ++ ['a']) ++ ['m']) ++ ['e']) ++ ['t']) ++ ['e']) ++ ['r']) 0 N true pn pv PS E from rfl]
  rw [feedList_cons, show feedChar T (tstate PMode.toolBody ['<','p','a','r','a','m','e','t','e','r'] P A ((((((((((R ++ ['<']) ++ ['p']) ++ ['a']) ++ ['r']) ++ ['a']) ++ ['m']) ++ ['e']) ++ ['t']) ++ ['e']) ++ ['r']) 0 N true pn pv PS E) ' ' = tstate PMode.toolBody ['<','p','a','r','a','m','e','t','e','r',' '] P A (((((((((((R ++ ['<']) ++ ['p']) ++ ['a']) ++ ['r']) ++ ['a']) ++ ['m']) ++ ['e']) ++ ['t']) ++ ['e']) ++ ['r']) ++ [' ']) 0 N true pn pv PS E from rfl]
  rw [feedList_cons, show feedChar T (tstate PMode.toolBody ['<','p','a','r','a','m','e','t','e','r',' '] P A (((((((((((R ++ ['<']) ++ ['p']) ++ ['a']) ++ ['r']) ++ ['a']) ++ ['m']) ++ ['e']) ++ ['t']) ++ ['e']) ++ ['r']) ++ [' ']) 0 N true pn pv PS E) 'n' = tstate PMode.toolBody ['<','p','a','r','a','m','e','t','e','r',' ','n'] P A ((((((((((((R ++ ['<']) ++ ['p']) ++ ['a']) ++ ['r']) ++ ['a']) ++ ['m']) ++ ['e']) ++ ['t']) ++ ['e']) ++ ['r']) ++ [' ']) ++ ['n']) 0 N true pn pv PS E from rfl]
  rw [feedList_cons, show feedChar T (tstate PMode.toolBody ['<','p','a','r','a','m','e','t','e','r',' ','n'] P A ((((((((((((R ++ ['<']) ++ ['p']) ++ ['a']) ++ ['r']) ++ ['a']) ++ ['m']) ++ ['e']) ++ ['t']) ++ ['e']) ++ ['r']) ++ [' ']) ++ ['n']) 0 N true pn pv PS E) 'a' = tstate PMode.toolBody ['<','p','a','r','a','m','e','t','e','r',' ','n','a'] P A (((((((((((((R ++ ['<']) ++ ['p']) ++ ['a']) ++ ['r']) ++ ['a']) ++ ['m']) ++ ['e']) ++ ['t']) ++ ['e']) ++ ['r']) ++ [' ']) ++ ['n']) ++ ['a']) 0 N true pn pv PS E from rfl]
  rw [feedList_cons, show feedChar T (tstate PMode.toolBody ['<','p','a','r','a','m','e','t','e','r',' ','n','a'] P A (((((((((((((R ++ ['<']) ++ ['p']) ++ ['a']) ++ ['r']) ++ ['a']) ++ ['m']) ++ ['e']) ++ ['t']) ++ ['e']) ++ ['r']) ++ [' ']) ++ ['n']) ++ ['a']) 0 N true pn pv PS E) 'm' = tstate PMode.toolBody ['<','p','a','r','a','m','e','t','e','r',' ','n','a','m'] P A ((((((((((((((R ++ ['<']) ++ ['p']) ++ ['a']) ++ ['r']) ++ ['a']) ++ ['m']) ++ ['e']) ++ ['t']) ++ ['e']) ++ ['r']) ++ [' ']) ++ ['n']) ++ ['a']) ++ ['m']) 0 N true pn pv PS E from rfl]
  rw [feedList_cons, show feedChar T (tstate PMode.toolBody ['<','p','a','r','a','m','e','t','e','r',' ','n','a','m'] P A ((((((((((((((R ++ ['<']) ++ ['p']) ++ ['a']) ++ ['r']) ++ ['a']) ++ ['m']) ++ ['e']) ++ ['t']) ++ ['e']) ++ ['r']) ++ [' ']) ++ ['n']) ++ ['a']) ++ ['m']) 0 N true pn pv PS E) 'e' = tstate PMode.toolBody ['<','p','a','r','a','m','e','t','e','r',' ','n','a','m','e'] P A (((((((((((((((R ++ ['<']) ++ ['p']) ++ ['a']) ++ ['r']) ++ ['a']) ++ ['m']) ++ ['e']) ++ ['t']) ++ ['e']) ++ ['r']) ++ [' ']) ++ ['n']) ++ ['a']) ++ ['m']) ++ ['e']) 0 N true pn pv PS E from rfl]
  rw [feedList_cons, show feedChar T (tstate PMode.toolBody ['<','p','a','r','a','m','e','t','e','r',' ','n','a','m','e'] P A (((((((((((((((R ++ ['<']) ++ ['p']) ++ ['a']) ++ ['r']) ++ ['a']) ++ ['m']) ++ ['e']) ++ ['t']) ++ ['e']) ++ ['r']) ++ [' ']) ++ ['n']) ++ ['a']) ++ ['m']) ++ ['e']) 0 N true pn pv PS E) '=' = tstate PMode.toolBody ['<','p','a','r','a','m','e','t','e','r',' ','n','a','m','e','='] P A ((((((((((((((((R ++ ['<']) ++ ['p']) ++ ['a']) ++ ['r']) ++ ['a']) ++ ['m']) ++ ['e']) ++ ['t']) ++ ['e']) ++ ['r']) ++ [' ']) ++ ['n']) ++ ['a']) ++ ['m']) ++ ['e']) ++ ['=']) 0 N true pn pv PS E from rfl]
  rw [feedList_cons, show feedChar T (tstate PMode.toolBody ['<','p','a','r','a','m','e','t','e','r',' ','n','a','m','e','='] P A ((((((((((((((((R ++ ['<']) ++ ['p']) ++ ['a']) ++ ['r']) ++ ['a']) ++ ['m']) ++ ['e']) ++ ['t']) ++ ['e']) ++ ['r']) ++ [' ']) ++ ['n']) ++ ['a']) ++ ['m']) ++ ['e']) ++ ['=']) 0 N true pn pv PS E) dq = tstate PMode.toolParamName [] P A (((((((((((((((((R ++ ['<']) ++ ['p']) ++ ['a']) ++ ['r']) ++ ['a']) ++ ['m']) ++ ['e']) ++ ['t']) ++ ['e']) ++ ['r']) ++ [' ']) ++ ['n']) ++ ['a']) ++ ['m']) ++ ['e']) ++ ['=']) ++ [dq]) 0 N false [] pv PS E from rfl]
  rfl

theorem feed_pname (T : Option (List Char)) (l : List Char) (hl : ∀ c ∈ l, c ≠ dq) :
    ∀ P A R N pn pv : List Char, ∀ PS : List (String × String), ∀ E : List PEvent,
      ∃ R2, feedList T (tstate PMode.toolParamName [] P A R 0 N false pn pv PS E) l =
        tstate PMode.toolParamName [] P A R2 0 N false (pn ++ l) pv PS E := by
  induction l with
  | nil =>
    intro P A R N pn pv PS E
    exact ⟨R, by rw [List.append_nil]; rfl⟩
  | cons c cs ih =>
    intro P A R N pn pv PS E
    have hstep : feedChar T (tstate PMode.toolParamName [] P A R 0 N false pn pv PS E) c =
        tstate PMode.toolParamName [] P A (R ++ [c]) 0 N false (pn ++ [c]) pv PS E := by
      unfold feedChar tstate
      dsimp only
      rw [if_neg Bool.false_ne_true, if_neg (hl c (List.mem_cons_self _ _))]
    obtain ⟨R2, h2⟩ := ih (fun x hx => hl x (List.mem_cons_of_mem _ hx))
      P A (R ++ [c]) N (pn ++ [c]) pv PS E
    refine ⟨R2, ?_⟩
    rw [feedList_cons, hstep, h2, List.append_assoc]
    rfl

theorem feed_pnameEnd (T : Option (List Char)) (P A R N pn pv : List Char)
    (PS : List (String × String)) (E : List PEvent) :
    ∃ R2, feedList T (tstate PMode.toolParamName [] P A R 0 N false pn pv PS E) [dq, '>'] =
      tstate PMode.toolParamValue [] P A R2 0 N true pn [] PS E := by
  apply Exists.intro
  rw [feedList_cons, show feedChar T (tstate PMode.toolParamName [] P A R 0 N false pn pv PS E) dq = tstate PMode.toolParamName [] P A (R ++ [dq]) 0 N true pn pv PS E from rfl]
  rw [feedList_cons, show feedChar T (tstate PMode.toolParamName [] P A (R ++ [dq]) 0 N true pn pv PS E) '>' = tstate PMode.toolParamValue [] P A ((R ++ [dq]) ++ ['>']) 0 N true pn [] PS E from rfl]
  rfl

theorem feed_pval (T : Option (List Char)) (l : List Char) (hl : ∀ c ∈ l, c ≠ '<') :
    ∀ P A R N pn pv : List Char, ∀ PS : List (String × String), ∀ E : List PEvent,
      ∃ R2, feedList T (tstate PMode.toolParamValue [] P A R 0 N true pn pv PS E) l =
        tstate PMode.toolParamValue [] P A R2 0 N true pn (pv ++ l) PS E := by
  induction l with
  | nil =>
    intro P A R N pn pv PS E
    exact ⟨R, by rw [List.append_nil]; rfl⟩
  | cons c cs ih =>
    intro P A R N pn pv PS E
    obtain ⟨R2, h2⟩ := ih (fun x hx => hl x (List.mem_cons_of_mem _ hx))
      P A (R ++ [c]) N pn (pv ++ [c]) PS E
    refine ⟨R2, ?_⟩
    rw [feedList_cons, feedChar_pvchar T P A R N pn pv PS E c (hl c (List.mem_cons_self _ _)),
      h2, List.append_assoc]
    rfl

theorem feed_paramClose (T : Option (List Char)) (P A R N pn pv : List Char)
    (PS : List (String × String)) (E : List PEvent) :
    ∃ R2, feedList T (tstate PMode.toolParamValue [] P A R 0 N true pn pv PS E) paramCloseL =
      tstate PMode.toolBody [] P A R2 0 N true pn pv
        (PS ++ [(⟨pn⟩, unquoteVal ⟨pv⟩)]) E := by
  apply Exists.intro
  rw [paramCloseL_eq]
  rw [feedList_cons, feedChar_pvhold T P A R N pn pv PS E [] '<' ['<'] (by decide)]
  rw [feedList_cons, feedChar_pvhold T P A (R ++ ['<']) N pn pv PS E ['<'] '/' ['<','/'] (by decide)]
  rw [feedList_cons, feedChar_pvhold T P A ((R ++ ['<']) ++ ['/']) N pn pv PS E ['<','/'] 'p' ['<','/','p'] (by decide)]
  rw [feedList_cons, feedChar_pvhold T P A (((R ++ ['<']) ++ ['/']) ++ ['p']) N pn pv PS E ['<','/','p'] 'a' ['<','/','p','a'] (by decide)]
  rw [feedList_cons, feedChar_pvhold T P A ((((R ++ ['<']) ++ ['/']) ++ ['p']) ++ ['a']) N pn pv PS E ['<','/','p','a'] 'r' ['<','/','p','a','r'] (by decide)]
  rw [feedList_cons, feedChar_pvhold T P A (((((R ++ ['<']) ++ ['/']) ++ ['p']) ++ ['a']) ++ ['r']) N pn pv PS E ['<','/','p','a','r'] 'a' ['<','/','p','a','r','a'] (by decide)]
  rw [feedList_cons, feedChar_pvhold T P A ((((((R ++ ['<']) ++ ['/']) ++ ['p']) ++ ['a']) ++ ['r']) ++ ['a']) N pn pv PS E ['<','/','p','a','r','a'] 'm' ['<','/','p','a','r','a','m'] (by decide)]
  rw [feedList_cons, feedChar_pvhold T P A (((((((R ++ ['<']) ++ ['/']) ++ ['p']) ++ ['a']) ++ ['r']) ++ ['a']) ++ ['m']) N pn pv PS E ['<','/','p','a','r','a','m'] 'e' ['<','/','p','a','r','a','m','e'] (by decide)]
  rw [feedList_cons, feedChar_pvhold T P A ((((((((R ++ ['<']) ++ ['/']) ++ ['p']) ++ ['a']) ++ ['r']) ++ ['a']) ++ ['m']) ++ ['e']) N pn pv PS E ['<','/','p','a','r','a','m','e'] 't' ['<','/','p','a','r','a','m','e','t'] (by decide)]
  rw [feedList_cons, feedChar_pvhold T P A (((((((((R ++ ['<']) ++ ['/']) ++ ['p']) ++ ['a']) ++ ['r']) ++ ['a']) ++ ['m']) ++ ['e']) ++ ['t']) N pn pv PS E ['<','/','p','a','r','a','m','e','t'] 'e' ['<','/','p','a','r','a','m','e','t','e'] (by decide)]
  rw [feedList_cons, feedChar_pvhold T P A ((((((((((R ++ ['<']) ++ ['/']) ++ ['p']) ++ ['a']) ++ ['r']) ++ ['a']) ++ ['m']) ++ ['e']) ++ ['t']) ++ ['e']) N pn pv PS E ['<','/','p','a','r','a','m','e','t','e'] 'r' ['<','/','p','a','r','a','m','e','t','e','r'] (by decide)]
  rw [feedList_cons, feedChar_pvcloseEnd T P A (((((((((((R ++ ['<']) ++ ['/']) ++ ['p']) ++ ['a']) ++ ['r']) ++ ['a']) ++ ['m']) ++ ['e']) ++ ['t']) ++ ['e']) ++ ['r']) N pn pv PS E ['<','/','p','a','r','a','m','e','t','e','r'] '>' (by decide)]
  rfl

theorem feed_invokeClose (T : Option (List Char)) (P A R N pn pv : List Char)
    (PS : List (String × String)) (E : List PEvent) :
    ∃ R2, feedList T (tstate PMode.toolBody [] P A R 0 N true pn pv PS E) invokeCloseL =
      ⟨PMode.toolDone, [], [], [], A, R2, A, 0, N, true, pn, pv, PS,
        flushE E P ++ [PEvent.ptool ⟨N⟩ PS]⟩ := by
  apply Exists.intro
  rw [invokeCloseL_eq]
  rw [feedList_cons, show feedChar T (tstate PMode.toolBody [] P A R 0 N true pn pv PS E) '<' = tstate PMode.toolBody ['<'] P A (R ++ ['<']) 0 N true pn pv PS E from rfl]
  rw [feedList_cons, show feedChar T (tstate PMode.toolBody ['<'] P A (R ++ ['<']) 0 N true pn pv PS E) '/' = tstate PMode.toolBody ['<','/'] P A ((R ++ ['<']) ++ ['/']) 0 N true pn pv PS E from rfl]
  rw [feedList_cons, show feedChar T (tstate PMode.toolBody ['<','/'] P A ((R ++ ['<']) ++ ['/']) 0 N true pn pv PS E) 'i' = tstate PMode.toolBody ['<','/','i'] P A (((R ++ ['<']) ++ ['/']) ++ ['i']) 0 N true pn pv PS E from rfl]
  rw [feedList_cons, show feedChar T (tstate PMode.toolBody ['<','/','i'] P A (((R ++ ['<']) ++ ['/']) ++ ['i']) 0 N true pn pv PS E) 'n' = tstate PMode.toolBody ['<','/','i','n'] P A ((((R ++ ['<']) ++ ['/']) ++ ['i']) ++ ['n']) 0 N true pn pv PS E from rfl]
  rw [feedList_cons, show feedChar T (tstate PMode.toolBody ['<','/','i','n'] P A ((((R ++ ['<']) ++ ['/']) ++ ['i']) ++ ['n']) 0 N true pn pv PS E) 'v' = tstate PMode.toolBody ['<','/','i','n','v'] P A (((((R ++ ['<']) ++ ['/']) ++ ['i']) ++ ['n']) ++ ['v']) 0 N true pn pv PS E from rfl]
  rw [feedList_cons, show feedChar T (tstate PMode.toolBody ['<','/','i','n','v'] P A (((((R ++ ['<']) ++ ['/']) ++ ['i']) ++ ['n']) ++ ['v']) 0 N true pn pv PS E) 'o' = tstate PMode.toolBody ['<','/','i','n','v','o'] P A ((((((R ++ ['<']) ++ ['/']) ++ ['i']) ++ ['n']) ++ ['v']) ++ ['o']) 0 N true pn pv PS E from rfl]
  rw [feedList_cons, show feedChar T (tstate PMode.toolBody ['<','/','i','n','v','o'] P A ((((((R ++ ['<']) ++ ['/']) ++ ['i']) ++ ['n']) ++ ['v']) ++ ['o']) 0 N true pn pv PS E) 'k' = tstate PMode.toolBody ['<','/','i','n','v','o','k'] P A (((((((R ++ ['<']) ++ ['/']) ++ ['i']) ++ ['n']) ++ ['v']) ++ ['o']) ++ ['k']) 0 N true pn pv PS E from rfl]
  rw [feedList_cons, show feedChar T (tstate PMode.toolBody ['<','/','i','n','v','o','k'] P A (((((((R ++ ['<']) ++ ['/']) ++ ['i']) ++ ['n']) ++ ['v']) ++ ['o']) ++ ['k']) 0 N true pn pv PS E) 'e' = tstate PMode.toolBody ['<','/','i','n','v','o','k','e'] P A ((((((((R ++ ['<']) ++ ['/']) ++ ['i']) ++ ['n']) ++ ['v']) ++ ['o']) ++ ['k']) ++ ['e']) 0 N true pn pv PS E from rfl]
  rw [feedList_cons, feedChar_body_close T P A ((((((((R ++ ['<']) ++ ['/']) ++ ['i']) ++ ['n']) ++ ['v']) ++ ['o']) ++ ['k']) ++ ['e']) N pn pv PS E]
  rfl

end Toolify

namespace Toolify

theorem feed_params (T : Option (List Char)) (ps : List (String × String))
    (hps : ∀ p ∈ ps, (∀ c ∈ (p.1 : String).data, c ≠ dq) ∧
      (∀ c ∈ (p.2 : String).data, c ≠ '<')) :
    ∀ P A R N pn pv : List Char, ∀ PS : List (String × String), ∀ E : List PEvent,
      ∃ R2 pn2 pv2 : List Char,
        feedList T (tstate PMode.toolBody [] P A R 0 N true pn pv PS E)
          (renderParams ps).data =
        tstate PMode.toolBody [] P A R2 0 N true pn2 pv2
          (PS ++ ps.map (fun pr => (pr.1, unquoteVal pr.2))) E := by
  induction ps with
  | nil =>
    intro P A R N pn pv PS E
    refine ⟨R, pn, pv, ?_⟩
    simp only [List.map_nil, List.append_nil]
    rfl
  | cons p rest ih =>
    obtain ⟨n, v⟩ := p
    intro P A R N pn pv PS E
    have hrend : (renderParams ((n, v) :: rest)).data =
        ((((paramOpenL ++ n.data) ++ [dq, '>']) ++ v.data) ++ paramCloseL) ++
          (renderParams rest).data := by
      show ("<parameter name=\"" ++ n ++ "\">" ++ v ++ "</parameter>" ++
        renderParams rest).data = _
      simp only [String.data_append]
      rfl
    rw [hrend, feedList_append, feedList_append, feedList_append, feedList_append,
      feedList_append]
    obtain ⟨R1, h1⟩ := feed_paramOpen T P A R N pn pv PS E
    rw [h1]
    obtain ⟨R2a, h2⟩ := feed_pname T n.data
      ((hps (n, v) (List.mem_cons_self _ _)).1) P A R1 N [] pv PS E
    rw [h2]
    simp only [List.nil_append]
    obtain ⟨R3, h3⟩ := feed_pnameEnd T P A R2a N n.data pv PS E
    rw [h3]
    obtain ⟨R4, h4⟩ := feed_pval T v.data
      ((hps (n, v) (List.mem_cons_self _ _)).2) P A R3 N n.data [] PS E
    rw [h4]
    simp only [List.nil_append]
    obtain ⟨R5, h5⟩ := feed_paramClose T P A R4 N n.data v.data PS E
    rw [h5]
    obtain ⟨R6, pn6, pv6, h6⟩ := ih (fun x hx => hps x (List.mem_cons_of_mem _ hx))
      P A R5 N n.data v.data (PS ++ [(⟨n.data⟩, unquoteVal ⟨v.data⟩)]) E
    refine ⟨R6, pn6, pv6, ?_⟩
    rw [h6, str_mk_data n, str_mk_data v, List.append_assoc]
    rfl

theorem finishP_toolDone (A R N pn pv : List Char) (PS : List (String × String))
    (Ev : List PEvent) :
    finishP ⟨PMode.toolDone, [], [], [], A, R, A, 0, N, true, pn, pv, PS, Ev⟩ =
      ⟨PMode.toolDone, [], [], [], A, R, A, 0, N, true, pn, pv, PS, Ev⟩ := by
  unfold finishP
  dsimp only
  rw [flushT_eq]
  rfl

theorem finishP_bstate (A P : List Char) (E : List PEvent) :
    finishP (bstate A P E []) = bstate A [] (flushE E P) [] := by
  unfold finishP bstate
  dsimp only
  rw [pushText_nil, flushT_eq]

end Toolify

namespace Toolify

/-- The text accumulated (`allText`) after a segment list. -/
def segA (A : List Char) : List Seg → List Char
  | [] => A
  | Seg.plain s :: rest => segA (A ++ s.data) rest
  | Seg.think _ :: rest => segA A rest

/-- The buffered text (`tpend`) after a segment list. -/
def segP (P : List Char) : List Seg → List Char
  | [] => P
  | Seg.plain s :: rest => segP (P ++ s.data) rest
  | Seg.think _ :: rest => segP [] rest

/-- The events emitted after a segment list. -/
def segE (E : List PEvent) (P : List Char) : List Seg → List PEvent
  | [] => E
  | Seg.plain s :: rest => segE E (P ++ s.data) rest
  | Seg.think s :: rest => segE (flushE E P ++ [PEvent.pthinking s]) [] rest

theorem flushE_nil (E : List PEvent) : flushE E [] = E := rfl

theorem feed_segs (t : List Char) (segs : List Seg)
    (hs : ∀ sg ∈ segs, segOk ('<' :: '<' :: t) sg) :
    ∀ A P : List Char, ∀ E : List PEvent,
      feedList (some ('<' :: '<' :: t)) (bstate A P E []) (renderSegs segs).data =
        bstate (segA A segs) (segP P segs) (segE E P segs) [] := by
  induction segs with
  | nil => intro A P E; rfl
  | cons sg rest ih =>
    intro A P E
    cases sg with
    | plain s =>
      obtain ⟨h1, h2, h3, h4⟩ := hs (Seg.plain s) (List.mem_cons_self _ _)
      rw [show renderSegs (Seg.plain s :: rest) = s ++ renderSegs rest from rfl,
        String.data_append, feedList_append,
        feed_plain_gen ('<' :: '<' :: t) s.data h1 h2 h3 h4 A P E]
      exact ih (fun x hx => hs x (List.mem_cons_of_mem _ hx)) (A ++ s.data) (P ++ s.data) E
    | think s =>
      obtain ⟨h1, h2⟩ := hs (Seg.think s) (List.mem_cons_self _ _)
      rw [show renderSegs (Seg.think s :: rest) =
        (("<thinking>" ++ s) ++ "</thinking>") ++ renderSegs rest from rfl]
      rw [String.data_append, String.data_append, String.data_append]
      rw [feedList_append, feedList_append, feedList_append]
      rw [show ("<thinking>" : String).data = thinkOpenL from rfl]
      rw [feed_thinkOpen t A P E]
      rw [feed_think_gen _ s.data h1 h2 A P E []]
      simp only [List.nil_append]
      rw [show (['<','/','t','h','i','n','k','i','n','g','>'] : List Char) = thinkCloseL from rfl]
      rw [feed_thinkClose _ A P E s.data, str_mk_data]
      exact ih (fun x hx => hs x (List.mem_cons_of_mem _ hx)) A []
        (flushE E P ++ [PEvent.pthinking s])

theorem tc_segs (segs : List Seg) :
    ∀ E : List PEvent, ∀ P : List Char,
      textConcat (flushE (segE E P segs) (segP P segs)) =
        textConcat (flushE E P) ++ plainConcat segs := by
  induction segs with
  | nil => intro E P; exact (str_append_empty _).symm
  | cons sg rest ih =>
    cases sg with
    | plain s =>
      intro E P
      rw [show segE E P (Seg.plain s :: rest) = segE E (P ++ s.data) rest from rfl,
        show segP P (Seg.plain s :: rest) = segP (P ++ s.data) rest from rfl,
        show plainConcat (Seg.plain s :: rest) = s ++ plainConcat rest from rfl]
      rw [ih E (P ++ s.data)]
      rw [textConcat_flushE, textConcat_flushE]
      rw [show (⟨P ++ s.data⟩ : String) = (⟨P⟩ : String) ++ s from by
        rw [← str_append_data, str_mk_data]]
      rw [String.append_assoc, String.append_assoc, String.append_assoc]
    | think s =>
      intro E P
      rw [show segE E P (Seg.think s :: rest) =
          segE (flushE E P ++ [PEvent.pthinking s]) [] rest from rfl,
        show segP P (Seg.think s :: rest) = segP [] rest from rfl,
        show plainConcat (Seg.think s :: rest) = plainConcat rest from rfl]
      rw [ih (flushE E P ++ [PEvent.pthinking s]) []]
      rw [textConcat_flushE, textConcat_append]
      rw [show textConcat [PEvent.pthinking s] = "" from rfl]
      rw [str_append_empty, str_append_empty]

end Toolify

namespace Toolify

end Toolify

namespace Toolify

/-- C1 counterexample: on `"A<<CALL_aa11>><invoke"` (trigger followed by
an unterminated `<invoke` at EOF) the parser emits only `"A"` as text —
the consumed tail is reported through `ToolCallFailed` — while the
claim's three-span removal leaves `"A<invoke"` (no complete
`<invoke>…</invoke>` span exists, so only the trigger is removed). -/
theorem c1_counterexample :
    textConcat (runToolify (some "<<CALL_aa11>>") "A<<CALL_aa11>><invoke") = "A" ∧
    claimStripStr (some "<<CALL_aa11>>") "A<<CALL_aa11>><invoke" = "A<invoke" ∧
    ¬(textConcat (runToolify (some "<<CALL_aa11>>") "A<<CALL_aa11>><invoke") =
      claimStripStr (some "<<CALL_aa11>>") "A<<CALL_aa11>><invoke") := by
  refine ⟨by decide, by decide, by decide⟩

end Toolify

namespace Toolify

/-- The tool-territory modes (everything between the trigger match and
`TOOL_DONE`, including the failure sink). -/
def toolMode : PMode → Bool
  | PMode.toolWaitInvoke => true
  | PMode.toolName => true
  | PMode.toolBody => true
  | PMode.toolParamName => true
  | PMode.toolParamValue => true
  | PMode.toolFail => true
  | _ => false

theorem feedChar_tool_step (T : Option (List Char)) (m : PMode) (b P A R : List Char)
    (k : ℕ) (N : List Char) (q : Bool) (pn pv : List Char) (PS : List (String × String))
    (E : List PEvent) (c : Char) (hm : toolMode m = true) :
    (∃ m2 b2, ∃ k2 : ℕ, ∃ (N2 : List Char) (q2 : Bool) (pn2 pv2 : List Char)
        (PS2 : List (String × String)),
      feedChar T (tstate m b P A R k N q pn pv PS E) c =
        tstate m2 b2 P A (R ++ [c]) k2 N2 q2 pn2 pv2 PS2 E ∧ toolMode m2 = true) ∨
    (∃ (k2 : ℕ) (q2 : Bool) (N2 pn2 pv2 : List Char) (PS2 : List (String × String)),
      feedChar T (tstate m b P A R k N q pn pv PS E) c =
        ⟨PMode.toolDone, [], [], [], A, R ++ [c], A, k2, N2, q2, pn2, pv2, PS2,
          flushE E P ++ [PEvent.ptool ⟨N2⟩ PS2]⟩) := by
  cases m with
  | normal => simp [toolMode] at hm
  | thinkingM => simp [toolMode] at hm
  | toolDone => simp [toolMode] at hm
  | toolWaitInvoke =>
    unfold feedChar tstate
    dsimp only
    split
    · exact Or.inl ⟨_, _, _, _, _, _, _, _, rfl, rfl⟩
    · split
      · split
        · exact Or.inl ⟨_, _, _, _, _, _, _, _, rfl, rfl⟩
        · exact Or.inl ⟨_, _, _, _, _, _, _, _, rfl, rfl⟩
      · exact Or.inl ⟨_, _, _, _, _, _, _, _, rfl, rfl⟩
  | toolName =>
    unfold feedChar tstate
    dsimp only
    split
    · split
      · exact Or.inl ⟨_, _, _, _, _, _, _, _, rfl, rfl⟩
      · exact Or.inl ⟨_, _, _, _, _, _, _, _, rfl, rfl⟩
    · split
      · exact Or.inl ⟨_, _, _, _, _, _, _, _, rfl, rfl⟩
      · exact Or.inl ⟨_, _, _, _, _, _, _, _, rfl, rfl⟩
  | toolBody =>
    unfold feedChar tstate
    dsimp only
    split
    · exact Or.inl ⟨_, _, _, _, _, _, _, _, rfl, rfl⟩
    · exact Or.inl ⟨_, _, _, _, _, _, _, _, rfl, rfl⟩
    · refine Or.inr ⟨k, q, N, pn, pv, PS, ?_⟩
      unfold pushEv
      rw [flushT_eq]
  | toolParamName =>
    unfold feedChar tstate
    dsimp only
    split
    · split
      · exact Or.inl ⟨_, _, _, _, _, _, _, _, rfl, rfl⟩
      · exact Or.inl ⟨_, _, _, _, _, _, _, _, rfl, rfl⟩
    · split
      · exact Or.inl ⟨_, _, _, _, _, _, _, _, rfl, rfl⟩
      · exact Or.inl ⟨_, _, _, _, _, _, _, _, rfl, rfl⟩
  | toolParamValue =>
    unfold feedChar tstate
    dsimp only
    split
    · exact Or.inl ⟨_, _, _, _, _, _, _, _, rfl, rfl⟩
    · exact Or.inl ⟨_, _, _, _, _, _, _, _, rfl, rfl⟩
  | toolFail =>
    exact Or.inl ⟨PMode.toolFail, b, k, N, q, pn, pv, PS, rfl, rfl⟩

theorem feedList_toolDone (T : Option (List Char)) (st : PState)
    (hst : st.mode = PMode.toolDone) (l : List Char) : feedList T st l = st := by
  induction l with
  | nil => rfl
  | cons c cs ih =>
    rw [feedList_cons, show feedChar T st c = st from by
      unfold feedChar
      rw [hst]]
    exact ih

theorem feed_tool_any (T : Option (List Char)) (l : List Char) :
    ∀ (m : PMode) (b : List Char) (k : ℕ) (N : List Char) (q : Bool)
      (pn pv : List Char) (PS : List (String × String)) (P A R : List Char)
      (E : List PEvent), toolMode m = true →
      (∃ m2 b2, ∃ k2 : ℕ, ∃ (N2 : List Char) (q2 : Bool) (pn2 pv2 : List Char)
          (PS2 : List (String × String)),
        feedList T (tstate m b P A R k N q pn pv PS E) l =
          tstate m2 b2 P A (R ++ l) k2 N2 q2 pn2 pv2 PS2 E ∧ toolMode m2 = true) ∨
      (∃ (R2 : List Char) (k2 : ℕ) (q2 : Bool) (N2 pn2 pv2 : List Char)
          (PS2 : List (String × String)),
        feedList T (tstate m b P A R k N q pn pv PS E) l =
          ⟨PMode.toolDone, [], [], [], A, R2, A, k2, N2, q2, pn2, pv2, PS2,
            flushE E P ++ [PEvent.ptool ⟨N2⟩ PS2]⟩) := by
  induction l with
  | nil =>
    intro m b k N q pn pv PS P A R E hm
    refine Or.inl ⟨m, b, k, N, q, pn, pv, PS, ?_, hm⟩
    rw [List.append_nil]
    rfl
  | cons c cs ih =>
    intro m b k N q pn pv PS P A R E hm
    rcases feedChar_tool_step T m b P A R k N q pn pv PS E c hm with
      ⟨m2, b2, k2, N2, q2, pn2, pv2, PS2, hstep, hm2⟩ |
      ⟨k2, q2, N2, pn2, pv2, PS2, hstep⟩
    · rw [feedList_cons, hstep]
      rcases ih m2 b2 k2 N2 q2 pn2 pv2 PS2 P A (R ++ [c]) E hm2 with
        ⟨m3, b3, k3, N3, q3, pn3, pv3, PS3, hrest, hm3⟩ |
        ⟨R3, k3, q3, N3, pn3, pv3, PS3, hrest⟩
      · rw [hrest]
        refine Or.inl ⟨m3, b3, k3, N3, q3, pn3, pv3, PS3, ?_, hm3⟩
        rw [List.append_assoc]
        rfl
      · rw [hrest]
        exact Or.inr ⟨R3, k3, q3, N3, pn3, pv3, PS3, rfl⟩
    · rw [feedList_cons, hstep, feedList_toolDone T _ rfl cs]
      exact Or.inr ⟨R ++ [c], k2, q2, N2, pn2, pv2, PS2, rfl⟩

theorem finishP_tool (m : PMode) (b P A R : List Char) (k : ℕ) (N : List Char)
    (q : Bool) (pn pv : List Char) (PS : List (String × String)) (E : List PEvent)
    (hm : toolMode m = true) :
    (finishP (tstate m b P A R k N q pn pv PS E)).events =
      flushE E P ++ [PEvent.ptoolFailed ⟨R⟩ ⟨A⟩] := by
  cases m with
  | normal => simp [toolMode] at hm
  | thinkingM => simp [toolMode] at hm
  | toolDone => simp [toolMode] at hm
  | toolWaitInvoke =>
    unfold finishP tstate
    dsimp only
    unfold pushEv
    rw [flushT_eq]
  | toolName =>
    unfold finishP tstate
    dsimp only
    unfold pushEv
    rw [flushT_eq]
  | toolBody =>
    unfold finishP tstate
    dsimp only
    unfold pushEv
    rw [flushT_eq]
  | toolParamName =>
    unfold finishP tstate
    dsimp only
    unfold pushEv
    rw [flushT_eq]
  | toolParamValue =>
    unfold finishP tstate
    dsimp only
    unfold pushEv
    rw [flushT_eq]
  | toolFail =>
    unfold finishP tstate
    dsimp only
    unfold pushEv
    rw [flushT_eq]

theorem finishP_toolDone_ev (A R : List Char) (k : ℕ) (N : List Char) (q : Bool)
    (pn pv : List Char) (PS : List (String × String)) (Ev : List PEvent) :
    (finishP ⟨PMode.toolDone, [], [], [], A, R, A, k, N, q, pn, pv, PS, Ev⟩).events
      = Ev := by
  unfold finishP
  dsimp only
  rw [flushT_eq]
  rfl

theorem segA_plainConcat (segs : List Seg) :
    ∀ A : List Char, (⟨segA A segs⟩ : String) = (⟨A⟩ : String) ++ plainConcat segs := by
  induction segs with
  | nil => intro A; exact (str_append_empty _).symm
  | cons sg rest ih =>
    cases sg with
    | plain s =>
      intro A
      rw [show segA A (Seg.plain s :: rest) = segA (A ++ s.data) rest from rfl,
        ih (A ++ s.data),
        show plainConcat (Seg.plain s :: rest) = s ++ plainConcat rest from rfl]
      rw [show (⟨A ++ s.data⟩ : String) = (⟨A⟩ : String) ++ s from by
        rw [← str_append_data, str_mk_data]]
      rw [String.append_assoc]
    | think s =>
      intro A
      exact ih A

end Toolify

namespace Toolify

theorem segA_nil_str (segs : List Seg) :
    (⟨segA [] segs⟩ : String) = plainConcat segs := by
  rw [segA_plainConcat segs []]
  exact str_empty_append _

/-- C1 (amended): for transcripts made of plain runs and complete
thinking spans — each free of marker occurrences and of a trailing
partial marker, `<` itself allowed — optionally followed by the trigger
`<<CALL_…>>` and an arbitrary remainder: (1) the concatenated `Text`
content is exactly the concatenated plain runs, whatever the remainder
holds (a tool block, a malformed fragment, or trailing ignored text);
(2) with a trigger present the events end in a single `ToolCall` or a
single `ToolCallFailed` whose content is the raw consumed region
(trigger included) and whose `priorText` is the emitted text; (3) a
remainder that is whitespace plus a well-formed `<invoke>` block yields
the `ToolCall` with that name and its JSON-unquoted parameters. -/
theorem c1_text_preservation (mid : String) (segs : List Seg) (tl : Option (List Char))
    (hsegs : ∀ sg ∈ segs, segOk ("<<CALL_" ++ mid ++ ">>").data sg) :
    (textConcat (runToolify (some ("<<CALL_" ++ mid ++ ">>"))
        (renderSegs segs ++ (match tl with
          | none => ""
          | some tail => (⟨("<<CALL_" ++ mid ++ ">>").data ++ tail⟩ : String)))) =
      plainConcat segs) ∧
    (∀ tail, tl = some tail →
      (∃ n a E0, runToolify (some ("<<CALL_" ++ mid ++ ">>"))
          (renderSegs segs ++ (⟨("<<CALL_" ++ mid ++ ">>").data ++ tail⟩ : String)) =
          E0 ++ [PEvent.ptool n a]) ∨
      (∃ E0, runToolify (some ("<<CALL_" ++ mid ++ ">>"))
          (renderSegs segs ++ (⟨("<<CALL_" ++ mid ++ ">>").data ++ tail⟩ : String)) =
          E0 ++ [PEvent.ptoolFailed ⟨("<<CALL_" ++ mid ++ ">>").data ++ tail⟩
            (plainConcat segs)])) ∧
    (∀ (ws nm : String) (ps : List (String × String)), tl = some (wfInvoke ws nm ps) →
      (∀ c ∈ ws.data, isJsWs c = true) → (∀ c ∈ nm.data, c ≠ dq) →
      (∀ p ∈ ps, (∀ c ∈ (p.1 : String).data, c ≠ dq) ∧
        (∀ c ∈ (p.2 : String).data, c ≠ '<')) →
      ∃ E0, runToolify (some ("<<CALL_" ++ mid ++ ">>"))
          (renderSegs segs ++
            (⟨("<<CALL_" ++ mid ++ ">>").data ++ wfInvoke ws nm ps⟩ : String)) =
        E0 ++ [PEvent.ptool nm (ps.map (fun pr => (pr.1, unquoteVal pr.2)))]) := by
  have htr : Option.map String.data (some ("<<CALL_" ++ mid ++ ">>")) =
      some (['<','<','C','A','L','L','_'] ++ mid.data ++ ['>','>']) := rfl
  have hT2 : (['<','<','C','A','L','L','_'] ++ mid.data ++ ['>','>'] : List Char) =
      '<' :: '<' :: ((['C','A','L','L','_'] ++ mid.data) ++ ['>','>']) := rfl
  have hinput : ∀ tail2 : List Char,
      (renderSegs segs ++
        (⟨("<<CALL_" ++ mid ++ ">>").data ++ tail2⟩ : String)).data =
      (renderSegs segs).data ++
        ((['<','<','C','A','L','L','_'] ++ mid.data ++ ['>','>']) ++ tail2) := by
    intro tail2
    rw [String.data_append]
    rfl
  have hst : ∀ tail2 : List Char,
      feedList (some (['<','<','C','A','L','L','_'] ++ mid.data ++ ['>','>'])) initP
        ((renderSegs segs).data ++
          ((['<','<','C','A','L','L','_'] ++ mid.data ++ ['>','>']) ++ tail2)) =
      feedList (some (['<','<','C','A','L','L','_'] ++ mid.data ++ ['>','>']))
        (tstate PMode.toolWaitInvoke [] (segP [] segs) (segA [] segs)
          (['<','<','C','A','L','L','_'] ++ mid.data ++ ['>','>']) 0 [] false [] [] []
          (segE [] [] segs)) tail2 := by
    intro tail2
    rw [feedList_append, initP_eq]
    rw [hT2]
    rw [feed_segs ((['C','A','L','L','_'] ++ mid.data) ++ ['>','>']) segs hsegs [] [] []]
    rw [← hT2]
    rw [feedList_append]
    rw [feed_trigger mid.data (segA [] segs) (segP [] segs) (segE [] [] segs)]
  cases tl with
  | none =>
    refine ⟨?_, ?_, ?_⟩
    · dsimp only
      unfold runToolify
      rw [htr, str_append_empty, initP_eq]
      rw [hT2]
      rw [feed_segs ((['C','A','L','L','_'] ++ mid.data) ++ ['>','>']) segs hsegs [] [] []]
      rw [finishP_bstate]
      rw [show (bstate (segA [] segs) []
        (flushE (segE [] [] segs) (segP [] segs)) []).events
        = flushE (segE [] [] segs) (segP [] segs) from rfl]
      rw [tc_segs segs [] []]
      rw [show flushE ([] : List PEvent) [] = [] from rfl]
      rw [show textConcat [] = "" from rfl, str_empty_append]
    · intro tail h
      exact Option.noConfusion h
    · intro ws nm ps h
      exact Option.noConfusion h
  | some tail =>
    have harm : (∃ n a, runToolify (some ("<<CALL_" ++ mid ++ ">>"))
          (renderSegs segs ++
            (⟨("<<CALL_" ++ mid ++ ">>").data ++ tail⟩ : String)) =
          flushE (segE [] [] segs) (segP [] segs) ++ [PEvent.ptool n a]) ∨
        (runToolify (some ("<<CALL_" ++ mid ++ ">>"))
          (renderSegs segs ++
            (⟨("<<CALL_" ++ mid ++ ">>").data ++ tail⟩ : String)) =
          flushE (segE [] [] segs) (segP [] segs) ++
            [PEvent.ptoolFailed ⟨("<<CALL_" ++ mid ++ ">>").data ++ tail⟩
              (plainConcat segs)]) := by
      unfold runToolify
      rw [htr, hinput tail, hst tail]
      rcases feed_tool_any (some (['<','<','C','A','L','L','_'] ++ mid.data ++ ['>','>']))
          tail PMode.toolWaitInvoke [] 0 [] false [] [] []
          (segP [] segs) (segA [] segs)
          (['<','<','C','A','L','L','_'] ++ mid.data ++ ['>','>'])
          (segE [] [] segs) rfl with
        ⟨m2, b2, k2, N2, q2, pn2, pv2, PS2, hfeed, hm2⟩ |
        ⟨R2, k2, q2, N2, pn2, pv2, PS2, hfeed⟩
      · right
        rw [hfeed,
          finishP_tool m2 b2 (segP [] segs) (segA [] segs)
            ((['<','<','C','A','L','L','_'] ++ mid.data ++ ['>','>']) ++ tail)
            k2 N2 q2 pn2 pv2 PS2 (segE [] [] segs) hm2]
        rw [segA_nil_str]
        rfl
      · left
        refine ⟨⟨N2⟩, PS2, ?_⟩
        rw [hfeed, finishP_toolDone_ev]
    refine ⟨?_, ?_, ?_⟩
    · dsimp only
      rcases harm with ⟨n, a, he⟩ | he
      · rw [he, textConcat_append, tc_segs segs [] []]
        rw [show flushE ([] : List PEvent) [] = [] from rfl]
        rw [show textConcat [] = "" from rfl, str_empty_append]
        rw [show textConcat [PEvent.ptool n a] = "" from rfl, str_append_empty]
      · rw [he, textConcat_append, tc_segs segs [] []]
        rw [show flushE ([] : List PEvent) [] = [] from rfl]
        rw [show textConcat [] = "" from rfl, str_empty_append]
        rw [show textConcat [PEvent.ptoolFailed
          (⟨("<<CALL_" ++ mid ++ ">>").data ++ tail⟩ : String)
          (plainConcat segs)] = "" from rfl, str_append_empty]
    · intro tail2 h
      injection h with h2
      subst h2
      rcases harm with ⟨n, a, he⟩ | he
      · exact Or.inl ⟨n, a, flushE (segE [] [] segs) (segP [] segs), he⟩
      · exact Or.inr ⟨flushE (segE [] [] segs) (segP [] segs), he⟩
    · intro ws nm ps h hws hnm hps
      injection h with h2
      subst h2
      refine ⟨flushE (segE [] [] segs) (segP [] segs), ?_⟩
      unfold runToolify
      rw [htr, hinput (wfInvoke ws nm ps), hst (wfInvoke ws nm ps)]
      rw [show wfInvoke ws nm ps =
        ((((ws.data ++ invokeOpenL) ++ nm.data) ++ [dq, '>']) ++
          (renderParams ps).data) ++ invokeCloseL from rfl]
      rw [feedList_append, feedList_append, feedList_append, feedList_append,
        feedList_append]
      rw [feed_ws (some (['<','<','C','A','L','L','_'] ++ mid.data ++ ['>','>']))
        ws.data hws (segP [] segs) (segA [] segs)
        (['<','<','C','A','L','L','_'] ++ mid.data ++ ['>','>']) [] []
        [] (segE [] [] segs)]
      obtain ⟨R1, h1⟩ := feed_invokeOpen
        (some (['<','<','C','A','L','L','_'] ++ mid.data ++ ['>','>']))
        (segP [] segs) (segA [] segs)
        ((['<','<','C','A','L','L','_'] ++ mid.data ++ ['>','>']) ++ ws.data)
        [] [] [] (segE [] [] segs)
      rw [h1]
      obtain ⟨R2b, h2b⟩ := feed_tname
        (some (['<','<','C','A','L','L','_'] ++ mid.data ++ ['>','>'])) nm.data hnm
        (segP [] segs) (segA [] segs) R1 [] [] [] [] (segE [] [] segs)
      rw [h2b]
      simp only [List.nil_append]
      obtain ⟨R3, h3⟩ := feed_nameEnd
        (some (['<','<','C','A','L','L','_'] ++ mid.data ++ ['>','>']))
        (segP [] segs) (segA [] segs) R2b nm.data [] [] [] (segE [] [] segs)
      rw [h3]
      obtain ⟨R4, pn4, pv4, h4⟩ := feed_params
        (some (['<','<','C','A','L','L','_'] ++ mid.data ++ ['>','>'])) ps hps
        (segP [] segs) (segA [] segs) R3 nm.data [] [] [] (segE [] [] segs)
      rw [h4]
      simp only [List.nil_append]
      obtain ⟨R5, h5⟩ := feed_invokeClose
        (some (['<','<','C','A','L','L','_'] ++ mid.data ++ ['>','>']))
        (segP [] segs) (segA [] segs) R4 nm.data pn4 pv4
        (ps.map (fun pr => (pr.1, unquoteVal pr.2))) (segE [] [] segs)
      rw [h5, finishP_toolDone_ev, str_mk_data]

end Toolify

namespace Toolify

theorem c1_text_preservation_witness :
    (textConcat (runToolify (some ("<<CALL_" ++ "ab" ++ ">>"))
        (renderSegs [Seg.plain "a<b ", Seg.think "x<y", Seg.plain "c"] ++
          (⟨("<<CALL_" ++ "ab" ++ ">>").data ++
            wfInvoke "\n " "get_weather" [("city", "\"SF\"")]⟩ : String))) =
      plainConcat [Seg.plain "a<b ", Seg.think "x<y", Seg.plain "c"]) ∧
    (∃ E0, runToolify (some ("<<CALL_" ++ "ab" ++ ">>"))
        (renderSegs [Seg.plain "a<b ", Seg.think "x<y", Seg.plain "c"] ++
          (⟨("<<CALL_" ++ "ab" ++ ">>").data ++
            wfInvoke "\n " "get_weather" [("city", "\"SF\"")]⟩ : String)) =
      E0 ++ [PEvent.ptool "get_weather"
        ([(("city" : String), ("\"SF\"" : String))].map
          (fun pr => (pr.1, unquoteVal pr.2)))]) := by
  have h := c1_text_preservation "ab" [Seg.plain "a<b ", Seg.think "x<y", Seg.plain "c"]
    (some (wfInvoke "\n " "get_weather" [("city", "\"SF\"")]))
    (by
      intro sg hsg
      rcases List.mem_cons.1 hsg with rfl | hsg1
      · exact ⟨by decide, by decide, by decide, by decide⟩
      rcases List.mem_cons.1 hsg1 with rfl | hsg2
      · exact ⟨by decide, by decide⟩
      rcases List.mem_cons.1 hsg2 with rfl | hsg3
      · exact ⟨by decide, by decide, by decide, by decide⟩
      exact absurd hsg3 (List.not_mem_nil sg))
  refine ⟨h.1, ?_⟩
  exact h.2.2 "\n " "get_weather" [("city", "\"SF\"")] rfl (by decide) (by decide)
    (by
      intro p hp
      rcases List.mem_cons.1 hp with rfl | hp2
      · exact ⟨by decide, by decide⟩
      exact absurd hp2 (List.not_mem_nil p))

end Toolify
